import Mathlib

/-!
# idigna: the HTTP-to-Gopher gateway of `idigna.c`

A shallow embedding of the connection-handling engine of `idigna.c`:
the two registries (`sockets`, `connections`), the per-connection state
machine `handle_connection`, the data-socket dispatch of the poll loop in
`main`, and `parse_port`, which reads the port arguments.

Modelling conventions.

* A byte is a `Nat` (its character code); a memory block is the `List Nat` of
  its bytes, and a `NULL` or zero-length block is `[]`.  Bytes of a block that
  the program has allocated but not yet stored to are `0`.
* A table (`sockets`, `connections`) together with its element count is a
  `List`; `number_sockets` and `number_connections` are the lengths.
* Every system call the program makes is resolved by an explicit environment
  value (`Env`): what `recv`, `send` and `connect_to_remote` return.  What the
  program does to the outside world is logged in the state: descriptors passed
  to `close`, bytes accepted by `send`, bytes delivered by `recv`, diagnostics
  written to `stderr`.
* `exit(1)` is the outcome `exited`; an access outside an object (a table read
  past its end, a store outside a local array) is the outcome `undefined`.
* Memory allocation always succeeds.
* A descriptor is an `Int`. A size (`size_t`) is a `Nat`; sums of sizes of live
  blocks are not reduced modulo `2 ^ 64`, the two unsigned subtractions
  `path_size - written` and `read - written` are (`size_sub`), and so are the
  conversions of the descriptor that passes through a `size_t` variable in the
  `CONNECT` block (`int_to_size`, `size_to_int`).
-/

namespace Idigna

/-! ## Data model -/

/-- The phases of a connection (`enum connection_state`). -/
inductive connection_state where
  | START
  | PATH
  | REQUEST_END
  | CONNECT
  | REQUEST_WRITE
  | READ
  | WRITE
deriving DecidableEq

/-- One entry of the table of sockets (`struct pollfd`, without `revents`). -/
structure pollfd where
  fd : Int
  events : Nat
deriving DecidableEq

/-- The record of one client (`struct connection`). -/
structure connection where
  state : connection_state
  sock : Int
  path : List Nat
  path_size : Nat
  buffer : List Nat
  buffer_size : Nat
  sock_other : Int
  written : Nat
  read : Nat
deriving DecidableEq

/-- The global variables of the program together with the log of its effects. -/
structure Globals where
  sockets : List pollfd
  number_interfaces : Nat
  connections : List connection
  closed : List Int
  sent : List (Int × List Nat)
  received : List (Int × List Nat)
  stderr : List String
deriving DecidableEq

/-- How a call ends: it returns with the globals updated, the process exits,
or the call makes an access outside an object. -/
inductive Outcome where
  | running (g : Globals)
  | exited (g : Globals) (status : Nat)
  | undefined
deriving DecidableEq

/-- Value returned by a `recv`: `-1`, or the bytes stored into the buffer
(none of them at end of file). -/
inductive recv_result where
  | error
  | ok (data : List Nat)
deriving DecidableEq

/-- Value returned by a `send`: `-1`, or the number of bytes accepted. -/
inductive send_result where
  | error
  | ok (amount : Nat)
deriving DecidableEq

/-- One address tried by `connect_to_remote`: what `socket` and `connect`
return for it. -/
structure addr_attempt where
  sock : Int
  connect : Int
deriving DecidableEq

/-- What name resolution gives `connect_to_remote`: the status of
`getaddrinfo` and the resolved addresses in order. -/
structure remote_env where
  status : Int
  results : List addr_attempt
deriving DecidableEq

/-- The system-call results one call of `handle_connection` may consume. -/
structure Env where
  recv : recv_result
  send : send_result
  remote : remote_env
deriving DecidableEq

/-- The `amount` a `recv` returns. -/
def recv_result.amount : recv_result → Int
  | .error => -1
  | .ok data => data.length

/-- The bytes a `recv` delivers. -/
def recv_result.bytes : recv_result → List Nat
  | .error => []
  | .ok data => data

/-! ## Constants -/

/-- Value of `POLLIN` in `<poll.h>`. -/
def POLLIN : Nat := 1

/-- Value of `POLLOUT` in `<poll.h>`. -/
def POLLOUT : Nat := 4

/-- Value of `POLLHUP` in `<poll.h>`. -/
def POLLHUP : Nat := 16

/-- The literal `"GET "`. -/
def GET_ : List Nat := [71, 69, 84, 32]

/-- The literal `"\r\n"`. -/
def CRLF : List Nat := [13, 10]

/-- The literal `"\r\n\r\n"`. -/
def CRLFCRLF : List Nat := [13, 10, 13, 10]

/-- The space character. -/
def SP : Nat := 32

/-! ## Memory helpers -/

/-- Contents of a fresh block of `n` bytes (`malloc(n)`, a local array). -/
def malloc (n : Nat) : List Nat := List.replicate n 0

/-- Resize a block to `n` bytes, keeping the bytes both sizes share. -/
def realloc (block : List Nat) (n : Nat) : List Nat :=
  (block ++ List.replicate n 0).take n

/-- Store the first `n` bytes of `src` into `dst` at offset `off`
(`memmove(dst + off, src, n)`). -/
def memmove (dst : List Nat) (off : Nat) (src : List Nat) (n : Nat) : List Nat :=
  dst.take off ++ src.take n ++ dst.drop (off + n)

/-- Offset of the first byte equal to `c` among the first `n` bytes of `s`
(`memchr(s, c, n)`), `none` for `NULL`. -/
def memchr : List Nat → Nat → Nat → Option Nat
  | [], _, _ => none
  | _ :: _, _, 0 => none
  | b :: t, c, n + 1 => if b = c then some 0 else (memchr t c n).map (· + 1)

/-- Unsigned subtraction of `size_t` values (64 bits), which wraps. -/
def size_sub (a b : Nat) : Nat := (a + 2 ^ 64 - b % 2 ^ 64) % 2 ^ 64

/-- Conversion of an `int` to `size_t`. -/
def int_to_size (x : Int) : Nat := (x % 2 ^ 64).toNat

/-- Conversion of a `size_t` to `int` (reduction modulo `2 ^ 32`). -/
def size_to_int (n : Nat) : Int :=
  if n % 2 ^ 32 < 2 ^ 31 then (n % 2 ^ 32 : Nat) else (n % 2 ^ 32 : Nat) - 2 ^ 32

/-! ## The table of sockets -/

/-- `add_socket(sock, events)`: append an entry. -/
def add_socket (g : Globals) (sock : Int) (events : Nat) : Globals :=
  { g with sockets := g.sockets ++ [{ fd := sock, events := events }] }

/-- The compaction both tables use: unless `index` is the last slot, the last
entry is copied over the entry at `index` (`memmove`); then the table is shrunk
by one entry (`realloc`). -/
def swap_remove {α : Type} (table : List α) (index : Nat) (last : α) : List α :=
  (if index ≠ table.length - 1 then table.set index last else table).dropLast

/-- `remove_socket(index)`: close the descriptor, move the last entry into the
slot unless the slot is the last one, and shrink the table by one. -/
def remove_socket (g : Globals) (index : Nat) : Outcome :=
  match g.sockets[index]?, g.sockets.getLast? with
  | some s, some last =>
    let g1 := { g with closed := g.closed ++ [s.fd] }
    .running { g1 with sockets := swap_remove g1.sockets index last }
  | _, _ => .undefined

/-- `get_socket_index(sock)`: index of the first entry with that descriptor,
`number_sockets` when there is none. -/
def get_socket_index (g : Globals) (sock : Int) : Nat :=
  g.sockets.findIdx (fun s => s.fd == sock)

/-- `socket_change(old, new, events)`: retarget the first entry whose
descriptor is `old`; exit when there is none. -/
def socket_change (g : Globals) (old new : Int) (events : Nat) : Outcome :=
  let socket_index := get_socket_index g old
  if socket_index = g.sockets.length then
    .exited { g with stderr := g.stderr ++ ["socket requested is not in list of sockets"] } 1
  else
    .running { g with sockets := g.sockets.set socket_index { fd := new, events := events } }

/-! ## The table of connections -/

/-- The record `add_connection` creates: zeroed by `calloc`, then `state`,
`sock` and `sock_other` assigned. -/
def new_connection (sock : Int) : connection :=
  { state := .START, sock := sock, path := [], path_size := 0, buffer := [],
    buffer_size := 0, sock_other := -1, written := 0, read := 0 }

/-- `add_connection(sock)`: register the socket for `POLLIN` and append a
fresh record in state `START`. -/
def add_connection (g : Globals) (sock : Int) : Globals :=
  let g1 := add_socket g sock POLLIN
  { g1 with connections := g1.connections ++ [new_connection sock] }

/-- `remove_connection(index)`: remove the entry of the active socket from the
table of sockets (exit when it has none), close the parked socket unless it is
`-1`, and compact the table of connections like the table of sockets. -/
def remove_connection (g : Globals) (index : Nat) : Outcome :=
  match g.connections[index]?, g.connections.getLast? with
  | some conn, some last =>
    let socket_index := get_socket_index g conn.sock
    if socket_index = g.sockets.length then
      .exited { g with stderr := g.stderr ++ ["socket to remove not in table of sockets"] } 1
    else
      match remove_socket g socket_index with
      | .running g1 =>
        let g2 := if conn.sock_other ≠ -1 then
            { g1 with closed := g1.closed ++ [conn.sock_other] } else g1
        .running { g2 with connections := swap_remove g2.connections index last }
      | o => o
  | _, _ => .undefined

/-- `get_connection_index(sock)`: index of the first connection whose active
socket is `sock`, `number_connections` when there is none. -/
def get_connection_index (g : Globals) (sock : Int) : Nat :=
  g.connections.findIdx (fun c => c.sock == sock)

/-! ## Connecting to the remote -/

/-- How `connect_to_remote` ends: it returns a descriptor (or `-1`), or the
process exits. -/
inductive connect_result where
  | returned (g : Globals) (sock : Int)
  | exited (g : Globals)
deriving DecidableEq

/-- The loop of `connect_to_remote` over the resolved addresses: exit when
`socket` fails, close the socket and go on when `connect` fails, return the
first socket that connects, `-1` when none does. -/
def connect_loop (g : Globals) : List addr_attempt → connect_result
  | [] => .returned g (-1)
  | a :: rest =>
    if a.sock = -1 then
      .exited { g with stderr := g.stderr ++ ["socket"] }
    else if a.connect = -1 then
      connect_loop { g with closed := g.closed ++ [a.sock] } rest
    else
      .returned g a.sock

/-- `connect_to_remote()`: exit when `getaddrinfo` fails, else try the
addresses in order. -/
def connect_to_remote (g : Globals) (r : remote_env) : connect_result :=
  if r.status ≠ 0 then
    .exited { g with stderr := g.stderr ++ ["getaddrinfo failed"] }
  else
    connect_loop g r.results

/-! ## The connection state machine -/

/-- `buffer_append(&buffer, &buffer_length, appended, appended_length)`:
the block after the call (its new length is
`buffer_length + appended_length`). -/
def buffer_append (buffer : List Nat) (buffer_length : Nat) (appended : List Nat)
    (appended_length : Nat) : List Nat :=
  memmove (realloc buffer (buffer_length + appended_length)) buffer_length appended
    appended_length

/-- `memdup(mem, size)`. -/
def memdup (mem : List Nat) (size : Nat) : List Nat :=
  memmove (malloc size) 0 mem size

/-- Write a connection record back into its slot of the table. -/
def store (g : Globals) (index : Nat) (conn : connection) : Globals :=
  { g with connections := g.connections.set index conn }

/-- How the reading block at the top of `handle_connection` ends. -/
inductive read_step where
  | remove
  | overrun
  | next (conn : connection)
deriving DecidableEq

/-- The reading block at the top of `handle_connection`.

In `START` and `PATH` the received bytes are appended to `conn->buffer`.

In `REQUEST_END` the carried-over bytes are copied to the front of the local
`char buffer[1024]` and `recv` is handed the address `&buffer + buffer_fill`.
`&buffer` has type `char (*)[1024]`, so that address lies `buffer_fill` whole
arrays, `1024 * buffer_fill` bytes, past the start of `buffer`: with one or
more bytes carried over, every byte `recv` stores lands outside the array
(`overrun`). Then the last four bytes of the first `buffer_fill` bytes of the
local array are kept.

In the other states nothing is read here. -/
def request_read (conn : connection) (r : recv_result) : read_step :=
  if conn.state = .START ∨ conn.state = .PATH then
    let buffer := memmove (malloc 1024) 0 r.bytes r.bytes.length
    let amount := r.amount
    if amount ≤ 0 then
      .remove
    else
      .next { conn with
        buffer := buffer_append conn.buffer conn.buffer_size buffer amount.toNat
        buffer_size := conn.buffer_size + amount.toNat }
  else if conn.state = .REQUEST_END then
    let buffer_fill := conn.buffer_size
    let buffer := memmove (malloc 1024) 0 conn.buffer buffer_fill
    let amount := r.amount
    if amount ≤ 0 then
      .remove
    else if 1024 < 1024 * buffer_fill + amount.toNat then
      .overrun
    else
      let buffer := memmove buffer (1024 * buffer_fill) r.bytes amount.toNat
      let buffer_fill := buffer_fill + amount.toNat
      if buffer_fill < 4 then
        .next { conn with
          buffer := memmove conn.buffer 0 buffer buffer_fill
          buffer_size := buffer_fill }
      else
        .next { conn with
          buffer := memmove conn.buffer 0 (buffer.drop (buffer_fill - 4)) 4
          buffer_size := 4 }
  else
    .next conn

/-- The `START` check: when the buffer holds four bytes or more and starts
with `"GET "`, drop these four bytes and go to `PATH`. -/
def start_check (conn : connection) : connection :=
  if conn.state = .START then
    if conn.buffer_size ≥ 4 ∧ conn.buffer.take 4 = GET_ then
      let buffer_size := conn.buffer_size - 4
      { conn with
        buffer_size := buffer_size
        buffer := memmove conn.buffer 0 (conn.buffer.drop 4) buffer_size
        state := .PATH }
    else conn
  else conn

/-- The `PATH` check: when the buffer holds a space, the bytes before the
first one become the path, at most four bytes from `path_end` on (the space
itself when fewer than four are left over, else the last four bytes of the
buffer) are kept in a fresh four-byte buffer, and the state is
`REQUEST_END`. -/
def path_check (conn : connection) : connection :=
  if conn.state = .PATH then
    match memchr conn.buffer SP conn.buffer_size with
    | some path_end =>
      let path_size := path_end
      let path := memdup conn.buffer path_size
      let left_over := conn.buffer_size - path_size
      let tmpbuf := if left_over < 4 then
          memmove (malloc 4) 0 (conn.buffer.drop path_end) left_over
        else
          memmove (malloc 4) 0 (conn.buffer.drop (conn.buffer_size - 4)) 4
      let tmpbuf_size := if left_over < 4 then left_over else 4
      { conn with
        path_size := path_size
        path := path
        buffer := memmove (malloc 4) 0 tmpbuf tmpbuf_size
        buffer_size := tmpbuf_size
        state := .REQUEST_END }
    | none => conn
  else conn

/-- The `REQUEST_END` check: when the buffer holds exactly `"\r\n\r\n"`,
drop it and go to `CONNECT`. -/
def request_end_check (conn : connection) : connection :=
  if conn.state = .REQUEST_END then
    if conn.buffer_size ≥ 4 ∧ conn.buffer.take 4 = CRLFCRLF then
      { conn with buffer := [], buffer_size := 0, state := .CONNECT }
    else conn
  else conn

/-- The `CONNECT` block: allocate the 1024-byte buffer, connect, make the
remote socket the active one (the value passes through a `size_t` variable),
retarget the entry of the table of sockets, append `"\r\n"` to the path and
go to `REQUEST_WRITE`. The value returned by `connect_to_remote` is not
examined. -/
def connect_block (g : Globals) (index : Nat) (conn : connection) (r : remote_env) : Outcome :=
  let conn := { conn with buffer := malloc 1024, buffer_size := 1024 }
  match connect_to_remote g r with
  | .exited g1 => .exited g1 1
  | .returned g1 sock =>
    let remote_socket := int_to_size sock
    let conn := { conn with sock_other := conn.sock, sock := size_to_int remote_socket }
    match socket_change g1 conn.sock_other conn.sock POLLOUT with
    | .running g2 =>
      let conn := { conn with
        path := buffer_append conn.path conn.path_size CRLF 2
        path_size := conn.path_size + 2
        state := .REQUEST_WRITE }
      .running (store g2 index conn)
    | o => o

/-- The `REQUEST_WRITE` block: offer the unsent part of the path to `send`;
remove the connection on `-1`; else advance `written`, and once it reaches
`path_size` drop the path, retarget the socket for `POLLIN` and go to
`READ`. -/
def request_write_block (g : Globals) (index : Nat) (conn : connection) (s : send_result) :
    Outcome :=
  let start := conn.path.drop conn.written
  let left := size_sub conn.path_size conn.written
  match s with
  | .error => remove_connection g index
  | .ok amount =>
    let g1 := { g with sent := g.sent ++ [(conn.sock, (start.take left).take amount)] }
    let conn := { conn with written := conn.written + amount }
    if conn.written ≥ conn.path_size then
      let conn := { conn with path := [], path_size := 0 }
      match socket_change g1 conn.sock conn.sock POLLIN with
      | .running g2 => .running (store g2 index { conn with state := .READ })
      | o => o
    else
      .running (store g1 index conn)

/-- The `READ` block: receive into the relay buffer; remove the connection on
`-1` or `0`; else record the count, reset `written`, swap the two sockets,
retarget the entry for `POLLOUT` and go to `WRITE`. -/
def read_block (g : Globals) (index : Nat) (conn : connection) (r : recv_result) : Outcome :=
  let amount := r.amount
  if amount = -1 then
    remove_connection g index
  else if amount = 0 then
    remove_connection g index
  else
    let g1 := { g with received := g.received ++ [(conn.sock, r.bytes)] }
    let conn := { conn with
      buffer := memmove conn.buffer 0 r.bytes amount.toNat
      read := amount.toNat
      written := 0 }
    let tmp := conn.sock_other
    let conn := { conn with sock_other := conn.sock, sock := tmp }
    match socket_change g1 conn.sock_other conn.sock POLLOUT with
    | .running g2 => .running (store g2 index { conn with state := .WRITE })
    | o => o

/-- The `WRITE` block: offer the unsent part of the chunk to `send`; remove
the connection on `-1`; else advance `written`, and once it reaches `read`
swap the two sockets, retarget the entry for `POLLIN` and go to `READ`. -/
def write_block (g : Globals) (index : Nat) (conn : connection) (s : send_result) : Outcome :=
  let start := conn.buffer.drop conn.written
  let left := size_sub conn.read conn.written
  match s with
  | .error => remove_connection g index
  | .ok amount =>
    let g1 := { g with sent := g.sent ++ [(conn.sock, (start.take left).take amount)] }
    let conn := { conn with written := conn.written + amount }
    if conn.written ≥ conn.read then
      let tmp := conn.sock_other
      let conn := { conn with sock_other := conn.sock, sock := tmp }
      match socket_change g1 conn.sock_other conn.sock POLLIN with
      | .running g2 => .running (store g2 index { conn with state := .READ })
      | o => o
    else
      .running (store g1 index conn)

/-- `handle_connection(index)`: the reading block, the three request checks,
and then the one block among `CONNECT`, `REQUEST_WRITE`, `READ` and `WRITE`
that the state selects (each of them returns, or leaves a state that selects
no later block). The record is written back to the table when the call
returns. -/
def handle_connection (g : Globals) (index : Nat) (env : Env) : Outcome :=
  match g.connections[index]? with
  | none => .undefined
  | some conn0 =>
    match request_read conn0 env.recv with
    | .remove => remove_connection g index
    | .overrun => .undefined
    | .next conn1 =>
      let g1 := if conn0.state = .START ∨ conn0.state = .PATH ∨ conn0.state = .REQUEST_END then
          { g with received := g.received ++ [(conn0.sock, env.recv.bytes)] } else g
      let conn := request_end_check (path_check (start_check conn1))
      match conn.state with
      | .CONNECT => connect_block g1 index conn env.remote
      | .REQUEST_WRITE => request_write_block g1 index conn env.send
      | .READ => read_block g1 index conn env.recv
      | .WRITE => write_block g1 index conn env.send
      | _ => .running (store g1 index conn)

/-- Successive calls of `handle_connection` on one connection, one
environment per call, stopping at the first call that does not return. -/
def run (g : Globals) (index : Nat) : List Env → Outcome
  | [] => .running g
  | env :: rest =>
    match handle_connection g index env with
    | .running g1 => run g1 index rest
    | o => o

/-- The record at `index` after a call, when the call returned and the table
still has that slot. -/
def Outcome.conn (o : Outcome) (index : Nat) : Option connection :=
  match o with
  | .running g => g.connections[index]?
  | _ => none

/-- `main`, the body of the loop over the table of sockets for entry `i` with
the reported events `revents`: a listener socket accepts a client (`accepted`
is what `accept` returns); a data socket with `POLLHUP`, `POLLIN` or
`POLLOUT` looks its connection up, writes a diagnostic when there is none, and
then removes the connection on `POLLHUP` and handles it otherwise. -/
def dispatch (g : Globals) (i : Nat) (revents : Nat) (accepted : Int) (env : Env) : Outcome :=
  match g.sockets[i]? with
  | none => .undefined
  | some s =>
    if i < g.number_interfaces then
      if revents &&& POLLIN ≠ 0 then
        .running (add_connection g accepted)
      else
        .running g
    else
      if revents &&& (POLLHUP ||| POLLIN ||| POLLOUT) ≠ 0 then
        let connection_index := get_connection_index g s.fd
        let g1 := if connection_index = g.connections.length then
            { g with stderr := g.stderr ++ ["socket does not correspond to any connection"] }
          else g
        if revents &&& POLLHUP ≠ 0 then
          remove_connection g1 connection_index
        else
          handle_connection g1 connection_index env
      else
        .running g

/-! ## The port arguments of `main` -/

/-- The largest value of `long int` (64 bits). -/
def LONG_MAX : Int := 2 ^ 63 - 1

/-- The smallest value of `long int` (64 bits). -/
def LONG_MIN : Int := -2 ^ 63

/-- The library predicate `isspace` in the C locale: space, `\t`, `\n`, `\v`,
`\f`, `\r`. -/
def isspace (c : Nat) : Bool := c = 32 || (9 ≤ c && c ≤ 13)

/-- The library predicate `isdigit`: `'0'` to `'9'`. -/
def isdigit (c : Nat) : Bool := 48 ≤ c && c ≤ 57

/-- The number a run of decimal digits denotes. -/
def digits_value (ds : List Nat) : Nat := ds.foldl (fun acc d => acc * 10 + (d - 48)) 0

/-- The library function `strtol(string, &endptr, 10)`, after the C standard:
white space is skipped, then an optional sign and the longest run of decimal
digits are read. Without a digit nothing is converted and `endptr` is `string`
(`none`); otherwise the result is the value, clamped to the range of
`long int`, with the characters from `endptr` on. A string is the list of its
bytes before the terminating `'\0'`. -/
def strtol (string : List Nat) : Option (Int × List Nat) :=
  let s1 := string.dropWhile isspace
  let negative := s1.head? = some 45
  let s2 := if s1.head? = some 45 ∨ s1.head? = some 43 then s1.tail else s1
  let digits := s2.takeWhile isdigit
  if digits = [] then none
  else
    let value : Int := if negative then -(digits_value digits : Int) else digits_value digits
    some (max LONG_MIN (min LONG_MAX value), s2.dropWhile isdigit)

/-- The function `parse_port`: `-1` when `strtol` converted nothing
(`endptr == string`) or stopped before the end of the string
(`*endptr != '\0'`), `-1` when the value is below `0` or above `1<<16`, the
value otherwise. -/
def parse_port (string : List Nat) : Int :=
  match strtol string with
  | none => -1
  | some (port, endptr) =>
    if endptr ≠ [] then -1
    else if port < 0 ∨ port > ((1 <<< 16 : Nat) : Int) then -1
    else port

/-! ## Vocabulary of the statements -/

/-- The bytes a buffer holds: the first `buffer_size` bytes of the block. -/
def content (c : connection) : List Nat := c.buffer.take c.buffer_size

/-- The request-line test of `START`: four bytes or more, the first four
being `"GET "`. -/
def is_get (acc : List Nat) : Prop := 4 ≤ acc.length ∧ acc.take 4 = GET_

instance (acc : List Nat) : Decidable (is_get acc) := by unfold is_get; infer_instance

/-- The bytes `PATH` carries over when the buffer holds `held` and the path
is its first `n` bytes. -/
def carry_over (held : List Nat) (n : Nat) : List Nat :=
  if held.length - n < 4 then held.drop n else held.drop (held.length - 4)

/-- The bytes delivered by the `recv`s of a list of calls, in order. -/
def delivered : List Env → List Nat
  | [] => []
  | e :: es => e.recv.bytes ++ delivered es

/-- The record after a successful read in `START` or `PATH`: the bytes read
follow the bytes the buffer held. -/
def appended (c : connection) (bytes : List Nat) : connection :=
  { c with buffer := content c ++ bytes, buffer_size := c.buffer_size + bytes.length }

/-- The globals after a `recv` on `sock` delivered `bytes`. -/
def logged (g : Globals) (sock : Int) (bytes : List Nat) : Globals :=
  { g with received := g.received ++ [(sock, bytes)] }

/-- The three request checks of `handle_connection` in sequence. -/
def scan (c : connection) : connection := request_end_check (path_check (start_check c))

/-- The record the `CONNECT` block leaves when `connect_to_remote` returned
`sock`. -/
def connected (conn : connection) (sock : Int) : connection :=
  { conn with
    buffer := malloc 1024
    buffer_size := 1024
    sock_other := conn.sock
    sock := size_to_int (int_to_size sock)
    path := buffer_append conn.path conn.path_size CRLF 2
    path_size := conn.path_size + 2
    state := .REQUEST_WRITE }

/-- A table of sockets with one listener (descriptor 3) and no connection. -/
def demo_listener : Globals :=
  { sockets := [{ fd := 3, events := POLLIN }], number_interfaces := 1, connections := [],
    closed := [], sent := [], received := [], stderr := [] }

/-- The state after a client (descriptor 4) has been accepted. -/
def demo_fresh : Globals := add_connection demo_listener 4

/-- A resolver whose single address connects, on descriptor 5. -/
def demo_remote : remote_env := { status := 0, results := [{ sock := 5, connect := 0 }] }

/-- A call whose `recv` delivers `data`. -/
def demo_recv (data : List Nat) : Env := { recv := .ok data, send := .error, remote := demo_remote }

/-- The record the `PATH` check leaves when it finds the path `S` and carries
the bytes `W` over. -/
def found (c : connection) (S W : List Nat) : connection :=
  { c with
    path_size := S.length
    path := S
    buffer := W ++ List.replicate (4 - W.length) 0
    buffer_size := W.length
    state := .REQUEST_END }

/-- The record the `REQUEST_END` check leaves when it finds the terminator. -/
def terminated (c : connection) : connection :=
  { c with buffer := [], buffer_size := 0, state := .CONNECT }

/-- The bytes end with `"\r\n\r\n"`. -/
def ends_request (acc : List Nat) : Prop := acc.drop (acc.length - 4) = CRLFCRLF

instance (acc : List Nat) : Decidable (ends_request acc) := by
  unfold ends_request; infer_instance

/-- What a connection holds while the request line is being read: in `START`
fewer than four bytes, all of them; in `PATH` everything after the four
bytes of `"GET "`. -/
def holds (c : connection) (acc : List Nat) : Prop :=
  c.buffer_size ≤ c.buffer.length ∧
    ((c.state = .START ∧ content c = acc ∧ acc.length < 4) ∨
      (c.state = .PATH ∧ content c = acc.drop 4 ∧ 4 ≤ acc.length))

/-- The bytes of `"/selector"`. -/
def demo_selector : List Nat := [47, 115, 101, 108, 101, 99, 116, 111, 114]

/-- The bytes of `"HTTP/1.0\r\nHost: x\r\n\r\n"`. -/
def demo_headers : List Nat :=
  [72, 84, 84, 80, 47, 49, 46, 48, 13, 10, 72, 111, 115, 116, 58, 32, 120, 13, 10, 13, 10]

/-- The number of bytes a `send` accepted (`0` when it returned `-1`). -/
def send_result.count : send_result → Nat
  | .error => 0
  | .ok amount => amount

/-- The number of bytes accepted by the `send`s of a list of calls. -/
def accepted : List Env → Nat
  | [] => 0
  | e :: es => e.send.count + accepted es

/-- The bytes of a list of log entries, in order. -/
def payload : List (Int × List Nat) → List Nat
  | [] => []
  | x :: xs => x.2 ++ payload xs

/-- The record after a `send` accepted `amount` bytes. -/
def advanced (c : connection) (amount : Nat) : connection :=
  { c with written := c.written + amount }

/-- The globals after a `send` on `sock` accepted `bytes`. -/
def sent_log (g : Globals) (sock : Int) (bytes : List Nat) : Globals :=
  { g with sent := g.sent ++ [(sock, bytes)] }

/-- The globals after the entry at `i` of the table of sockets was set to
`sock` with the events `events`. -/
def retargeted (g : Globals) (i : Nat) (sock : Int) (events : Nat) : Globals :=
  { g with sockets := g.sockets.set i { fd := sock, events := events } }

/-- A call whose `send` accepts `n` bytes. -/
def demo_send (n : Nat) : Env := { recv := .error, send := .ok n, remote := demo_remote }

/-- The record of the client once its request `"GET /selector ..."` has been
read and the remote (descriptor 5) connected. -/
def demo_pending_conn : connection :=
  { state := .REQUEST_WRITE, sock := 5, path := demo_selector ++ CRLF, path_size := 11,
    buffer := malloc 1024, buffer_size := 1024, sock_other := 4, written := 0, read := 0 }

/-- The state in which the selector `"/selector\r\n"` is pending. -/
def demo_pending : Globals :=
  { sockets := [{ fd := 3, events := POLLIN }, { fd := 5, events := POLLOUT }],
    number_interfaces := 1, connections := [demo_pending_conn], closed := [], sent := [],
    received := [(4, GET_ ++ demo_selector ++ SP :: demo_headers)], stderr := [] }

/-- The record the `READ` block leaves after a `recv` delivered `data`. -/
def filled (c : connection) (data : List Nat) : connection :=
  { c with
    buffer := memmove c.buffer 0 data data.length
    read := data.length
    written := 0
    sock_other := c.sock
    sock := c.sock_other
    state := .WRITE }

/-- The record the `WRITE` block leaves once the whole chunk is written. -/
def drained (c : connection) : connection :=
  { c with sock_other := c.sock, sock := c.sock_other, state := .READ }

/-- One relay cycle: the call that reads a chunk, the calls whose sends leave
part of it unsent, and the call whose send completes it. -/
structure relay_cycle where
  reading : Env
  partials : List Env
  last : Env

/-- The bytes a cycle reads. -/
def relay_cycle.data (cy : relay_cycle) : List Nat := cy.reading.recv.bytes

/-- The calls of a cycle in order. -/
def relay_cycle.envs (cy : relay_cycle) : List Env := cy.reading :: (cy.partials ++ [cy.last])

/-- A cycle as the operating system can produce it: the `recv` delivers
between 1 and 1024 bytes, no `send` fails, the sends before the last leave
part of the chunk unsent and the last one completes it. -/
def relay_cycle.ok (cy : relay_cycle) : Prop :=
  0 < cy.reading.recv.amount ∧ cy.data.length ≤ 1024 ∧
    (∀ x ∈ cy.partials ++ [cy.last], x.send ≠ .error) ∧
    accepted cy.partials < cy.data.length ∧
    accepted (cy.partials ++ [cy.last]) = cy.data.length

/-- The calls of a list of cycles in order. -/
def relay_envs : List relay_cycle → List Env
  | [] => []
  | cy :: rest => cy.envs ++ relay_envs rest

/-- The bytes a list of cycles reads, in order. -/
def relay_data : List relay_cycle → List Nat
  | [] => []
  | cy :: rest => cy.data ++ relay_data rest

instance (cy : relay_cycle) : Decidable cy.ok := by
  unfold relay_cycle.ok; infer_instance

/-- The bytes of `"hello gopher\n"`. -/
def demo_reply : List Nat := [104, 101, 108, 108, 111, 32, 103, 111, 112, 104, 101, 114, 10]

/-- The record of the client once the selector has been sent. -/
def demo_reading_conn : connection :=
  { state := .READ, sock := 5, path := [], path_size := 0, buffer := malloc 1024,
    buffer_size := 1024, sock_other := 4, written := 11, read := 0 }

/-- The state in which the reply of the remote is awaited. -/
def demo_reading : Globals :=
  { sockets := [{ fd := 3, events := POLLIN }, { fd := 5, events := POLLIN }],
    number_interfaces := 1, connections := [demo_reading_conn], closed := [],
    sent := [(5, demo_selector ++ CRLF)],
    received := [(4, GET_ ++ demo_selector ++ SP :: demo_headers)], stderr := [] }

/-- The reply read in one chunk and written in two parts, 5 bytes then 8. -/
def demo_cycle : relay_cycle :=
  { reading := demo_recv demo_reply, partials := [demo_send 5], last := demo_send 8 }

/-- A call whose `send` fails. -/
def demo_send_error : Env := { recv := .error, send := .error, remote := demo_remote }

/-- A record in `WRITE` towards the client (descriptor 4), the remote
(descriptor 5) parked. -/
def demo_writing_conn : connection :=
  { state := .WRITE, sock := 4, path := [], path_size := 0, buffer := demo_reply,
    buffer_size := 1024, sock_other := 5, written := 0, read := 13 }

/-- A state with that connection and a second, fresh one (descriptor 6). -/
def demo_two : Globals :=
  { sockets := [{ fd := 3, events := POLLIN }, { fd := 4, events := POLLOUT },
      { fd := 6, events := POLLIN }],
    number_interfaces := 1, connections := [demo_writing_conn, new_connection 6],
    closed := [], sent := [], received := [], stderr := [] }

/-- A resolver whose single address refuses the connection (the socket
created for the attempt is descriptor 5). -/
def demo_refused : remote_env := { status := 0, results := [{ sock := 5, connect := -1 }] }

/-- The globals after a call, when the call returned. -/
def Outcome.globals : Outcome → Option Globals
  | .running g => some g
  | _ => none

/-- A call the event loop can make on the two tables. -/
inductive op where
  | add (sock : Int)
  | handle (index : Nat) (env : Env)
  | remove (index : Nat)

/-- The effect of one call. -/
def apply_op (g : Globals) : op → Outcome
  | .add sock => .running (add_connection g sock)
  | .handle index env => handle_connection g index env
  | .remove index => remove_connection g index

/-- A sequence of calls, stopping at the first one that does not return. -/
def run_ops (g : Globals) : List op → Outcome
  | [] => .running g
  | o :: rest =>
    match apply_op g o with
    | .running g1 => run_ops g1 rest
    | out => out

/-- The descriptors the operating system hands out in a call are not among
the descriptors `fds` (which are open, so cannot be handed out again): the
descriptor `accept` returned, and the descriptors `socket` returns in
`connect_to_remote`, which are values of type `int`. -/
def op_fresh (fds : List Int) : op → Prop
  | .add sock => sock ∉ fds
  | .handle _ env => ∀ a ∈ env.remote.results,
      a.sock ∉ fds ∧ -2 ^ 31 ≤ a.sock ∧ a.sock < 2 ^ 31
  | .remove _ => True

instance (fds : List Int) (o : op) : Decidable (op_fresh fds o) := by
  cases o <;> unfold op_fresh <;> infer_instance

/-- The listener entries `L` still head the table of sockets, no connection
uses a listener descriptor, and what has been closed since the log was `base`
is no listener descriptor. -/
def listeners_kept (L : List pollfd) (base : List Int) (g : Globals) : Prop :=
  g.number_interfaces = L.length ∧ g.sockets.take L.length = L ∧
    (∀ c ∈ g.connections, c.sock ∉ L.map pollfd.fd ∧ c.sock_other ∉ L.map pollfd.fd) ∧
    ∃ new, g.closed = base ++ new ∧ ∀ fd ∈ new, fd ∉ L.map pollfd.fd

/-- A whole session on one listener: accept a client, read its request in one
piece, send the selector, read the reply, write it to the client, and read
the end of file of the remote. -/
def demo_session : List op :=
  [.add 4, .handle 0 (demo_recv (GET_ ++ demo_selector ++ SP :: demo_headers)),
    .handle 0 (demo_send 11), .handle 0 (demo_recv demo_reply), .handle 0 (demo_send 13),
    .handle 0 (demo_recv [])]

/-- The state after that session. -/
def demo_done : Globals :=
  { sockets := [{ fd := 3, events := POLLIN }], number_interfaces := 1, connections := [],
    closed := [5, 4], sent := [(5, demo_selector ++ CRLF), (4, demo_reply)],
    received := [(4, GET_ ++ demo_selector ++ SP :: demo_headers), (5, demo_reply)],
    stderr := [] }

/-- A record in `PATH` whose buffer holds `"/x "`: the path and the space,
nothing after it. -/
def demo_path_conn : connection :=
  { state := .PATH, sock := 4, path := [], path_size := 0, buffer := [47, 120, 32],
    buffer_size := 3, sock_other := -1, written := 0, read := 0 }

/-- The place of a state in the order of the enumeration `connection_state`. -/
def connection_state.rank : connection_state → Nat
  | .START => 0
  | .PATH => 1
  | .REQUEST_END => 2
  | .CONNECT => 3
  | .REQUEST_WRITE => 4
  | .READ => 5
  | .WRITE => 6

/-- The `recv` or `send` of a call on the record `c` fails: a `recv` that
returns `0` or `-1` in a reading state, a `send` that returns `-1` in a
writing state. -/
def fails (c : connection) (env : Env) : Prop :=
  ((c.state = .START ∨ c.state = .PATH ∨ c.state = .REQUEST_END ∨ c.state = .READ) ∧
    env.recv.amount ≤ 0) ∨
  ((c.state = .REQUEST_WRITE ∨ c.state = .WRITE) ∧ env.send = .error)

instance (c : connection) (env : Env) : Decidable (fails c env) := by
  unfold fails; infer_instance

/-- The value `connect_to_remote` returns over the attempts of the resolver,
when it returns: the socket of the first attempt that connected, `-1` when
none did. -/
def connect_fd : List addr_attempt → Int
  | [] => -1
  | a :: rest => if a.connect = -1 then connect_fd rest else a.sock

/-- The record a call of `handle_connection` on the record `c` leaves, when
the call returns without removing the connection. -/
def after_call (c : connection) (env : Env) : connection :=
  match request_read c env.recv with
  | .next c1 =>
    let conn := scan c1
    match conn.state with
    | .CONNECT => connected conn (connect_fd env.remote.results)
    | .REQUEST_WRITE =>
      match env.send with
      | .ok amount =>
        if conn.written + amount ≥ conn.path_size then
          { advanced conn amount with path := [], path_size := 0, state := .READ }
        else advanced conn amount
      | .error => conn
    | .READ => filled conn env.recv.bytes
    | .WRITE =>
      match env.send with
      | .ok amount =>
        if conn.written + amount ≥ conn.read then drained (advanced conn amount)
        else advanced conn amount
      | .error => conn
    | _ => conn
  | _ => c

/-- The events a socket is polled for in a state, as the calls of
`add_socket` and `socket_change` set them. -/
def interest (s : connection_state) : Nat :=
  if s = .REQUEST_WRITE ∨ s = .WRITE then POLLOUT else POLLIN

/-- A call that took the record `c` to `c2` went through `socket_change`. -/
def retargets (c c2 : connection) : Prop :=
  c2.state ≠ c.state ∧ (c2.state = .REQUEST_WRITE ∨ c2.state = .READ ∨ c2.state = .WRITE)

instance (c c2 : connection) : Decidable (retargets c c2) := by
  unfold retargets; infer_instance

/-- The bounds on the cursors of a record: `written` is `0` before the
connect; in `REQUEST_WRITE` it is below `path_size`, the length of the block
`path`; from `REQUEST_WRITE` on the buffer is a block of 1024 bytes; in
`WRITE`, `written` is below `read`, which is at most `buffer_size`. -/
def cursors_ok (c : connection) : Prop :=
  ((c.state = .START ∨ c.state = .PATH ∨ c.state = .REQUEST_END ∨ c.state = .CONNECT) →
    c.written = 0) ∧
  (c.state = .REQUEST_WRITE → c.written < c.path_size ∧ c.path.length = c.path_size) ∧
  ((c.state = .REQUEST_WRITE ∨ c.state = .READ ∨ c.state = .WRITE) →
    c.buffer_size = 1024 ∧ c.buffer.length = 1024) ∧
  (c.state = .WRITE → c.written < c.read ∧ c.read ≤ c.buffer_size)

/-- The `recv` of a call in `READ` returns at most the capacity it was given,
`buffer_size`. -/
def recv_fits (g : Globals) : op → Bool
  | .handle index env =>
    match g.connections[index]? with
    | some c => decide (c.state = .READ → env.recv.bytes.length ≤ c.buffer_size)
    | none => true
  | _ => true

/-- Every `recv` of a run of calls from the state `g` returns at most the
capacity it was given. -/
def recvs_fit : Globals → List op → Bool
  | _, [] => true
  | g, o :: rest =>
    recv_fits g o &&
      match apply_op g o with
      | .running g1 => recvs_fit g1 rest
      | _ => true

/-- A session that stops in the middle of a write: the request of a client,
the selector sent, the reply read, and 5 of its 13 bytes written. -/
def demo_partial : List op :=
  [.add 4, .handle 0 (demo_recv (GET_ ++ demo_selector ++ SP :: demo_headers)),
    .handle 0 (demo_send 11), .handle 0 (demo_recv demo_reply), .handle 0 (demo_send 5)]

/-- The state after that session. -/
def demo_midway : Globals :=
  store (sent_log (retargeted (logged demo_reading 5 demo_reply) 1 4 POLLOUT) 4
    (demo_reply.take 5)) 0 (advanced (filled demo_reading_conn demo_reply) 5)

/-- Where the two sockets of a connection accepted on `client` are: before
the connect the client is the active socket; in `REQUEST_WRITE` and `READ` the
client is parked and the active socket is another descriptor; in `WRITE` the
client is the active socket and the other descriptor is parked. -/
def oriented (client : Int) (c : connection) : Prop :=
  ((c.state = .START ∨ c.state = .PATH ∨ c.state = .REQUEST_END ∨ c.state = .CONNECT) →
    c.sock = client) ∧
  ((c.state = .REQUEST_WRITE ∨ c.state = .READ) → c.sock_other = client ∧ c.sock ≠ client) ∧
  (c.state = .WRITE → c.sock = client ∧ c.sock_other ≠ client)

instance (client : Int) (c : connection) : Decidable (oriented client c) := by
  unfold oriented; infer_instance

/-- The scan buffer of a record in `REQUEST_END` holds one to four bytes. -/
def window_ok (c : connection) : Prop :=
  c.state = .REQUEST_END → 1 ≤ c.buffer_size ∧ c.buffer_size ≤ 4

/-- A call whose `recv` delivers the request `"GET /x a\r\n\r\n"` while every
address of the remote refuses the connection. -/
def demo_request_refused : Env :=
  { recv := .ok [71, 69, 84, 32, 47, 120, 32, 97, 13, 10, 13, 10], send := .error,
    remote := demo_refused }

/-- Two clients (descriptors 4 and 6) send their request while the remote
refuses every connection. -/
def demo_two_refused : List op :=
  [.add 4, .handle 0 demo_request_refused, .add 6, .handle 1 demo_request_refused]

/-- An `accept` that failed (`-1`), then a client (descriptor 4) whose request
is read while the remote refuses the connection. -/
def demo_accept_failed : List op := [.add (-1), .add 4, .handle 1 demo_request_refused]

/-- What `C11` and `C19` look at in a state: the entries of the table of
sockets, and the state and the two sockets of every connection. -/
def registry (g : Globals) :
    List (Int × Nat) × List (connection_state × Int × Int) :=
  (g.sockets.map (fun s => (s.fd, s.events)),
    g.connections.map (fun c => (c.state, c.sock, c.sock_other)))

/-- The entries of the table of sockets that hold the descriptor `fd`. -/
def entries (l : List pollfd) (fd : Int) : List pollfd := l.filter (fun s => s.fd == fd)

/-- Two connections share no descriptor: equal active sockets are both `-1`,
and so are equal parked sockets. -/
def paired (a b : connection) : Prop :=
  (a.sock = b.sock → a.sock = -1) ∧ (a.sock_other = b.sock_other → a.sock_other = -1)

/-- The two tables agree on the descriptors: the active socket of every
connection, when it is a descriptor, has one entry, registered for the events
of the state; the parked socket, when it is a descriptor, has none; no two
connections share a descriptor. -/
def registered (g : Globals) : Prop :=
  (∀ c ∈ g.connections, c.sock ≠ -1 →
    entries g.sockets c.sock = [{ fd := c.sock, events := interest c.state }]) ∧
  (∀ c ∈ g.connections, c.sock_other ≠ -1 → entries g.sockets c.sock_other = []) ∧
  g.connections.Pairwise paired

/-- The descriptors the two tables hold. -/
def in_use (g : Globals) : List Int :=
  g.sockets.map pollfd.fd ++ g.connections.map connection.sock ++
    g.connections.map connection.sock_other

/-- The call of `handle_connection` on the record `c` reaches the `CONNECT`
block, where `connect_to_remote` is called. -/
def connects (c : connection) (env : Env) : Prop :=
  match request_read c env.recv with
  | .next c1 => (scan c1).state = .CONNECT
  | _ => False

instance (c : connection) (env : Env) : Decidable (connects c env) := by
  unfold connects; split <;> infer_instance

/-- The system hands out no descriptor that the tables hold: `accept` returns
`-1` or such a descriptor, and so does every call of `socket` in
`connect_to_remote`, within the range of `int`. -/
def os_fresh (g : Globals) : op → Bool
  | .add sock => decide (sock = -1 ∨ sock ∉ in_use g)
  | .handle index env =>
    match g.connections[index]? with
    | some c => decide (connects c env →
        ∀ a ∈ env.remote.results, a.sock ∉ in_use g ∧ -2 ^ 31 ≤ a.sock ∧ a.sock < 2 ^ 31)
    | none => true
  | .remove _ => true

/-- Every call of a run from the state `g` gets descriptors the tables do not
hold. -/
def all_fresh : Globals → List op → Bool
  | _, [] => true
  | g, o :: rest =>
    os_fresh g o &&
      match apply_op g o with
      | .running g1 => all_fresh g1 rest
      | _ => true

/-- The two tables hold the same descriptors: a descriptor has as many
entries in the table of sockets as it has among the listeners `L` and as
active socket of a connection together. -/
def balanced (L : List pollfd) (g : Globals) : Prop :=
  ∀ d : Int, (g.sockets.map pollfd.fd).count d
    = (L.map pollfd.fd).count d + (g.connections.map connection.sock).count d

/-! ## Memory and block lemmas -/

/-- A store at offset 0 replaces the front of the block. -/
theorem memmove_zero (dst src : List Nat) (n : Nat) :
    memmove dst 0 src n = src.take n ++ dst.drop n := by
  simp [memmove]

/-- The local array holds the received bytes at its front. -/
theorem local_buffer_take (data : List Nat) :
    (memmove (malloc 1024) 0 data data.length).take data.length = data := by
  simp [memmove]

/-- The copy `memdup` makes is the first `size` bytes. -/
theorem memdup_eq (mem : List Nat) (size : Nat) : memdup mem size = mem.take size := by
  simp [memdup, memmove, malloc]

/-- On a block that is long enough, `buffer_append` keeps the first `n` bytes
and puts the appended bytes behind them. -/
theorem buffer_append_eq (buffer : List Nat) (n : Nat) (appended : List Nat) (k : Nat)
    (h : n ≤ buffer.length) :
    buffer_append buffer n appended k = buffer.take n ++ appended.take k := by
  simp only [buffer_append, memmove, realloc]
  have h1 : List.take n (List.take (n + k) (buffer ++ List.replicate (n + k) 0)) = buffer.take n := by
    rw [List.take_take, Nat.min_eq_left (Nat.le_add_right n k), List.take_append_of_le_length h]
  rw [h1]
  have h2 : List.drop (n + k) (List.take (n + k) (buffer ++ List.replicate (n + k) 0)) = [] := by
    simp
  rw [h2]; simp

/-- A `recv` that returns a positive amount delivered that many bytes. -/
theorem recv_pos (r : recv_result) (h : 0 < r.amount) :
    ∃ data, r = .ok data ∧ 0 < data.length := by
  cases r with
  | error => simp [recv_result.amount] at h
  | ok data => exact ⟨data, rfl, by simpa [recv_result.amount] using h⟩

/-- A successful read in `START` or `PATH` appends the bytes to what the buffer
holds. -/
theorem request_read_request (c : connection) (r : recv_result)
    (hs : c.state = .START ∨ c.state = .PATH) (hwf : c.buffer_size ≤ c.buffer.length)
    (hr : 0 < r.amount) :
    request_read c r = .next (appended c r.bytes) := by
  obtain ⟨data, rfl, hd⟩ := recv_pos r hr
  have hna : ¬ ((data.length : Int) ≤ 0) := by omega
  simp only [request_read, hs, if_true, recv_result.amount, recv_result.bytes, hna, if_false,
    Int.toNat_ofNat, content, appended]
  rw [buffer_append_eq _ _ _ _ hwf, local_buffer_take]

/-- No occurrence among the first `n` bytes: `memchr` returns `NULL`. -/
theorem memchr_none (c : Nat) : ∀ (s : List Nat) (n : Nat), c ∉ s.take n → memchr s c n = none
  | [], _, _ => by simp [memchr]
  | _ :: _, 0, _ => by simp [memchr]
  | b :: t, n + 1, h => by
    simp only [List.take_succ_cons, List.mem_cons, not_or] at h
    have hb : ¬ b = c := fun e => h.1 e.symm
    simp [memchr, hb, memchr_none c t n h.2]

/-- The first occurrence is found at its offset. -/
theorem memchr_some (c : Nat) : ∀ (S R : List Nat) (n : Nat), c ∉ S → S.length < n →
    memchr (S ++ c :: R) c n = some S.length
  | [], R, n, _, hn => by
    obtain ⟨m, rfl⟩ : ∃ m, n = m + 1 := ⟨n - 1, by simp at hn; omega⟩
    simp [memchr]
  | b :: t, R, n, hS, hn => by
    obtain ⟨m, rfl⟩ : ∃ m, n = m + 1 := ⟨n - 1, by simp at hn; omega⟩
    simp only [List.mem_cons, not_or] at hS
    have hb : ¬ b = c := fun e => hS.1 e.symm
    have := memchr_some c t R m hS.2 (by simpa using hn)
    simp [memchr, hb, this]

/-- A buffer holds `buffer_size` bytes when the block is that long. -/
theorem content_length (c : connection) (hwf : c.buffer_size ≤ c.buffer.length) :
    (content c).length = c.buffer_size := by
  simp [content, hwf]

/-- The test of the `START` check is `is_get` of what the buffer holds. -/
theorem start_cond_iff (c : connection) (hwf : c.buffer_size ≤ c.buffer.length) :
    (c.buffer_size ≥ 4 ∧ c.buffer.take 4 = GET_) ↔ is_get (content c) := by
  unfold is_get
  rw [content_length c hwf]
  constructor
  · rintro ⟨h4, hg⟩
    refine ⟨h4, ?_⟩
    rw [content, List.take_take, Nat.min_eq_left h4, hg]
  · rintro ⟨h4, hg⟩
    refine ⟨h4, ?_⟩
    rw [content, List.take_take, Nat.min_eq_left h4] at hg
    exact hg

/-- The `START` check does nothing outside `START`. -/
theorem start_check_other (c : connection) (hs : c.state ≠ .START) : start_check c = c := by
  simp [start_check, hs]

/-- The `START` check does nothing while the test fails. -/
theorem start_check_stay (c : connection) (hwf : c.buffer_size ≤ c.buffer.length)
    (h : ¬ is_get (content c)) : start_check c = c := by
  unfold start_check
  split
  · rw [if_neg]
    rw [start_cond_iff c hwf]; exact h
  · rfl

/-- The `START` check on a buffer that passes the test. -/
theorem start_check_go (c : connection) (hs : c.state = .START)
    (hwf : c.buffer_size ≤ c.buffer.length) (h : is_get (content c)) :
    ∃ block, start_check c = { c with
        buffer_size := c.buffer_size - 4, buffer := block, state := .PATH } ∧
      c.buffer_size - 4 ≤ block.length ∧ block.take (c.buffer_size - 4) = (content c).drop 4 := by
  have hc := (start_cond_iff c hwf).2 h
  refine ⟨memmove c.buffer 0 (c.buffer.drop 4) (c.buffer_size - 4), ?_, ?_, ?_⟩
  · simp only [start_check, hs, if_true, hc, and_self]
  · simp only [memmove_zero, List.length_append, List.length_take, List.length_drop]
    omega
  · have h4 := hc.1
    rw [memmove_zero, List.take_append_of_le_length (by simp; omega), List.take_take,
      Nat.min_self, content, List.drop_take]

/-- The `PATH` check does nothing outside `PATH`. -/
theorem path_check_other (c : connection) (hs : c.state ≠ .PATH) : path_check c = c := by
  simp [path_check, hs]

/-- The `PATH` check does nothing while the buffer holds no space. -/
theorem path_check_stay (c : connection) (h : SP ∉ content c) : path_check c = c := by
  unfold path_check
  split
  · rw [memchr_none SP c.buffer c.buffer_size h]
  · rfl

/-- The `PATH` check on a buffer that holds a path, a space and what follows.
-/
theorem path_check_found (c : connection) (S R : List Nat) (hs : c.state = .PATH)
    (hwf : c.buffer_size ≤ c.buffer.length) (hc : content c = S ++ SP :: R) (hS : SP ∉ S) :
    path_check c = { c with
      path_size := S.length
      path := S
      buffer := carry_over (content c) S.length ++
        List.replicate (4 - (carry_over (content c) S.length).length) 0
      buffer_size := (carry_over (content c) S.length).length
      state := .REQUEST_END } := by
  have hlen : c.buffer_size = S.length + (R.length + 1) := by
    rw [← content_length c hwf, hc]; simp
  have hbuf : c.buffer = S ++ SP :: (R ++ c.buffer.drop c.buffer_size) := by
    conv_lhs => rw [← List.take_append_drop c.buffer_size c.buffer]
    rw [← content, hc]; simp
  have hm : memchr c.buffer SP c.buffer_size = some S.length := by
    rw [hbuf]; exact memchr_some SP S _ _ hS (by omega)
  have hpath : c.buffer.take S.length = S := by
    rw [hbuf]; simp
  have hcl : (content c).length = S.length + (R.length + 1) := by rw [hc]; simp
  simp only [path_check, hs, if_true, hm, memdup_eq, hpath]
  have hlo : c.buffer_size - S.length = R.length + 1 := by omega
  by_cases h4 : R.length + 1 < 4
  · have hco : carry_over (content c) S.length = SP :: R := by
      simp [carry_over, hcl, h4, hc]
    have hd : (c.buffer.drop S.length).take (R.length + 1) = SP :: R := by
      rw [hbuf]; simp
    simp only [hlo, h4, if_true, hco, memmove_zero, hd, malloc, List.length_cons]
    congr 1
    have hR : R.length = 0 ∨ R.length = 1 ∨ R.length = 2 := by omega
    rcases hR with h | h | h <;> simp [List.take_append_eq_append_take, h]
  · have hco : carry_over (content c) S.length = (content c).drop ((content c).length - 4) := by
      simp [carry_over, hcl, h4]
    have hd : (c.buffer.drop (c.buffer_size - 4)).take 4
        = (content c).drop ((content c).length - 4) := by
      rw [content_length c hwf, content, List.drop_take]
      congr 1; omega
    have hl4 : ((content c).drop ((content c).length - 4)).length = 4 := by
      simp [hcl]; omega
    simp only [hlo, h4, if_false, hco, memmove_zero, hd, malloc, hl4]
    congr 1
    simp [hl4, List.take_of_length_le]

/-- The bytes delivered by two runs of calls in sequence. -/
theorem delivered_append (a b : List Env) : delivered (a ++ b) = delivered a ++ delivered b := by
  induction a with
  | nil => rfl
  | cons e es ih => simp [delivered, ih]

/-- Running two lists of calls in sequence. -/
theorem run_append (g : Globals) (index : Nat) (a b : List Env) :
    run g index (a ++ b) =
      match run g index a with
      | .running g1 => run g1 index b
      | o => o := by
  induction a generalizing g with
  | nil => rfl
  | cons e es ih =>
    simp only [List.cons_append, run]
    cases h : handle_connection g index e with
    | running g1 => exact ih g1
    | exited g1 s => rfl
    | undefined => rfl

/-- Further bytes do not undo the request-line test. -/
theorem is_get_append (a b : List Nat) (h : is_get a) : is_get (a ++ b) := by
  obtain ⟨h4, hg⟩ := h
  refine ⟨by simp; omega, ?_⟩
  rw [List.take_append_of_le_length h4, hg]

/-- The `REQUEST_END` check does nothing outside `REQUEST_END`. -/
theorem request_end_check_other (c : connection) (hs : c.state ≠ .REQUEST_END) :
    request_end_check c = c := by
  simp [request_end_check, hs]

/-- The `REQUEST_END` check does nothing while the window is not the
terminator. -/
theorem request_end_check_stay (c : connection) (h4 : c.buffer_size ≤ 4) (h : content c ≠ CRLFCRLF) : request_end_check c = c := by
  unfold request_end_check
  split
  · rw [if_neg]
    rintro ⟨h4', ht⟩
    apply h
    have : c.buffer_size = 4 := by omega
    rw [content, this, ht]
  · rfl

/-- The `REQUEST_END` check on a window that is the terminator. -/
theorem request_end_check_go (c : connection) (hs : c.state = .REQUEST_END)
    (hwf : c.buffer_size ≤ c.buffer.length) (h : content c = CRLFCRLF) :
    request_end_check c = { c with buffer := [], buffer_size := 0, state := .CONNECT } := by
  have hl : c.buffer_size = 4 := by
    rw [← content_length c hwf, h]; rfl
  have ht : c.buffer.take 4 = CRLFCRLF := by rw [← h, content, hl]
  simp [request_end_check, hs, hl, ht]

/-- The state after the `START` check. -/
theorem start_check_state (c : connection) :
    (start_check c).state = c.state ∨ (c.state = .START ∧ (start_check c).state = .PATH) := by
  unfold start_check
  split
  · split
    · right; exact ⟨‹_›, rfl⟩
    · left; rfl
  · left; rfl

/-- The state after the `PATH` check. -/
theorem path_check_state (c : connection) :
    (path_check c).state = c.state ∨ (c.state = .PATH ∧ (path_check c).state = .REQUEST_END) := by
  unfold path_check
  split
  · split
    · right; exact ⟨‹_›, rfl⟩
    · left; rfl
  · left; rfl

/-- The state after the `REQUEST_END` check. -/
theorem request_end_check_state (c : connection) :
    (request_end_check c).state = c.state ∨
      (c.state = .REQUEST_END ∧ (request_end_check c).state = .CONNECT) := by
  unfold request_end_check
  split
  · split
    · right; exact ⟨‹_›, rfl⟩
    · left; rfl
  · left; rfl

/-- The states the three checks can leave after a read of the request. -/
theorem scan_state (c : connection) (hs : c.state = .START ∨ c.state = .PATH) :
    (scan c).state = .START ∨ (scan c).state = .PATH ∨ (scan c).state = .REQUEST_END ∨
      (scan c).state = .CONNECT := by
  unfold scan
  rcases start_check_state c with h1 | ⟨_, h1⟩ <;>
  rcases path_check_state (start_check c) with h2 | ⟨_, h2⟩ <;>
  rcases request_end_check_state (path_check (start_check c)) with h3 | ⟨_, h3⟩ <;>
  rcases hs with hs | hs <;> simp_all

/-- A call that reads bytes in `START` or `PATH`: the three checks, then the
`CONNECT` block if they reached `CONNECT`. -/
theorem handle_request (g : Globals) (index : Nat) (env : Env) (c : connection)
    (hc : g.connections[index]? = some c) (hs : c.state = .START ∨ c.state = .PATH)
    (hwf : c.buffer_size ≤ c.buffer.length) (hr : 0 < env.recv.amount) :
    handle_connection g index env =
      if (scan (appended c env.recv.bytes)).state = .CONNECT then
        connect_block (logged g c.sock env.recv.bytes) index (scan (appended c env.recv.bytes))
          env.remote
      else
        .running (store (logged g c.sock env.recv.bytes) index
          (scan (appended c env.recv.bytes))) := by
  have hst := scan_state (appended c env.recv.bytes) hs
  have hs3 : c.state = .START ∨ c.state = .PATH ∨ c.state = .REQUEST_END := by
    rcases hs with h | h
    · exact Or.inl h
    · exact Or.inr (Or.inl h)
  simp only [handle_connection, hc, request_read_request c env.recv hs hwf hr, hs3, if_true]
  rw [← scan, ← logged]
  rcases hst with h | h | h | h <;> simp [h]

/-- The loop of `connect_to_remote` changes nothing but the log of closed
descriptors. -/
theorem connect_loop_keeps (results : List addr_attempt) : ∀ (g g1 : Globals) (s : Int),
    connect_loop g results = .returned g1 s →
    g1.sockets = g.sockets ∧ g1.connections = g.connections ∧
      g1.number_interfaces = g.number_interfaces ∧ g1.sent = g.sent ∧
      g1.received = g.received ∧ g1.stderr = g.stderr := by
  induction results with
  | nil =>
    intro g g1 s h
    simp only [connect_loop, connect_result.returned.injEq] at h
    obtain ⟨rfl, _⟩ := h
    simp
  | cons a rest ih =>
    intro g g1 s h
    simp only [connect_loop] at h
    split at h
    · cases h
    · split at h
      · have := ih _ _ _ h
        simpa using this
      · simp only [connect_result.returned.injEq] at h
        obtain ⟨rfl, _⟩ := h
        simp

/-- The function `connect_to_remote` changes nothing but the log of closed
descriptors. -/
theorem connect_to_remote_keeps (g g1 : Globals) (r : remote_env) (s : Int)
    (h : connect_to_remote g r = .returned g1 s) :
    g1.sockets = g.sockets ∧ g1.connections = g.connections ∧
      g1.number_interfaces = g.number_interfaces ∧ g1.sent = g.sent ∧
      g1.received = g.received ∧ g1.stderr = g.stderr := by
  unfold connect_to_remote at h
  split at h
  · cases h
  · exact connect_loop_keeps _ _ _ _ h

/-- The `CONNECT` block when `connect_to_remote` returns and the socket has its
entry. -/
theorem connect_block_returned (g g1 : Globals) (index : Nat) (conn : connection)
    (r : remote_env) (s : Int) (h : connect_to_remote g r = .returned g1 s)
    (hsock : get_socket_index g1 conn.sock ≠ g1.sockets.length) :
    connect_block g index conn r =
      .running (store { g1 with sockets := (g1.sockets.set (get_socket_index g1 conn.sock)
          { fd := size_to_int (int_to_size s), events := POLLOUT }) } index (connected conn s)) := by
  simp only [connect_block, h, socket_change, hsock, if_false, connected]

/-- The `CONNECT` block exits or leaves the connected record. -/
theorem connect_block_cases (g : Globals) (index : Nat) (conn : connection) (r : remote_env) :
    (∃ g1 status, connect_block g index conn r = .exited g1 status) ∨
    (∃ g1 s, connect_block g index conn r = .running g1 ∧
      g1.connections = g.connections.set index (connected conn s)) := by
  cases h : connect_to_remote g r with
  | exited g1 => left; exact ⟨g1, 1, by simp [connect_block, h]⟩
  | returned g1 s =>
    by_cases hsock : get_socket_index g1 conn.sock = g1.sockets.length
    · left
      refine ⟨{ g1 with stderr := g1.stderr ++ ["socket requested is not in list of sockets"] },
        1, ?_⟩
      simp only [connect_block, h, socket_change, hsock, if_true]
    · right
      refine ⟨_, s, connect_block_returned g g1 index conn r s h hsock, ?_⟩
      simp [store, (connect_to_remote_keeps g g1 r s h).2.1]

/-! ## Reads that stay in `START` -/

/-- The record written back is the record read next. -/
theorem store_get (g : Globals) (index : Nat) (c c1 : connection)
    (hc : g.connections[index]? = some c) : (store g index c1).connections[index]? = some c1 := by
  have hlt : index < g.connections.length := by
    rcases List.getElem?_eq_some_iff.1 hc with ⟨h, _⟩; exact h
  simp [store, List.getElem?_set_self hlt]

/-- Logging a `recv` leaves the table of connections alone. -/
theorem logged_get (g : Globals) (sock : Int) (bytes : List Nat) :
    (logged g sock bytes).connections = g.connections := rfl

/-- A block of exactly `buffer_size` bytes is what the buffer holds. -/
theorem content_full (c : connection) (h : c.buffer.length = c.buffer_size) :
    content c = c.buffer := by
  rw [content, ← h, List.take_length]

/-- Appending bytes keeps the state. -/
theorem appended_state (c : connection) (b : List Nat) : (appended c b).state = c.state := rfl

/-- After an append the block has exactly `buffer_size` bytes. -/
theorem appended_full (c : connection) (b : List Nat) (h : c.buffer_size ≤ c.buffer.length) :
    (appended c b).buffer.length = (appended c b).buffer_size := by
  simp [appended, content, h]

/-- After an append the buffer holds the old bytes and the new ones. -/
theorem appended_content (c : connection) (b : List Nat) (h : c.buffer_size ≤ c.buffer.length) :
    content (appended c b) = content c ++ b := by
  rw [content_full _ (appended_full c b h)]; rfl

/-- Appending nothing changes nothing. -/
theorem appended_nil (c : connection) (h : c.buffer.length = c.buffer_size) :
    appended c [] = c := by
  cases c
  simp only [appended, content] at *
  simp [← h]

/-- Two appends are one append of both chunks. -/
theorem appended_appended (c : connection) (a b : List Nat)
    (h : c.buffer_size ≤ c.buffer.length) :
    appended (appended c a) b = appended c (a ++ b) := by
  have := appended_content c a h
  simp only [appended, content] at *
  simp [this, Nat.add_assoc]

/-- The three checks do nothing in `START` while the test fails. -/
theorem scan_start_stay (c : connection) (hs : c.state = .START)
    (hwf : c.buffer_size ≤ c.buffer.length) (h : ¬ is_get (content c)) : scan c = c := by
  have h1 : start_check c = c := start_check_stay c hwf h
  have h2 : path_check c = c := path_check_other c (by simp [hs])
  have h3 : request_end_check c = c := request_end_check_other c (by simp [hs])
  rw [scan, h1, h2, h3]

/-- Reads that do not complete `"GET "` leave the connection in `START` with
the bytes read appended to its buffer. -/
theorem run_start_stay (index : Nat) : ∀ (envs : List Env) (g : Globals) (c : connection),
    g.connections[index]? = some c → c.state = .START → c.buffer.length = c.buffer_size →
    (∀ e ∈ envs, 0 < e.recv.amount) → ¬ is_get (c.buffer ++ delivered envs) →
    ∃ g1, run g index envs = .running g1 ∧
      g1.connections[index]? = some (appended c (delivered envs))
  | [], g, c, hc, _, hwf, _, _ => ⟨g, rfl, by rw [hc, delivered, appended_nil c hwf]⟩
  | e :: es, g, c, hc, hs, hwf, hr, hng => by
    have hre : 0 < e.recv.amount := hr e (List.mem_cons_self _ _)
    have hle : c.buffer_size ≤ c.buffer.length := by omega
    have hac : content (appended c e.recv.bytes) = c.buffer ++ e.recv.bytes := by
      rw [appended_content c _ hle, content_full c hwf]
    have hng1 : ¬ is_get (c.buffer ++ e.recv.bytes) := by
      intro h
      apply hng
      have := is_get_append _ (delivered es) h
      simpa [delivered, List.append_assoc] using this
    have hscan : scan (appended c e.recv.bytes) = appended c e.recv.bytes :=
      scan_start_stay (appended c e.recv.bytes) hs (by rw [appended_full c _ hle])
        (by rw [hac]; exact hng1)
    have hcall := handle_request g index e c hc (Or.inl hs) hle hre
    rw [hscan, appended_state, if_neg (by simp [hs])] at hcall
    have hfull := appended_full c e.recv.bytes hle
    obtain ⟨g1, h1, h2⟩ := run_start_stay index es
      (store (logged g c.sock e.recv.bytes) index (appended c e.recv.bytes))
      (appended c e.recv.bytes) (store_get _ index c _ hc) hs hfull
      (fun x hx => hr x (List.mem_cons_of_mem _ hx))
      (by
        rw [← content_full _ hfull, hac]
        simpa [delivered, List.append_assoc] using hng)
    refine ⟨g1, ?_, ?_⟩
    · simp only [run, hcall]
      exact h1
    · rw [h2, appended_appended c _ _ hle]
      rfl

/-- The record at `index` of a call that returned. -/
theorem conn_running (g : Globals) (index : Nat) :
    (Outcome.running g).conn index = g.connections[index]? := rfl

/-- The `START` check, once the test passes, goes to `PATH` without the first
four bytes. -/
theorem start_check_strip (c : connection) (hs : c.state = .START)
    (hwf : c.buffer_size ≤ c.buffer.length) (h : is_get (content c)) :
    (start_check c).state = .PATH ∧
      (start_check c).buffer_size ≤ (start_check c).buffer.length ∧
      content (start_check c) = (content c).drop 4 := by
  obtain ⟨block, he, hl, hb⟩ := start_check_go c hs hwf h
  rw [he]
  exact ⟨rfl, hl, hb⟩

/-- Once the test passes the three checks leave `START`. -/
theorem scan_left (c : connection) (hs : c.state = .START)
    (hwf : c.buffer_size ≤ c.buffer.length) (h : is_get (content c)) :
    (scan c).state ≠ .START := by
  have h1 := (start_check_strip c hs hwf h).1
  unfold scan
  rcases path_check_state (start_check c) with h2 | ⟨_, h2⟩ <;>
  rcases request_end_check_state (path_check (start_check c)) with h3 | ⟨_, h3⟩ <;>
  simp_all

/-- Without a space behind `"GET "` the three checks stop after the `START`
check. -/
theorem scan_to_path (c : connection) (hs : c.state = .START)
    (hwf : c.buffer_size ≤ c.buffer.length) (h : is_get (content c))
    (hsp : SP ∉ (content c).drop 4) : scan c = start_check c := by
  obtain ⟨h1, _, h3⟩ := start_check_strip c hs hwf h
  have h4 : path_check (start_check c) = start_check c :=
    path_check_stay _ (by rw [h3]; exact hsp)
  rw [scan, h4, request_end_check_other _ (by simp [h1])]

/-- A call whose scan ends outside `START` either exits in the `CONNECT` block
or returns with the record outside `START`. -/
theorem call_left (g : Globals) (index : Nat) (env : Env) (c : connection)
    (hc : g.connections[index]? = some c) (hs : c.state = .START ∨ c.state = .PATH)
    (hwf : c.buffer_size ≤ c.buffer.length) (hr : 0 < env.recv.amount)
    (hl : (scan (appended c env.recv.bytes)).state ≠ .START) :
    (∃ g2 status, handle_connection g index env = .exited g2 status) ∨
    ∃ g2 c2, handle_connection g index env = .running g2 ∧ g2.connections[index]? = some c2 ∧
      c2.state ≠ .START := by
  rw [handle_request g index env c hc hs hwf hr]
  split
  · rcases connect_block_cases (logged g c.sock env.recv.bytes) index
      (scan (appended c env.recv.bytes)) env.remote with ⟨g2, st, h⟩ | ⟨g2, s, h, hcs⟩
    · exact Or.inl ⟨g2, st, h⟩
    · refine Or.inr ⟨g2, connected (scan (appended c env.recv.bytes)) s, h, ?_, ?_⟩
      · have hlt : index < g.connections.length := by
          rcases List.getElem?_eq_some_iff.1 hc with ⟨h, _⟩; exact h
        rw [hcs, logged_get, List.getElem?_set_self hlt]
      · simp [connected]
  · exact Or.inr ⟨_, _, rfl, store_get _ index c _ (by rw [logged_get]; exact hc), hl⟩

/-- A run of one call. -/
theorem run_single (g : Globals) (index : Nat) (e : Env) :
    run g index [e] = handle_connection g index e := by
  simp only [run]
  cases handle_connection g index e <;> rfl

/-- The bytes delivered by one call. -/
theorem delivered_single (e : Env) : delivered [e] = e.recv.bytes := by
  simp [delivered]

/-- A run followed by one more call. -/
theorem run_snoc (g g1 : Globals) (index : Nat) (pre : List Env) (e : Env)
    (h : run g index pre = .running g1) :
    run g index (pre ++ [e]) = handle_connection g1 index e := by
  rw [run_append, h]
  exact run_single g1 index e

/-! ## Reading the request line -/

/-- Four bytes or more of the stream pass the request-line test. -/
theorem stream_take_get (acc tail S rest : List Nat)
    (h : acc ++ tail = GET_ ++ S ++ SP :: rest) (h4 : 4 ≤ acc.length) : is_get acc := by
  refine ⟨h4, ?_⟩
  have := congrArg (List.take 4) h
  rw [List.take_append_of_le_length h4, List.append_assoc,
    List.take_append_of_le_length (by simp [GET_])] at this
  rw [this]; rfl

/-- The stream behind `"GET "`. -/
theorem stream_drop (acc tail S rest : List Nat)
    (h : acc ++ tail = GET_ ++ S ++ SP :: rest) (h4 : 4 ≤ acc.length) :
    acc.drop 4 ++ tail = S ++ SP :: rest := by
  have := congrArg (List.drop 4) h
  rw [List.drop_append_of_le_length h4, List.append_assoc] at this
  rw [this]; rfl

/-- Up to the first space, the stream behind `"GET "` holds no space. -/
theorem stream_no_space (acc tail S rest : List Nat) (hS : SP ∉ S)
    (h : acc ++ tail = GET_ ++ S ++ SP :: rest) (h4 : 4 ≤ acc.length)
    (hle : acc.length ≤ 4 + S.length) : SP ∉ acc.drop 4 := by
  have hd := stream_drop acc tail S rest h h4
  have hl : (acc.drop 4).length ≤ S.length := by simp; omega
  have := congrArg (List.take (acc.drop 4).length) hd
  rw [List.take_append_of_le_length (le_refl _), List.take_length,
    List.take_append_of_le_length hl] at this
  rw [this]
  exact fun hm => hS (List.mem_of_mem_take hm)

/-- Past the first space, the stream behind `"GET "` is the path, the space and
more. -/
theorem stream_space (acc tail S rest : List Nat)
    (h : acc ++ tail = GET_ ++ S ++ SP :: rest) (hgt : 4 + S.length < acc.length) :
    ∃ R, acc.drop 4 = S ++ SP :: R := by
  have hd := stream_drop acc tail S rest h (by omega)
  have := congrArg (List.take (acc.drop 4).length) hd
  rw [List.take_append_of_le_length (le_refl _), List.take_length, List.take_append_eq_append_take,
    List.take_of_length_le (by simp; omega)] at this
  obtain ⟨k, hk⟩ : ∃ k, (acc.drop 4).length - S.length = k + 1 :=
    ⟨(acc.drop 4).length - S.length - 1, by simp; omega⟩
  rw [hk, List.take_succ_cons] at this
  exact ⟨_, this⟩

/-- The `PATH` check in terms of `found`. -/
theorem path_check_found_eq (c : connection) (S R : List Nat) (hs : c.state = .PATH)
    (hwf : c.buffer_size ≤ c.buffer.length) (hc : content c = S ++ SP :: R) (hS : SP ∉ S) :
    path_check c = found c S (carry_over (content c) S.length) :=
  path_check_found c S R hs hwf hc hS

/-- At most four bytes are carried over. -/
theorem carry_over_length (held : List Nat) (n : Nat) : (carry_over held n).length ≤ 4 := by
  unfold carry_over
  split <;> simp <;> omega

/-- The buffer `found` leaves holds the carried-over bytes. -/
theorem found_content (c : connection) (S W : List Nat) : content (found c S W) = W := by
  simp [content, found]

/-- The `REQUEST_END` check right after the `PATH` check. -/
theorem request_end_check_found (c : connection) (S W : List Nat) (hW : W.length ≤ 4) :
    request_end_check (found c S W) =
      if W = CRLFCRLF then terminated (found c S W) else found c S W := by
  split
  · next h =>
    exact request_end_check_go _ rfl (by simp [found]) (by rw [found_content]; exact h)
  · next h =>
    exact request_end_check_stay _ (by simpa [found] using hW) (by rw [found_content]; exact h)

/-- The scan of a record that holds, once `"GET "` is removed, a path, a space
and what follows. -/
theorem scan_found (c : connection) (X S R : List Nat) (hwf : c.buffer_size ≤ c.buffer.length)
    (hst : (c.state = .START ∧ is_get (content c) ∧ (content c).drop 4 = X) ∨
      (c.state = .PATH ∧ content c = X))
    (hX : X = S ++ SP :: R) (hS : SP ∉ S) :
    scan c = if carry_over X S.length = CRLFCRLF
      then terminated (found (start_check c) S (carry_over X S.length))
      else found (start_check c) S (carry_over X S.length) := by
  have h2 : (start_check c).state = .PATH ∧
      (start_check c).buffer_size ≤ (start_check c).buffer.length ∧
      content (start_check c) = X := by
    rcases hst with ⟨hs, hg, hd⟩ | ⟨hs, hd⟩
    · obtain ⟨a, b, d⟩ := start_check_strip c hs hwf hg
      exact ⟨a, b, d.trans hd⟩
    · rw [start_check_other c (by simp [hs])]
      exact ⟨hs, hwf, hd⟩
  obtain ⟨hs2, hwf2, hc2⟩ := h2
  rw [scan, path_check_found_eq (start_check c) S R hs2 hwf2 (hc2.trans hX) hS, hc2,
    request_end_check_found _ _ _ (carry_over_length _ _)]

/-- A connection that `holds` bytes is in `START` or `PATH`. -/
theorem holds_request (c : connection) (acc : List Nat) (h : holds c acc) :
    c.state = .START ∨ c.state = .PATH := by
  rcases h.2 with ⟨h, _⟩ | ⟨h, _⟩
  · exact Or.inl h
  · exact Or.inr h

/-- What a connection holds after one more read. -/
theorem holds_appended (c : connection) (acc b : List Nat) (h : holds c acc) :
    (appended c b).buffer_size ≤ (appended c b).buffer.length ∧
    (((appended c b).state = .START ∧ content (appended c b) = acc ++ b) ∨
      ((appended c b).state = .PATH ∧ content (appended c b) = (acc ++ b).drop 4 ∧
        4 ≤ acc.length)) := by
  obtain ⟨hwf, hc⟩ := h
  refine ⟨by rw [appended_full c b hwf], ?_⟩
  rw [appended_content c b hwf, appended_state]
  rcases hc with ⟨hs, hc, _⟩ | ⟨hs, hc, h4⟩
  · exact Or.inl ⟨hs, by rw [hc]⟩
  · exact Or.inr ⟨hs, by rw [hc, List.drop_append_of_le_length h4], h4⟩

/-- One read that does not yet deliver the first space after `"GET "`. -/
theorem call_before_space (g : Globals) (index : Nat) (e : Env) (c : connection)
    (acc tail S rest : List Nat) (hc : g.connections[index]? = some c) (hh : holds c acc)
    (hr : 0 < e.recv.amount) (hS : SP ∉ S)
    (hstream : acc ++ e.recv.bytes ++ tail = GET_ ++ S ++ SP :: rest)
    (hle : (acc ++ e.recv.bytes).length ≤ 4 + S.length) :
    ∃ g1 c1, handle_connection g index e = .running g1 ∧ g1.connections[index]? = some c1 ∧
      holds c1 (acc ++ e.recv.bytes) := by
  obtain ⟨hwf1, hc1⟩ := holds_appended c acc e.recv.bytes hh
  have hcall := handle_request g index e c hc (holds_request c acc hh) hh.1 hr
  have hstore : ∀ c1, (store (logged g c.sock e.recv.bytes) index c1).connections[index]?
      = some c1 := fun c1 => store_get _ index c c1 (by rw [logged_get]; exact hc)
  rcases hc1 with ⟨hs, hct⟩ | ⟨hs, hct, h4⟩
  · by_cases h4 : 4 ≤ (acc ++ e.recv.bytes).length
    · -- the read completes "GET "
      have hg : is_get (content (appended c e.recv.bytes)) := by
        rw [hct]; exact stream_take_get _ tail S rest hstream h4
      have hsp : SP ∉ (content (appended c e.recv.bytes)).drop 4 := by
        rw [hct]; exact stream_no_space _ tail S rest hS hstream h4 hle
      obtain ⟨hst, hwf2, hc2⟩ := start_check_strip _ hs hwf1 hg
      rw [scan_to_path _ hs hwf1 hg hsp, if_neg (by rw [hst]; simp)] at hcall
      exact ⟨_, _, hcall, hstore _, hwf2, Or.inr ⟨hst, by rw [hc2, hct], h4⟩⟩
    · have hng : ¬ is_get (content (appended c e.recv.bytes)) := by
        rw [hct]; exact fun h => h4 h.1
      rw [scan_start_stay _ hs hwf1 hng, if_neg (by rw [hs]; simp)] at hcall
      exact ⟨_, _, hcall, hstore _, hwf1, Or.inl ⟨hs, hct, by omega⟩⟩
  · have h4' : 4 ≤ (acc ++ e.recv.bytes).length := by simp; omega
    have hsp : SP ∉ content (appended c e.recv.bytes) := by
      rw [hct]; exact stream_no_space _ tail S rest hS hstream h4' hle
    have hscan : scan (appended c e.recv.bytes) = appended c e.recv.bytes := by
      rw [scan, start_check_other _ (by rw [hs]; simp), path_check_stay _ hsp,
        request_end_check_other _ (by rw [hs]; simp)]
    rw [hscan, if_neg (by rw [hs]; simp)] at hcall
    exact ⟨_, _, hcall, hstore _, hwf1, Or.inr ⟨hs, hct, h4'⟩⟩

/-- Reads that do not yet deliver the first space after `"GET "`. -/
theorem run_before_space (index : Nat) (S rest : List Nat) (hS : SP ∉ S) :
    ∀ (pre : List Env) (g : Globals) (c : connection) (acc tail : List Nat),
    g.connections[index]? = some c → holds c acc → (∀ e ∈ pre, 0 < e.recv.amount) →
    acc ++ delivered pre ++ tail = GET_ ++ S ++ SP :: rest →
    (acc ++ delivered pre).length ≤ 4 + S.length →
    ∃ g1 c1, run g index pre = .running g1 ∧ g1.connections[index]? = some c1 ∧
      holds c1 (acc ++ delivered pre)
  | [], g, c, acc, _, hc, hh, _, _, _ => ⟨g, c, rfl, hc, by simpa [delivered] using hh⟩
  | e :: es, g, c, acc, tail, hc, hh, hr, hstream, hle => by
    have hd : acc ++ delivered (e :: es) = acc ++ e.recv.bytes ++ delivered es := by
      simp [delivered]
    rw [hd] at hstream hle
    obtain ⟨g1, c1, hcall, hc1, hh1⟩ := call_before_space g index e c acc (delivered es ++ tail)
      S rest hc hh (hr e (List.mem_cons_self _ _)) hS (by simpa using hstream)
      (by simp at hle ⊢; omega)
    obtain ⟨g2, c2, hrun, hc2, hh2⟩ := run_before_space index S rest hS es g1 c1
      (acc ++ e.recv.bytes) tail hc1 hh1 (fun x hx => hr x (List.mem_cons_of_mem _ hx))
      hstream hle
    exact ⟨g2, c2, by simp only [run, hcall]; exact hrun, hc2, by rw [hd]; exact hh2⟩

/-- The terminator holds no space. -/
theorem crlfcrlf_no_space : SP ∉ CRLFCRLF := by decide

/-- The carried-over bytes are the terminator exactly when the bytes read end
with it. -/
theorem carry_ends (acc S R : List Nat) (hg : is_get acc) (hX : acc.drop 4 = S ++ SP :: R) :
    carry_over (acc.drop 4) S.length = CRLFCRLF ↔ ends_request acc := by
  have hacc : acc = GET_ ++ (S ++ SP :: R) := by
    rw [← hX, ← hg.2, List.take_append_drop]
  have hl : acc.length = 4 + (S.length + (R.length + 1)) := by
    rw [hacc]; simp [GET_]; omega
  have hXl : (acc.drop 4).length = S.length + (R.length + 1) := by rw [hX]; simp
  unfold ends_request carry_over
  rw [hXl]
  by_cases h4 : R.length + 1 < 4
  · have h4' : S.length + (R.length + 1) - S.length < 4 := by omega
    rw [if_pos h4']
    constructor
    · intro h
      have := congrArg List.length h
      rw [hX] at this
      simp [CRLFCRLF] at this
      omega
    · intro h
      exfalso
      apply crlfcrlf_no_space
      rw [← h, hacc, ← List.append_assoc,
        List.drop_append_of_le_length (by simp [GET_]; omega)]
      simp
  · have h4' : ¬ S.length + (R.length + 1) - S.length < 4 := by omega
    rw [if_neg h4']
    have : acc.drop (acc.length - 4) = (acc.drop 4).drop (S.length + (R.length + 1) - 4) := by
      rw [List.drop_drop, hl]
      congr 1
      omega
    rw [this]

/-- The read that delivers the first space after `"GET "`. -/
theorem call_at_space (g : Globals) (index : Nat) (e : Env) (c : connection)
    (acc tail S rest : List Nat) (hc : g.connections[index]? = some c) (hh : holds c acc)
    (hr : 0 < e.recv.amount) (hS : SP ∉ S)
    (hstream : acc ++ e.recv.bytes ++ tail = GET_ ++ S ++ SP :: rest)
    (hgt : 4 + S.length < (acc ++ e.recv.bytes).length) :
    (¬ ends_request (acc ++ e.recv.bytes) →
      ∃ c1, (handle_connection g index e).conn index = some c1 ∧ c1.state = .REQUEST_END ∧
        c1.path = S ∧ c1.path_size = S.length) ∧
    (ends_request (acc ++ e.recv.bytes) →
      (∃ g2 status, handle_connection g index e = .exited g2 status) ∨
      ∃ c1, (handle_connection g index e).conn index = some c1 ∧ c1.state = .REQUEST_WRITE ∧
        c1.path = S ++ CRLF ∧ c1.path_size = S.length + 2) := by
  obtain ⟨hwf1, hc1⟩ := holds_appended c acc e.recv.bytes hh
  have hcall := handle_request g index e c hc (holds_request c acc hh) hh.1 hr
  have hg : is_get (acc ++ e.recv.bytes) :=
    stream_take_get _ tail S rest hstream (by omega)
  obtain ⟨R, hR⟩ := stream_space _ tail S rest hstream hgt
  have hscan := scan_found (appended c e.recv.bytes) ((acc ++ e.recv.bytes).drop 4) S R hwf1
    (by
      rcases hc1 with ⟨hs, hct⟩ | ⟨hs, hct, _⟩
      · exact Or.inl ⟨hs, by rw [hct]; exact hg, by rw [hct]⟩
      · exact Or.inr ⟨hs, hct⟩)
    hR hS
  have hiff := carry_ends (acc ++ e.recv.bytes) S R hg hR
  have hlt : index < g.connections.length := by
    rcases List.getElem?_eq_some_iff.1 hc with ⟨h, _⟩; exact h
  constructor
  · intro hne
    have hW : ¬ carry_over ((acc ++ e.recv.bytes).drop 4) S.length = CRLFCRLF :=
      fun h => hne (hiff.1 h)
    rw [if_neg hW] at hscan
    rw [hscan, if_neg (by simp [found])] at hcall
    refine ⟨found (start_check (appended c e.recv.bytes)) S
      (carry_over ((acc ++ e.recv.bytes).drop 4) S.length), ?_, rfl, rfl, rfl⟩
    rw [hcall, conn_running]
    exact store_get _ index c _ (by rw [logged_get]; exact hc)
  · intro he
    rw [if_pos (hiff.2 he)] at hscan
    rw [hscan, if_pos (by simp [terminated])] at hcall
    rcases connect_block_cases (logged g c.sock e.recv.bytes) index
      (terminated (found (start_check (appended c e.recv.bytes)) S
        (carry_over ((acc ++ e.recv.bytes).drop 4) S.length))) e.remote with
      ⟨g2, st, h⟩ | ⟨g2, s, h, hcs⟩
    · exact Or.inl ⟨g2, st, by rw [hcall, h]⟩
    · refine Or.inr ⟨connected (terminated (found (start_check (appended c e.recv.bytes)) S
        (carry_over ((acc ++ e.recv.bytes).drop 4) S.length))) s, ?_, rfl, ?_, rfl⟩
      · rw [hcall, h, conn_running, hcs, logged_get, List.getElem?_set_self hlt]
      · simp only [connected, terminated, found]
        rw [buffer_append_eq _ _ _ _ (le_refl _)]
        simp [CRLF]

/-- The connection `add_connection` creates holds nothing. -/
theorem holds_new (sock : Int) : holds (new_connection sock) [] :=
  ⟨le_refl _, Or.inl ⟨rfl, rfl, by decide⟩⟩

/-- C1 (amended). On a fresh connection fed the stream
`"GET " ++ S ++ " " ++ rest` (`S` free of spaces) in non-empty reads, the
connection is still in `START` or `PATH` before the read that delivers the
first space after `"GET "`; after that read it has left `PATH` and the
captured path is `S`: when the bytes read so far do not end in
`"\r\n\r\n"` it is in `REQUEST_END` with `path = S` and
`path_size = |S|`; when they do, the same call goes on through `CONNECT`,
where it exits or leaves the connection in `REQUEST_WRITE` with
`path = S ++ "\r\n"` and `path_size = |S| + 2`. -/
theorem path_is_selector (g : Globals) (index : Nat) (sock : Int) (pre : List Env) (e : Env)
    (S rest tail : List Nat)
    (hfresh : g.connections[index]? = some (new_connection sock))
    (hreads : ∀ x ∈ pre ++ [e], 0 < x.recv.amount)
    (hS : SP ∉ S)
    (hstream : delivered (pre ++ [e]) ++ tail = GET_ ++ S ++ SP :: rest)
    (hbefore : (delivered pre).length ≤ 4 + S.length)
    (hnow : 4 + S.length < (delivered (pre ++ [e])).length) :
    (∃ g1 c1, run g index pre = .running g1 ∧ g1.connections[index]? = some c1 ∧
      (c1.state = .START ∨ c1.state = .PATH)) ∧
    (¬ ends_request (delivered (pre ++ [e])) →
      ∃ c, (run g index (pre ++ [e])).conn index = some c ∧ c.state = .REQUEST_END ∧
        c.path = S ∧ c.path_size = S.length) ∧
    (ends_request (delivered (pre ++ [e])) →
      (∃ g2 status, run g index (pre ++ [e]) = .exited g2 status) ∨
      ∃ c, (run g index (pre ++ [e])).conn index = some c ∧ c.state = .REQUEST_WRITE ∧
        c.path = S ++ CRLF ∧ c.path_size = S.length + 2) := by
  have hacc : delivered (pre ++ [e]) = delivered pre ++ e.recv.bytes := by
    rw [delivered_append, delivered_single]
  rw [hacc] at hstream hnow ⊢
  obtain ⟨g1, c1, hrun1, hc1, hh1⟩ := run_before_space index S rest hS pre g
    (new_connection sock) [] (e.recv.bytes ++ tail) hfresh (holds_new sock)
    (fun x hx => hreads x (List.mem_append_left _ hx))
    (by simpa [List.append_assoc] using hstream) (by simpa using hbefore)
  rw [List.nil_append] at hh1
  have hfinal := call_at_space g1 index e c1 (delivered pre) tail S rest hc1 hh1
    (hreads e (by simp)) hS hstream hnow
  rw [run_snoc g g1 index pre e hrun1]
  exact ⟨⟨g1, c1, hrun1, hc1, holds_request c1 _ hh1⟩, hfinal⟩

/-- Witness of C1: `"GE"`, `"T /"`, `"x a"` for the stream `"GET /x a\r\n"`. -/
theorem path_is_selector_witness :
    (demo_fresh.connections[0]? = some (new_connection 4) ∧
      (∀ x ∈ [demo_recv [71, 69], demo_recv [84, 32, 47]] ++ [demo_recv [120, 32, 97]],
        0 < x.recv.amount) ∧
      SP ∉ [47, 120] ∧
      delivered ([demo_recv [71, 69], demo_recv [84, 32, 47]] ++ [demo_recv [120, 32, 97]]) ++
          [13, 10] = GET_ ++ [47, 120] ++ SP :: [97, 13, 10] ∧
      (delivered [demo_recv [71, 69], demo_recv [84, 32, 47]]).length ≤ 4 + [47, 120].length ∧
      4 + [47, 120].length <
        (delivered ([demo_recv [71, 69], demo_recv [84, 32, 47]] ++
          [demo_recv [120, 32, 97]])).length) ∧
    ∃ c, (run demo_fresh 0 ([demo_recv [71, 69], demo_recv [84, 32, 47]] ++
        [demo_recv [120, 32, 97]])).conn 0 = some c ∧ c.state = .REQUEST_END ∧
      c.path = [47, 120] ∧ c.path_size = [47, 120].length :=
  ⟨⟨by decide, by decide, by decide, by decide, by decide, by decide⟩,
    (path_is_selector demo_fresh 0 4 [demo_recv [71, 69], demo_recv [84, 32, 47]]
      (demo_recv [120, 32, 97]) [47, 120] [97, 13, 10] [13, 10]
      (by decide) (by decide) (by decide) (by decide) (by decide) (by decide)).2.1
      (by decide)⟩

/-- Counterexample to C1 as stated: the single read `"GET /x a\r\n\r\n"`
delivers the first space after `"GET "`, and after the call the path is
`"/x\r\n"` with `path_size = 4`, not `"/x"` with `path_size = 2`; split after
the space, the same stream leaves `"/x"` after the read that delivers the
space. -/
theorem single_read_path_has_terminator :
    ((run demo_fresh 0 [demo_recv [71, 69, 84, 32, 47, 120, 32, 97, 13, 10, 13, 10]]).conn
        0).map (fun c => (c.state, c.path, c.path_size))
      = some (.REQUEST_WRITE, [47, 120, 13, 10], 4) ∧
    (¬ ∃ c, (run demo_fresh 0
        [demo_recv [71, 69, 84, 32, 47, 120, 32, 97, 13, 10, 13, 10]]).conn 0 = some c ∧
      c.path = [47, 120] ∧ c.path_size = 2) ∧
    ((run demo_fresh 0 [demo_recv [71, 69, 84, 32, 47, 120, 32]]).conn
        0).map (fun c => (c.state, c.path, c.path_size))
      = some (.REQUEST_END, [47, 120], 2) := by
  have h1 : ((run demo_fresh 0
      [demo_recv [71, 69, 84, 32, 47, 120, 32, 97, 13, 10, 13, 10]]).conn
        0).map (fun c => (c.state, c.path, c.path_size))
      = some (.REQUEST_WRITE, [47, 120, 13, 10], 4) := by decide
  refine ⟨h1, ?_, by decide⟩
  rintro ⟨c, hc, hp, hs⟩
  rw [hc] at h1
  simp only [Option.map_some', Option.some.injEq, Prod.mk.injEq] at h1
  rw [hp] at h1
  exact absurd h1.2.1 (by decide)

/-! ## A request that arrives in one read -/

/-- An `int` survives the passage through a `size_t` variable. -/
theorem int_size_int (x : Int) (hlo : -2 ^ 31 ≤ x) (hhi : x < 2 ^ 31) :
    size_to_int (int_to_size x) = x := by
  simp only [int_to_size, size_to_int]
  omega

/-- The lookup depends on the table of sockets only. -/
theorem get_socket_index_congr (g g1 : Globals) (sock : Int) (h : g1.sockets = g.sockets) :
    get_socket_index g1 sock = get_socket_index g sock := by
  simp [get_socket_index, h]

/-- C6. A request arriving in one read, `"GET " ++ S ++ " " ++ rest` with `S`
free of spaces and the read ending in `"\r\n\r\n"`, takes a fresh connection
from `START` to `REQUEST_WRITE` in one call when the connect succeeds: the path
is `S ++ "\r\n"`, the relay buffer has 1024 bytes, the remote socket is the
active one and the client socket the parked one, the entry of the client
socket in the table of sockets now names the remote socket with `POLLOUT`,
and nothing was sent. -/
theorem single_read_request (g g1 : Globals) (index : Nat) (sock remote : Int) (e : Env)
    (S rest : List Nat)
    (hfresh : g.connections[index]? = some (new_connection sock))
    (hrecv : e.recv = .ok (GET_ ++ S ++ SP :: rest))
    (hS : SP ∉ S)
    (hend : ends_request (GET_ ++ S ++ SP :: rest))
    (hconn : connect_to_remote (logged g sock (GET_ ++ S ++ SP :: rest)) e.remote
      = .returned g1 remote)
    (hremote : 0 ≤ remote ∧ remote < 2 ^ 31)
    (hsock : get_socket_index g sock < g.sockets.length) :
    handle_connection g index e = .running
      { sockets := g.sockets.set (get_socket_index g sock) { fd := remote, events := POLLOUT }
        number_interfaces := g.number_interfaces
        connections := g.connections.set index
          { state := .REQUEST_WRITE, sock := remote, path := S ++ CRLF,
            path_size := S.length + 2, buffer := malloc 1024, buffer_size := 1024,
            sock_other := sock, written := 0, read := 0 }
        closed := g1.closed
        sent := g.sent
        received := g.received ++ [(sock, GET_ ++ S ++ SP :: rest)]
        stderr := g.stderr } := by
  have hbytes : e.recv.bytes = GET_ ++ S ++ SP :: rest := by rw [hrecv]; rfl
  have hr : 0 < e.recv.amount := by
    rw [hrecv]; simp [recv_result.amount, GET_]; omega
  have hcall := handle_request g index e (new_connection sock) hfresh (Or.inl rfl)
    (le_refl _) hr
  rw [hbytes] at hcall
  have hwf1 := appended_full (new_connection sock) (GET_ ++ S ++ SP :: rest) (le_refl _)
  have hct : content (appended (new_connection sock) (GET_ ++ S ++ SP :: rest))
      = GET_ ++ S ++ SP :: rest := by
    rw [appended_content _ _ (le_refl _)]; rfl
  have hg : is_get (GET_ ++ S ++ SP :: rest) :=
    stream_take_get _ [] S rest (by simp) (by simp [GET_])
  have hX : (GET_ ++ S ++ SP :: rest).drop 4 = S ++ SP :: rest := by
    rw [List.append_assoc]; rfl
  have hscan := scan_found (appended (new_connection sock) (GET_ ++ S ++ SP :: rest))
    (S ++ SP :: rest) S rest (by omega)
    (Or.inl ⟨rfl, by rw [hct]; exact hg, by rw [hct, hX]⟩) rfl hS
  have hcarry : carry_over (S ++ SP :: rest) S.length = CRLFCRLF := by
    rw [← hX]; exact (carry_ends _ S rest hg hX).2 hend
  rw [if_pos hcarry, hcarry] at hscan
  have hstate : (terminated (found (start_check
      (appended (new_connection sock) (GET_ ++ S ++ SP :: rest))) S CRLFCRLF)).state
      = .CONNECT := rfl
  rw [hscan, if_pos hstate] at hcall
  obtain ⟨hk1, hk2, hk3, hk4, hk5, hk6⟩ := connect_to_remote_keeps _ _ _ _ hconn
  have hidx : get_socket_index g1 sock = get_socket_index g sock :=
    get_socket_index_congr g g1 sock hk1
  have hblock := connect_block_returned (logged g sock (GET_ ++ S ++ SP :: rest)) g1 index
    (terminated (found (start_check (appended (new_connection sock) (GET_ ++ S ++ SP :: rest)))
      S CRLFCRLF)) e.remote remote hconn
  obtain ⟨block, hsc, -, -⟩ := start_check_go
    (appended (new_connection sock) (GET_ ++ S ++ SP :: rest)) rfl (by omega)
    (by rw [hct]; exact hg)
  have hsock1 : (terminated (found (start_check
      (appended (new_connection sock) (GET_ ++ S ++ SP :: rest))) S CRLFCRLF)).sock = sock := by
    rw [hsc]; rfl
  rw [hsock1, hidx] at hblock
  have hns : (new_connection sock).sock = sock := rfl
  have hl1 : g1.sockets.length = g.sockets.length := by rw [hk1]; rfl
  rw [hcall, hns, hblock (by omega)]
  have hrt := int_size_int remote (by omega) hremote.2
  have hpath : buffer_append S S.length CRLF 2 = S ++ CRLF := by
    rw [buffer_append_eq _ _ _ _ (le_refl _)]; simp [CRLF]
  rw [hsc]
  simp only [store, connected, terminated, found, appended, new_connection, hrt, hpath, hk1, hk2,
    hk3, hk4, hk5, hk6, logged]

/-- Witness of C6: the request `"GET /selector HTTP/1.0\r\nHost: x\r\n\r\n"`
in one read leaves the pending selector `"/selector\r\n"`. -/
theorem single_read_request_witness :
    (demo_fresh.connections[0]? = some (new_connection 4) ∧
      (demo_recv (GET_ ++ demo_selector ++ SP :: demo_headers)).recv
        = .ok (GET_ ++ demo_selector ++ SP :: demo_headers) ∧
      SP ∉ demo_selector ∧
      ends_request (GET_ ++ demo_selector ++ SP :: demo_headers) ∧
      connect_to_remote (logged demo_fresh 4 (GET_ ++ demo_selector ++ SP :: demo_headers))
        (demo_recv (GET_ ++ demo_selector ++ SP :: demo_headers)).remote
        = .returned (logged demo_fresh 4 (GET_ ++ demo_selector ++ SP :: demo_headers)) 5 ∧
      ((0 : Int) ≤ 5 ∧ (5 : Int) < 2 ^ 31) ∧
      get_socket_index demo_fresh 4 < demo_fresh.sockets.length) ∧
    handle_connection demo_fresh 0 (demo_recv (GET_ ++ demo_selector ++ SP :: demo_headers))
      = .running
        { sockets := [{ fd := 3, events := POLLIN }, { fd := 5, events := POLLOUT }]
          number_interfaces := 1
          connections :=
            [{ state := .REQUEST_WRITE, sock := 5,
               path := [47, 115, 101, 108, 101, 99, 116, 111, 114, 13, 10],
               path_size := 11, buffer := malloc 1024, buffer_size := 1024,
               sock_other := 4, written := 0, read := 0 }]
          closed := []
          sent := []
          received := [(4, GET_ ++ demo_selector ++ SP :: demo_headers)]
          stderr := [] } :=
  ⟨⟨by decide, rfl, by decide, by decide, rfl, by decide, by decide⟩,
    single_read_request demo_fresh
      (logged demo_fresh 4 (GET_ ++ demo_selector ++ SP :: demo_headers)) 0 4 5
      (demo_recv (GET_ ++ demo_selector ++ SP :: demo_headers)) demo_selector demo_headers
      (by decide) rfl (by decide) (by decide) rfl (by decide) (by decide)⟩

/-! ## Sending the selector -/

/-- The unsigned subtraction does not wrap when the result is not negative. -/
theorem size_sub_eq (a b : Nat) (hb : b ≤ a) (ha : a < 2 ^ 64) : size_sub a b = a - b := by
  simp only [size_sub]
  omega

/-- Outside the request states the reading block reads nothing. -/
theorem request_read_other (c : connection) (r : recv_result)
    (hs : c.state = .CONNECT ∨ c.state = .REQUEST_WRITE ∨ c.state = .READ ∨ c.state = .WRITE) :
    request_read c r = .next c := by
  rcases hs with h | h | h | h <;> simp [request_read, h]

/-- Outside the request states the three checks do nothing. -/
theorem scan_other (c : connection)
    (hs : c.state = .CONNECT ∨ c.state = .REQUEST_WRITE ∨ c.state = .READ ∨ c.state = .WRITE) :
    request_end_check (path_check (start_check c)) = c := by
  rcases hs with h | h | h | h <;>
    rw [start_check_other c (by simp [h]), path_check_other c (by simp [h]),
      request_end_check_other c (by simp [h])]

/-- A call in `REQUEST_WRITE` is the `REQUEST_WRITE` block. -/
theorem handle_request_write (g : Globals) (index : Nat) (env : Env) (c : connection)
    (hc : g.connections[index]? = some c) (hs : c.state = .REQUEST_WRITE) :
    handle_connection g index env = request_write_block g index c env.send := by
  simp only [handle_connection, hc, request_read_other c env.recv (Or.inr (Or.inl hs)),
    scan_other c (Or.inr (Or.inl hs)), hs]
  simp

/-- A call in `READ` is the `READ` block. -/
theorem handle_read (g : Globals) (index : Nat) (env : Env) (c : connection)
    (hc : g.connections[index]? = some c) (hs : c.state = .READ) :
    handle_connection g index env = read_block g index c env.recv := by
  simp only [handle_connection, hc, request_read_other c env.recv (Or.inr (Or.inr (Or.inl hs))),
    scan_other c (Or.inr (Or.inr (Or.inl hs))), hs]
  simp

/-- A call in `WRITE` is the `WRITE` block. -/
theorem handle_write (g : Globals) (index : Nat) (env : Env) (c : connection)
    (hc : g.connections[index]? = some c) (hs : c.state = .WRITE) :
    handle_connection g index env = write_block g index c env.send := by
  simp only [handle_connection, hc, request_read_other c env.recv (Or.inr (Or.inr (Or.inr hs))),
    scan_other c (Or.inr (Or.inr (Or.inr hs))), hs]
  simp

/-- The bytes accepted over two runs of calls. -/
theorem accepted_append (a b : List Env) : accepted (a ++ b) = accepted a + accepted b := by
  induction a with
  | nil => simp [accepted]
  | cons e es ih => simp [accepted, ih, Nat.add_assoc]

/-- The bytes of two logs in sequence. -/
theorem payload_append (a b : List (Int × List Nat)) :
    payload (a ++ b) = payload a ++ payload b := by
  induction a with
  | nil => rfl
  | cons e es ih => simp [payload, ih]

/-- A `send` that did not fail accepted its count. -/
theorem send_ok (s : send_result) (h : s ≠ .error) : s = .ok s.count := by
  cases s with
  | error => exact absurd rfl h
  | ok a => rfl

/-- The function `socket_change` on a descriptor that has an entry. -/
theorem socket_change_found (g : Globals) (old new : Int) (events : Nat)
    (h : get_socket_index g old < g.sockets.length) :
    socket_change g old new events
      = .running (retargeted g (get_socket_index g old) new events) := by
  have hne : get_socket_index g old ≠ g.sockets.length := by omega
  simp only [socket_change, hne, if_false, retargeted]

/-- The bytes accepted are the first bytes of the unsent part. -/
theorem offered_take (P : List Nat) (w a n : Nat) (h : w + a ≤ n) :
    (((P.drop w).take (n - w)).take a) = (P.drop w).take a := by
  rw [List.take_take, Nat.min_eq_left (by omega)]

/-- The `REQUEST_WRITE` block when part of the path stays unsent. -/
theorem request_write_partial (g : Globals) (index : Nat) (c : connection) (a : Nat)
    (hfit : c.path_size < 2 ^ 64) (hlt : c.written + a < c.path_size) :
    request_write_block g index c (.ok a) =
      .running (store (sent_log g c.sock ((c.path.drop c.written).take a)) index
        (advanced c a)) := by
  have hsub := size_sub_eq c.path_size c.written (by omega) hfit
  have hn : ¬ (c.written + a ≥ c.path_size) := by omega
  simp only [request_write_block, hsub, offered_take c.path c.written a c.path_size (by omega),
    hn, if_false, sent_log, advanced]

/-- The `REQUEST_WRITE` block when the path is sent completely. -/
theorem request_write_complete (g : Globals) (index : Nat) (c : connection) (a : Nat)
    (hfit : c.path_size < 2 ^ 64) (heq : c.written + a = c.path_size)
    (hsock : get_socket_index g c.sock < g.sockets.length) :
    request_write_block g index c (.ok a) =
      .running (store (retargeted (sent_log g c.sock ((c.path.drop c.written).take a))
          (get_socket_index g c.sock) c.sock POLLIN) index
        { advanced c a with path := [], path_size := 0, state := .READ }) := by
  have hsub := size_sub_eq c.path_size c.written (by omega) hfit
  have hn : c.written + a ≥ c.path_size := by omega
  have hsc := socket_change_found (sent_log g c.sock ((c.path.drop c.written).take a))
    c.sock c.sock POLLIN hsock
  simp only [request_write_block, hsub, offered_take c.path c.written a c.path_size (by omega),
    hn, if_true]
  rw [← sent_log]
  simp only [hsc]
  rfl

/-- Advancing by nothing changes nothing. -/
theorem advanced_zero (c : connection) : advanced c 0 = c := rfl

/-- Two advances are one. -/
theorem advanced_advanced (c : connection) (a b : Nat) :
    advanced (advanced c a) b = advanced c (a + b) := by
  simp [advanced, Nat.add_assoc]

/-- Sends that leave part of the path unsent keep the connection in
`REQUEST_WRITE`; what they accepted is the next part of the path. -/
theorem run_request_write (index : Nat) : ∀ (envs : List Env) (g : Globals) (c : connection),
    g.connections[index]? = some c → c.state = .REQUEST_WRITE → c.path_size < 2 ^ 64 →
    (∀ e ∈ envs, e.send ≠ .error) → c.written + accepted envs < c.path_size →
    ∃ g1 new, run g index envs = .running g1 ∧
      g1.connections[index]? = some (advanced c (accepted envs)) ∧
      g1.sockets = g.sockets ∧ g1.sent = g.sent ++ new ∧ (∀ x ∈ new, x.1 = c.sock) ∧
      payload new = (c.path.drop c.written).take (accepted envs)
  | [], g, c, hc, _, _, _, _ => ⟨g, [], rfl, by rw [hc]; rfl, rfl, by simp, by simp, by
      simp [payload, accepted]⟩
  | e :: es, g, c, hc, hs, hfit, hsend, hlt => by
    have he := send_ok e.send (hsend e (List.mem_cons_self _ _))
    have hacc : accepted (e :: es) = e.send.count + accepted es := rfl
    rw [hacc] at hlt
    have hcall := handle_request_write g index e c hc hs
    rw [he, request_write_partial g index c e.send.count hfit (by omega)] at hcall
    obtain ⟨g1, new, hrun, hc1, hsk, hsent, hall, hpay⟩ := run_request_write index es
      (store (sent_log g c.sock ((c.path.drop c.written).take e.send.count)) index
        (advanced c e.send.count))
      (advanced c e.send.count) (store_get _ index c _ hc) hs hfit
      (fun x hx => hsend x (List.mem_cons_of_mem _ hx))
      (by simp only [advanced]; omega)
    refine ⟨g1, (c.sock, (c.path.drop c.written).take e.send.count) :: new, ?_, ?_, ?_, ?_, ?_,
      ?_⟩
    · simp only [run, hcall]; exact hrun
    · rw [hc1, advanced_advanced]; rfl
    · rw [hsk]; rfl
    · rw [hsent]; simp [store, sent_log]
    · intro x hx
      rcases List.mem_cons.1 hx with rfl | hx
      · rfl
      · exact hall x hx
    · rw [hacc]
      simp only [payload, hpay, advanced, List.drop_drop]
      rw [List.take_add, List.drop_drop]

/-- The descriptor just put into an entry is found. -/
theorem get_socket_index_set (l : List pollfd) (i : Nat) (sock : Int) (events : Nat)
    (hi : i < l.length) :
    (l.set i { fd := sock, events := events }).findIdx (fun s => s.fd == sock)
      < (l.set i { fd := sock, events := events }).length := by
  apply List.findIdx_lt_length_of_exists
  refine ⟨{ fd := sock, events := events }, ?_, by simp⟩
  have hi2 : i < (l.set i { fd := sock, events := events }).length := by simpa using hi
  have := List.getElem_mem hi2
  simpa using this

/-- What the `CONNECT` block leaves when it returns. -/
theorem connect_block_running (g g2 : Globals) (index : Nat) (conn : connection)
    (r : remote_env) (hi : index < g.connections.length)
    (h : connect_block g index conn r = .running g2) :
    ∃ g1 s, connect_to_remote g r = .returned g1 s ∧
      get_socket_index g conn.sock < g.sockets.length ∧
      g2 = store (retargeted g1 (get_socket_index g conn.sock) (size_to_int (int_to_size s))
        POLLOUT) index (connected conn s) ∧
      g2.connections[index]? = some (connected conn s) ∧
      get_socket_index g2 (connected conn s).sock < g2.sockets.length := by
  cases hct : connect_to_remote g r with
  | exited g1 => simp [connect_block, hct] at h
  | returned g1 s =>
    obtain ⟨hk1, hk2, -⟩ := connect_to_remote_keeps g g1 r s hct
    have hidx := get_socket_index_congr g g1 conn.sock hk1
    by_cases hsock : get_socket_index g1 conn.sock = g1.sockets.length
    · simp [connect_block, hct, socket_change, hsock] at h
    · rw [connect_block_returned g g1 index conn r s hct hsock] at h
      have hlt : get_socket_index g conn.sock < g.sockets.length := by
        have := @List.findIdx_le_length pollfd (fun s => s.fd == conn.sock) g1.sockets
        rw [← hidx, ← hk1]
        simp only [get_socket_index] at hsock ⊢
        omega
      refine ⟨g1, s, rfl, hlt, ?_, ?_, ?_⟩
      · simp only [Outcome.running.injEq] at h
        rw [← h, hidx]; rfl
      · simp only [Outcome.running.injEq] at h
        rw [← h]
        simp [store, hk2, List.getElem?_set_self hi]
      · simp only [Outcome.running.injEq] at h
        rw [← h]
        simp only [get_socket_index, store, connected]
        exact get_socket_index_set g1.sockets _ _ _ (by
          have := hidx; simp only [get_socket_index] at this hlt; rw [this, hk1]; exact hlt)

/-- C2. The `CONNECT` block turns a captured selector `S` into the path
`S ++ "\r\n"` and leaves `written` as it was. From `REQUEST_WRITE` with
nothing written, sends that accept fewer bytes in total than the path has
leave the connection in `REQUEST_WRITE`, the bytes accepted by the active
socket being exactly that many leading bytes of `S ++ "\r\n"`; the call whose
send brings `written` to `path_size` moves the connection to `READ`,
retargets its socket for `POLLIN`, and the bytes accepted in total are
exactly `S ++ "\r\n"`. -/
theorem selector_sent (g : Globals) (index : Nat) (c : connection) (S : List Nat)
    (pre : List Env) (e : Env)
    (hc : g.connections[index]? = some c) (hs : c.state = .REQUEST_WRITE)
    (hpath : c.path = S ++ CRLF) (hsize : c.path_size = S.length + 2) (hw : c.written = 0)
    (hfit : S.length + 2 < 2 ^ 64)
    (hsock : get_socket_index g c.sock < g.sockets.length)
    (hsends : ∀ x ∈ pre ++ [e], x.send ≠ .error)
    (hpart : accepted pre < S.length + 2)
    (hlast : accepted (pre ++ [e]) = S.length + 2) :
    (∃ g1 new, run g index pre = .running g1 ∧
      g1.connections[index]? = some { c with written := accepted pre } ∧
      g1.sent = g.sent ++ new ∧ (∀ x ∈ new, x.1 = c.sock) ∧
      payload new = (S ++ CRLF).take (accepted pre)) ∧
    (∃ g2 new, run g index (pre ++ [e]) = .running g2 ∧
      g2.connections[index]? = some { c with
        written := S.length + 2, path := [], path_size := 0, state := .READ } ∧
      g2.sockets = g.sockets.set (get_socket_index g c.sock) { fd := c.sock, events := POLLIN } ∧
      g2.sent = g.sent ++ new ∧ (∀ x ∈ new, x.1 = c.sock) ∧
      payload new = S ++ CRLF) ∧
    (∀ (gc g2 : Globals) (conn : connection) (r : remote_env),
      index < gc.connections.length → conn.path = S → conn.path_size = S.length →
      connect_block gc index conn r = .running g2 →
      ∃ c2, g2.connections[index]? = some c2 ∧ c2.state = .REQUEST_WRITE ∧
        c2.path = S ++ CRLF ∧ c2.path_size = S.length + 2 ∧ c2.written = conn.written ∧
        c2.sock_other = conn.sock ∧ get_socket_index g2 c2.sock < g2.sockets.length) := by
  have hfit2 : c.path_size < 2 ^ 64 := by rw [hsize]; exact hfit
  obtain ⟨g1, new, hrun1, hc1, hsk1, hsent1, hall1, hpay1⟩ := run_request_write index pre g c
    hc hs hfit2 (fun x hx => hsends x (List.mem_append_left _ hx)) (by rw [hw, hsize]; omega)
  rw [hw, hpath, List.drop_zero] at hpay1
  have hadv : advanced c (accepted pre) = { c with written := accepted pre } := by
    simp [advanced, hw]
  have hacc : accepted (pre ++ [e]) = accepted pre + e.send.count := by
    rw [accepted_append]; simp [accepted]
  have he := send_ok e.send (hsends e (by simp))
  have hcall := handle_request_write g1 index e (advanced c (accepted pre)) hc1 hs
  have hw1 : (advanced c (accepted pre)).written = accepted pre := by simp [advanced, hw]
  have hsock1 : get_socket_index g1 c.sock < g1.sockets.length := by
    rw [get_socket_index_congr g g1 c.sock hsk1, hsk1]; exact hsock
  rw [he, request_write_complete g1 index (advanced c (accepted pre)) e.send.count hfit2
    (by rw [hw1]; show _ = c.path_size; rw [hsize]; omega) hsock1] at hcall
  refine ⟨⟨g1, new, hrun1, by rw [hc1, hadv], hsent1, hall1, hpay1⟩, ?_, ?_⟩
  · refine ⟨_, new ++ [(c.sock, (c.path.drop (accepted pre)).take e.send.count)],
      (run_snoc g g1 index pre e hrun1).trans hcall, ?_, ?_, ?_, ?_, ?_⟩
    · rw [store_get _ index _ _ (show (retargeted (sent_log g1 _ _) _ _ _).connections[index]?
        = some (advanced c (accepted pre)) from hc1)]
      simp only [advanced, hw, Nat.zero_add, Option.some.injEq]
      have : accepted pre + e.send.count = S.length + 2 := by omega
      rw [this]
    · simp only [store, retargeted, sent_log]
      show g1.sockets.set (get_socket_index g1 c.sock) { fd := c.sock, events := POLLIN } = _
      rw [get_socket_index_congr g g1 c.sock hsk1, hsk1]
    · simp only [store, retargeted, sent_log, hsent1, hw1, List.append_assoc]
      rfl
    · intro x hx
      rcases List.mem_append.1 hx with hx | hx
      · exact hall1 x hx
      · simp only [List.mem_singleton] at hx
        rw [hx]
    · rw [payload_append, hpay1, hpath]
      simp only [payload, List.append_nil]
      rw [← List.take_add]
      apply List.take_of_length_le
      simp [CRLF]; omega
  · intro gc g2 conn r hi hp hps hrun
    obtain ⟨g1', s, -, -, -, hconn, hidx⟩ := connect_block_running gc g2 index conn r hi hrun
    refine ⟨connected conn s, hconn, rfl, ?_, ?_, rfl, rfl, hidx⟩
    · simp only [connected, hp, hps]
      rw [buffer_append_eq _ _ _ _ (le_refl _)]
      simp [CRLF]
    · simp only [connected, hps]

/-- Witness of C2: `"/selector\r\n"` sent as 3 bytes, then 8. -/
theorem selector_sent_witness :
    (demo_pending.connections[0]? = some demo_pending_conn ∧
      demo_pending_conn.state = .REQUEST_WRITE ∧
      demo_pending_conn.path = demo_selector ++ CRLF ∧
      demo_pending_conn.path_size = demo_selector.length + 2 ∧
      demo_pending_conn.written = 0 ∧
      demo_selector.length + 2 < 2 ^ 64 ∧
      get_socket_index demo_pending demo_pending_conn.sock < demo_pending.sockets.length ∧
      (∀ x ∈ [demo_send 3] ++ [demo_send 8], x.send ≠ .error) ∧
      accepted [demo_send 3] < demo_selector.length + 2 ∧
      accepted ([demo_send 3] ++ [demo_send 8]) = demo_selector.length + 2) ∧
    ∃ g2 new, run demo_pending 0 ([demo_send 3] ++ [demo_send 8]) = .running g2 ∧
      g2.connections[0]? = some { demo_pending_conn with
        written := demo_selector.length + 2, path := [], path_size := 0, state := .READ } ∧
      g2.sockets = demo_pending.sockets.set (get_socket_index demo_pending demo_pending_conn.sock)
        { fd := demo_pending_conn.sock, events := POLLIN } ∧
      g2.sent = demo_pending.sent ++ new ∧ (∀ x ∈ new, x.1 = demo_pending_conn.sock) ∧
      payload new = demo_selector ++ CRLF :=
  ⟨⟨rfl, by decide, by decide, by decide, by decide, by decide, by decide, by decide,
      by decide, by decide⟩,
    (selector_sent demo_pending 0 demo_pending_conn demo_selector [demo_send 3] (demo_send 8)
      rfl (by decide) (by decide) (by decide) (by decide) (by decide) (by decide)
      (by decide) (by decide) (by decide)).2.1⟩

/-! ## The relay -/

/-- The `READ` block when bytes arrive. -/
theorem read_block_ok (g : Globals) (index : Nat) (c : connection) (r : recv_result)
    (hr : 0 < r.amount) (hsock : get_socket_index g c.sock < g.sockets.length) :
    read_block g index c r =
      .running (store (retargeted (logged g c.sock r.bytes) (get_socket_index g c.sock)
        c.sock_other POLLOUT) index (filled c r.bytes)) := by
  obtain ⟨data, rfl, hd⟩ := recv_pos r hr
  have h1 : ¬ ((data.length : Int) = -1) := by omega
  have h2 : ¬ ((data.length : Int) = 0) := by omega
  have hsc := socket_change_found (logged g c.sock data) c.sock c.sock_other POLLOUT hsock
  simp only [read_block, recv_result.amount, recv_result.bytes, h1, h2, if_false,
    Int.toNat_ofNat]
  rw [← logged]
  simp only [hsc]
  rfl

/-- The `WRITE` block when part of the chunk stays unsent. -/
theorem write_partial (g : Globals) (index : Nat) (c : connection) (a : Nat)
    (hfit : c.read < 2 ^ 64) (hlt : c.written + a < c.read) :
    write_block g index c (.ok a) =
      .running (store (sent_log g c.sock ((c.buffer.drop c.written).take a)) index
        (advanced c a)) := by
  have hsub := size_sub_eq c.read c.written (by omega) hfit
  have hn : ¬ (c.written + a ≥ c.read) := by omega
  simp only [write_block, hsub, offered_take c.buffer c.written a c.read (by omega),
    hn, if_false, sent_log, advanced]

/-- The `WRITE` block when the chunk is written completely. -/
theorem write_complete (g : Globals) (index : Nat) (c : connection) (a : Nat)
    (hfit : c.read < 2 ^ 64) (heq : c.written + a = c.read)
    (hsock : get_socket_index g c.sock < g.sockets.length) :
    write_block g index c (.ok a) =
      .running (store (retargeted (sent_log g c.sock ((c.buffer.drop c.written).take a))
          (get_socket_index g c.sock) c.sock_other POLLIN) index
        (drained (advanced c a))) := by
  have hsub := size_sub_eq c.read c.written (by omega) hfit
  have hn : c.written + a ≥ c.read := by omega
  have hsc := socket_change_found (sent_log g c.sock ((c.buffer.drop c.written).take a))
    c.sock c.sock_other POLLIN hsock
  simp only [write_block, hsub, offered_take c.buffer c.written a c.read (by omega),
    hn, if_true]
  rw [← sent_log]
  simp only [hsc]
  rfl

/-- Sends that leave part of the chunk unsent keep the connection in `WRITE`;
what they accepted is the next part of the chunk. -/
theorem run_write (index : Nat) : ∀ (envs : List Env) (g : Globals) (c : connection),
    g.connections[index]? = some c → c.state = .WRITE → c.read < 2 ^ 64 →
    (∀ e ∈ envs, e.send ≠ .error) → c.written + accepted envs < c.read →
    ∃ g1 new, run g index envs = .running g1 ∧
      g1.connections[index]? = some (advanced c (accepted envs)) ∧
      g1.sockets = g.sockets ∧ g1.received = g.received ∧
      g1.sent = g.sent ++ new ∧ (∀ x ∈ new, x.1 = c.sock) ∧
      payload new = (c.buffer.drop c.written).take (accepted envs)
  | [], g, c, hc, _, _, _, _ => ⟨g, [], rfl, by rw [hc]; rfl, rfl, rfl, by simp, by simp, by
      simp [payload, accepted]⟩
  | e :: es, g, c, hc, hs, hfit, hsend, hlt => by
    have he := send_ok e.send (hsend e (List.mem_cons_self _ _))
    have hacc : accepted (e :: es) = e.send.count + accepted es := rfl
    rw [hacc] at hlt
    have hcall := handle_write g index e c hc hs
    rw [he, write_partial g index c e.send.count hfit (by omega)] at hcall
    obtain ⟨g1, new, hrun, hc1, hsk, hrc, hsent, hall, hpay⟩ := run_write index es
      (store (sent_log g c.sock ((c.buffer.drop c.written).take e.send.count)) index
        (advanced c e.send.count))
      (advanced c e.send.count) (store_get _ index c _ hc) hs hfit
      (fun x hx => hsend x (List.mem_cons_of_mem _ hx))
      (by simp only [advanced]; omega)
    refine ⟨g1, (c.sock, (c.buffer.drop c.written).take e.send.count) :: new, ?_, ?_, ?_, ?_,
      ?_, ?_, ?_⟩
    · simp only [run, hcall]; exact hrun
    · rw [hc1, advanced_advanced]; rfl
    · rw [hsk]; rfl
    · rw [hrc]; rfl
    · rw [hsent]; simp [store, sent_log]
    · intro x hx
      rcases List.mem_cons.1 hx with rfl | hx
      · rfl
      · exact hall x hx
    · rw [hacc]
      simp only [payload, hpay, advanced, List.drop_drop]
      rw [List.take_add, List.drop_drop]

/-- A run that starts with a call that returns. -/
theorem run_cons (g g1 : Globals) (index : Nat) (e : Env) (es : List Env)
    (h : handle_connection g index e = .running g1) :
    run g index (e :: es) = run g1 index es := by
  simp only [run, h]

/-- The relay buffer holds the chunk at its front. -/
theorem filled_buffer_take (c : connection) (data : List Nat) (k : Nat)
    (hk : k ≤ data.length) : (filled c data).buffer.take k = data.take k := by
  simp only [filled, memmove_zero, List.take_length]
  rw [List.take_append_of_le_length hk]

/-- A chunk read in `READ` and the sends that leave part of it unsent. -/
theorem relay_in_progress (g : Globals) (index : Nat) (c : connection) (r : Env)
    (pre : List Env) (hc : g.connections[index]? = some c) (hs : c.state = .READ)
    (hsock : get_socket_index g c.sock < g.sockets.length)
    (hr : 0 < r.recv.amount) (hlen : r.recv.bytes.length ≤ 1024)
    (hsend : ∀ x ∈ pre, x.send ≠ .error) (hlt : accepted pre < r.recv.bytes.length) :
    ∃ g1 new, run g index (r :: pre) = .running g1 ∧
      g1.connections[index]? = some (advanced (filled c r.recv.bytes) (accepted pre)) ∧
      g1.sockets = g.sockets.set (get_socket_index g c.sock)
        { fd := c.sock_other, events := POLLOUT } ∧
      g1.received = g.received ++ [(c.sock, r.recv.bytes)] ∧
      g1.sent = g.sent ++ new ∧ (∀ x ∈ new, x.1 = c.sock_other) ∧
      payload new = r.recv.bytes.take (accepted pre) := by
  have hcall := handle_read g index r c hc hs
  rw [read_block_ok g index c r.recv hr hsock] at hcall
  obtain ⟨g1, new, hrun, hc1, hsk, hrc, hsent, hall, hpay⟩ := run_write index pre _
    (filled c r.recv.bytes)
    (store_get (retargeted (logged g c.sock r.recv.bytes) (get_socket_index g c.sock)
      c.sock_other POLLOUT) index c _ hc) rfl
    (by
      have : (filled c r.recv.bytes).read = r.recv.bytes.length := rfl
      rw [this]
      exact lt_of_le_of_lt hlen (by norm_num))
    hsend (by simpa [filled] using hlt)
  refine ⟨g1, new, (run_cons g _ index r pre hcall).trans hrun, hc1, by rw [hsk]; rfl,
    by rw [hrc]; rfl, by rw [hsent]; rfl, hall, ?_⟩
  rw [hpay]
  have : (filled c r.recv.bytes).written = 0 := rfl
  rw [this, List.drop_zero, filled_buffer_take c _ _ (by omega)]

/-- One complete relay cycle. -/
theorem relay_one (g : Globals) (index : Nat) (c : connection) (cy : relay_cycle)
    (hc : g.connections[index]? = some c) (hs : c.state = .READ)
    (hsock : get_socket_index g c.sock < g.sockets.length) (hok : cy.ok) :
    ∃ g2 new, run g index cy.envs = .running g2 ∧
      g2.connections[index]? = some { c with
        buffer := memmove c.buffer 0 cy.data cy.data.length
        read := cy.data.length
        written := cy.data.length } ∧
      get_socket_index g2 c.sock < g2.sockets.length ∧
      g2.received = g.received ++ [(c.sock, cy.data)] ∧
      g2.sent = g.sent ++ new ∧ (∀ x ∈ new, x.1 = c.sock_other) ∧
      payload new = cy.data := by
  obtain ⟨hr, hlen, hsend, hlt, heq⟩ := hok
  obtain ⟨g1, new, hrun, hc1, hsk, hrc, hsent, hall, hpay⟩ := relay_in_progress g index c
    cy.reading cy.partials hc hs hsock hr hlen
    (fun x hx => hsend x (List.mem_append_left _ hx)) hlt
  have hd : cy.reading.recv.bytes = cy.data := rfl
  rw [hd] at hc1 hrc hpay
  have he := send_ok cy.last.send (hsend cy.last (by simp))
  have hacc : accepted (cy.partials ++ [cy.last]) = accepted cy.partials + cy.last.send.count := by
    rw [accepted_append]; simp [accepted]
  have hfit : (advanced (filled c cy.data) (accepted cy.partials)).read < 2 ^ 64 := by
    have : (advanced (filled c cy.data) (accepted cy.partials)).read = cy.data.length := rfl
    rw [this]
    exact lt_of_le_of_lt hlen (by norm_num)
  have hsock1 : get_socket_index g1 (advanced (filled c cy.data) (accepted cy.partials)).sock
      < g1.sockets.length := by
    simp only [get_socket_index, hsk]
    exact get_socket_index_set g.sockets _ _ _ hsock
  have hcall := handle_write g1 index cy.last _ hc1 rfl
  rw [he, write_complete g1 index _ cy.last.send.count hfit
    (by simp only [advanced, filled]; simp only [relay_cycle.data] at heq ⊢; omega) hsock1] at hcall
  have hrun2 := (run_snoc g g1 index (cy.reading :: cy.partials) cy.last hrun).trans hcall
  refine ⟨_, new ++ [((filled c cy.data).sock,
      ((filled c cy.data).buffer.drop (accepted cy.partials)).take cy.last.send.count)],
    hrun2, ?_, ?_, ?_, ?_, ?_, ?_⟩
  · rw [store_get _ index _ _ (show (retargeted (sent_log g1 _ _) _ _ _).connections[index]?
        = some (advanced (filled c cy.data) (accepted cy.partials)) from hc1)]
    simp only [drained, advanced, filled, Nat.zero_add, Option.some.injEq, relay_cycle.data]
      at heq hacc ⊢
    rw [← hacc, heq, hs]
  · simp only [store, retargeted, get_socket_index]
    exact get_socket_index_set _ _ _ _ hsock1
  · simp only [store, retargeted, sent_log, hrc]
  · simp only [store, retargeted, sent_log, hsent, List.append_assoc]
    simp [advanced, filled]
  · intro x hx
    rcases List.mem_append.1 hx with hx | hx
    · exact hall x hx
    · simp only [List.mem_singleton] at hx
      rw [hx]; rfl
  · rw [payload_append, hpay]
    simp only [payload, List.append_nil]
    rw [← filled_buffer_take c cy.data (accepted cy.partials) (by
      simp only [relay_cycle.data] at hlt ⊢; omega)]
    show List.take _ _ ++ List.take _ (List.drop _ _) = _
    rw [← List.take_add, ← hacc, heq, filled_buffer_take c cy.data _ (le_refl _),
      List.take_length]

/-- Any number of complete relay cycles. -/
theorem relay_many (index : Nat) : ∀ (cycles : List relay_cycle) (g : Globals) (c : connection),
    g.connections[index]? = some c → c.state = .READ →
    get_socket_index g c.sock < g.sockets.length → (∀ cy ∈ cycles, cy.ok) →
    ∃ g2 c2 new, run g index (relay_envs cycles) = .running g2 ∧
      g2.connections[index]? = some c2 ∧ c2.state = .READ ∧ c2.sock = c.sock ∧
      c2.sock_other = c.sock_other ∧
      get_socket_index g2 c.sock < g2.sockets.length ∧
      g2.received = g.received ++ cycles.map (fun cy => (c.sock, cy.data)) ∧
      g2.sent = g.sent ++ new ∧ (∀ x ∈ new, x.1 = c.sock_other) ∧
      payload new = relay_data cycles
  | [], g, c, hc, hs, hsock, _ =>
    ⟨g, c, [], rfl, hc, hs, rfl, rfl, hsock, by simp, by simp, by simp, rfl⟩
  | cy :: rest, g, c, hc, hs, hsock, hok => by
    obtain ⟨g1, new1, hrun1, hc1, hsock1, hrc1, hsent1, hall1, hpay1⟩ :=
      relay_one g index c cy hc hs hsock (hok cy (List.mem_cons_self _ _))
    obtain ⟨g2, c2, new2, hrun2, hc2, hs2, hsk2, hso2, hsock2, hrc2, hsent2, hall2, hpay2⟩ :=
      relay_many index rest g1 _ hc1 hs hsock1 (fun x hx => hok x (List.mem_cons_of_mem _ hx))
    refine ⟨g2, c2, new1 ++ new2, ?_, hc2, hs2, hsk2, hso2, hsock2, ?_, ?_, ?_, ?_⟩
    · show run g index (cy.envs ++ relay_envs rest) = _
      rw [run_append, hrun1]
      exact hrun2
    · rw [hrc2, hrc1]; simp
    · rw [hsent2, hsent1, List.append_assoc]
    · intro x hx
      rcases List.mem_append.1 hx with hx | hx
      · exact hall1 x hx
      · exact hall2 x hx
    · rw [payload_append, hpay1, hpay2]; rfl

/-- C3. From `READ`, a chunk of 1 to 1024 bytes read from the active socket
and sends that leave part of it unsent put the connection in `WRITE` towards
the other socket, which has accepted exactly that many leading bytes of the
chunk; over any number of complete cycles the connection is back in `READ` on
the same socket, the bytes received are the chunks read from that socket, and
the bytes accepted by the other socket are exactly the chunks in order,
nothing added, dropped or repeated. -/
theorem relay_verbatim (g : Globals) (index : Nat) (c : connection)
    (cycles : List relay_cycle)
    (hc : g.connections[index]? = some c) (hs : c.state = .READ)
    (hsock : get_socket_index g c.sock < g.sockets.length)
    (hok : ∀ cy ∈ cycles, cy.ok) :
    (∃ g2 c2 new, run g index (relay_envs cycles) = .running g2 ∧
      g2.connections[index]? = some c2 ∧ c2.state = .READ ∧ c2.sock = c.sock ∧
      c2.sock_other = c.sock_other ∧
      g2.received = g.received ++ cycles.map (fun cy => (c.sock, cy.data)) ∧
      g2.sent = g.sent ++ new ∧ (∀ x ∈ new, x.1 = c.sock_other) ∧
      payload new = relay_data cycles) ∧
    (∀ (r : Env) (pre : List Env), 0 < r.recv.amount → r.recv.bytes.length ≤ 1024 →
      (∀ x ∈ pre, x.send ≠ .error) → accepted pre < r.recv.bytes.length →
      ∃ g1 c1 new, run g index (r :: pre) = .running g1 ∧
        g1.connections[index]? = some c1 ∧ c1.state = .WRITE ∧ c1.sock = c.sock_other ∧
        c1.sock_other = c.sock ∧ c1.read = r.recv.bytes.length ∧ c1.written = accepted pre ∧
        g1.received = g.received ++ [(c.sock, r.recv.bytes)] ∧
        g1.sent = g.sent ++ new ∧ (∀ x ∈ new, x.1 = c.sock_other) ∧
        payload new = r.recv.bytes.take (accepted pre)) := by
  constructor
  · obtain ⟨g2, c2, new, h1, h2, h3, h4, h5, -, h7, h8, h9, h10⟩ :=
      relay_many index cycles g c hc hs hsock hok
    exact ⟨g2, c2, new, h1, h2, h3, h4, h5, h7, h8, h9, h10⟩
  · intro r pre hr hlen hsend hlt
    obtain ⟨g1, new, h1, h2, -, h4, h5, h6, h7⟩ :=
      relay_in_progress g index c r pre hc hs hsock hr hlen hsend hlt
    exact ⟨g1, _, new, h1, h2, rfl, rfl, rfl, rfl, by simp [advanced, filled], h4, h5, h6, h7⟩

/-- Witness of C3: `"hello gopher\n"` relayed in one cycle. -/
theorem relay_verbatim_witness :
    (demo_reading.connections[0]? = some demo_reading_conn ∧
      demo_reading_conn.state = .READ ∧
      get_socket_index demo_reading demo_reading_conn.sock < demo_reading.sockets.length ∧
      (∀ cy ∈ [demo_cycle], cy.ok)) ∧
    ∃ g2 c2 new, run demo_reading 0 (relay_envs [demo_cycle]) = .running g2 ∧
      g2.connections[0]? = some c2 ∧ c2.state = .READ ∧ c2.sock = demo_reading_conn.sock ∧
      c2.sock_other = demo_reading_conn.sock_other ∧
      g2.received = demo_reading.received ++
        [demo_cycle].map (fun cy => (demo_reading_conn.sock, cy.data)) ∧
      g2.sent = demo_reading.sent ++ new ∧ (∀ x ∈ new, x.1 = demo_reading_conn.sock_other) ∧
      payload new = relay_data [demo_cycle] :=
  ⟨⟨rfl, by decide, by decide, by decide⟩,
    (relay_verbatim demo_reading 0 demo_reading_conn [demo_cycle] rfl (by decide) (by decide)
      (by decide)).1⟩

/-! ## Teardown -/

/-- A list split at a valid index. -/
theorem split_at {α : Type} (l : List α) (i : Nat) (hi : i < l.length) :
    ∃ a x b, l = a ++ x :: b ∧ a.length = i :=
  ⟨l.take i, l[i], l.drop (i + 1), by simp, by simp [Nat.min_eq_left (Nat.le_of_lt hi)]⟩

/-- The two shapes of a compaction. -/
theorem swap_remove_cases {α : Type} (l : List α) (i : Nat) (last : α) (hi : i < l.length)
    (hl : l.getLast? = some last) :
    (i = l.length - 1 ∧ l = l.dropLast ++ [last] ∧ swap_remove l i last = l.dropLast) ∨
    (∃ a x b, l = a ++ x :: (b ++ [last]) ∧ a.length = i ∧
      swap_remove l i last = a ++ last :: b) := by
  have hd : l.dropLast ++ [last] = l := List.dropLast_append_getLast? last hl
  by_cases hlast : i = l.length - 1
  · left
    refine ⟨hlast, hd.symm, ?_⟩
    simp [swap_remove, hlast]
  · right
    have hi2 : i < l.dropLast.length := by simp; omega
    obtain ⟨a, x, b, hab, hal⟩ := split_at l.dropLast i hi2
    have hl2 : l = a ++ x :: (b ++ [last]) := by
      rw [← hd, hab]; simp
    refine ⟨a, x, b, hl2, hal, ?_⟩
    simp only [swap_remove, hlast, ne_eq, not_false_eq_true, if_true]
    rw [hl2, ← hal, List.set_append_right _ _ (le_refl _), Nat.sub_self, List.set_cons_zero,
      List.dropLast_append_cons]
    congr 1
    rw [← List.cons_append, List.dropLast_concat]

/-- A compaction leaves the other entries, in some order. -/
theorem swap_remove_perm {α : Type} (l : List α) (i : Nat) (last : α) (hi : i < l.length)
    (hl : l.getLast? = some last) : List.Perm (swap_remove l i last) (l.eraseIdx i) := by
  rcases swap_remove_cases l i last hi hl with ⟨h1, h2, h3⟩ | ⟨a, x, b, h1, h2, h3⟩
  · rw [h3]
    have : l.eraseIdx i = l.dropLast := by
      conv_lhs => rw [h2]
      rw [h1, ← List.length_dropLast, List.eraseIdx_append_of_length_le (le_refl _)]
      simp
    rw [this]
  · rw [h3, h1, ← h2, List.eraseIdx_append_of_length_le (le_refl _), Nat.sub_self]
    simp only [List.eraseIdx_zero, List.tail_cons]
    exact List.Perm.append_left a (List.perm_append_singleton last b).symm

/-- A compaction shrinks the table by one. -/
theorem swap_remove_length {α : Type} (l : List α) (i : Nat) (last : α) :
    (swap_remove l i last).length = l.length - 1 := by
  unfold swap_remove
  split <;> simp

/-- When one entry only has a given key, no other entry has it. -/
theorem count_one_erase {α β : Type} [DecidableEq β] (f : α → β) (l : List α) (i : Nat) (x : α)
    (hx : l[i]? = some x) (hcount : (l.map f).count (f x) = 1) :
    ∀ y ∈ l.eraseIdx i, f y ≠ f x := by
  obtain ⟨hi, hxi⟩ := List.getElem?_eq_some_iff.1 hx
  obtain ⟨a, z, b, hab, hal⟩ := split_at l i hi
  have hz : z = x := by
    rw [← hxi]
    simp only [hab]
    rw [List.getElem_append_right (by omega)]
    simp [hal]
  subst hz
  rw [hab] at hcount ⊢
  rw [← hal, List.eraseIdx_append_of_length_le (le_refl _), Nat.sub_self]
  simp only [List.eraseIdx_zero, List.tail_cons, List.map_append, List.map_cons,
    List.count_append, List.count_cons_self] at hcount ⊢
  have ha : List.count (f z) (List.map f a) = 0 := by omega
  have hb : List.count (f z) (List.map f b) = 0 := by omega
  rw [List.count_eq_zero] at ha hb
  intro y hy hfy
  rcases List.mem_append.1 hy with h | h
  · exact ha (hfy ▸ List.mem_map_of_mem f h)
  · exact hb (hfy ▸ List.mem_map_of_mem f h)

/-- The entry the lookup finds has the descriptor looked up. -/
theorem get_socket_index_fd (g : Globals) (sock : Int)
    (h : get_socket_index g sock < g.sockets.length) :
    ∃ s, g.sockets[get_socket_index g sock]? = some s ∧ s.fd = sock := by
  refine ⟨g.sockets[get_socket_index g sock], by simp [h], ?_⟩
  have := @List.findIdx_getElem pollfd (fun s : pollfd => s.fd == sock) g.sockets h
  simpa [get_socket_index] using this

/-- The function `remove_socket` on a valid index. -/
theorem remove_socket_running (g : Globals) (i : Nat) (s : pollfd)
    (hs : g.sockets[i]? = some s) :
    ∃ last, g.sockets.getLast? = some last ∧
      remove_socket g i = .running { g with
        closed := g.closed ++ [s.fd]
        sockets := swap_remove g.sockets i last } := by
  have hne : g.sockets ≠ [] := by
    intro h; rw [h] at hs; simp at hs
  refine ⟨g.sockets.getLast hne, List.getLast?_eq_getLast _ hne, ?_⟩
  simp only [remove_socket, hs, List.getLast?_eq_getLast _ hne]

/-- What `remove_connection` does when the active socket has an entry. -/
theorem remove_connection_running (g : Globals) (index : Nat) (c : connection)
    (hc : g.connections[index]? = some c)
    (hsock : get_socket_index g c.sock < g.sockets.length) :
    ∃ lastS lastC, g.sockets.getLast? = some lastS ∧ g.connections.getLast? = some lastC ∧
      remove_connection g index = .running { g with
        sockets := swap_remove g.sockets (get_socket_index g c.sock) lastS
        connections := swap_remove g.connections index lastC
        closed := g.closed ++ [c.sock] ++ (if c.sock_other ≠ -1 then [c.sock_other] else []) } := by
  obtain ⟨s, hs, hfd⟩ := get_socket_index_fd g c.sock hsock
  obtain ⟨lastS, hlS, hrs⟩ := remove_socket_running g _ s hs
  have hne : g.connections ≠ [] := by
    intro h; rw [h] at hc; simp at hc
  have hlC := List.getLast?_eq_getLast _ hne
  refine ⟨lastS, g.connections.getLast hne, hlS, hlC, ?_⟩
  have hidx : ¬ get_socket_index g c.sock = g.sockets.length := by omega
  simp only [remove_connection, hc, hlC, hidx, if_false, hrs, hfd]
  by_cases ho : c.sock_other = -1
  · simp [ho]
  · simp [ho]

/-- A call whose `recv` or `send` fails is `remove_connection`. -/
theorem handle_teardown (g : Globals) (index : Nat) (c : connection) (env : Env)
    (hc : g.connections[index]? = some c)
    (hio : ((c.state = .START ∨ c.state = .PATH ∨ c.state = .REQUEST_END ∨ c.state = .READ) ∧
        env.recv.amount ≤ 0) ∨
      ((c.state = .REQUEST_WRITE ∨ c.state = .WRITE) ∧ env.send = .error)) :
    handle_connection g index env = remove_connection g index := by
  rcases hio with ⟨hs, hr⟩ | ⟨hs, hsend⟩
  · rcases hs with hs | hs | hs | hs
    · simp [handle_connection, hc, request_read, hs, hr]
    · simp [handle_connection, hc, request_read, hs, hr]
    · simp [handle_connection, hc, request_read, hs, hr]
    · rw [handle_read g index env c hc hs]
      unfold read_block
      cases hrv : env.recv with
      | error => simp [recv_result.amount]
      | ok data =>
        rw [hrv] at hr
        simp only [recv_result.amount] at hr ⊢
        have h0 : (data.length : Int) = 0 := by omega
        simp [h0]
  · rcases hs with hs | hs
    · rw [handle_request_write g index env c hc hs, hsend]; rfl
    · rw [handle_write g index env c hc hs, hsend]; rfl

/-- A descriptor that occurs in the table is found. -/
theorem get_socket_index_of_count (g : Globals) (sock : Int)
    (h : (g.sockets.map pollfd.fd).count sock = 1) :
    get_socket_index g sock < g.sockets.length := by
  have hm : sock ∈ g.sockets.map pollfd.fd := by
    rw [← List.count_pos_iff]; omega
  obtain ⟨s, hs, hfd⟩ := List.mem_map.1 hm
  exact List.findIdx_lt_length_of_exists ⟨s, hs, by simp [hfd]⟩

/-- Teardown of a connection whose active socket occurs once in each table.
When the `recv` of a call returns `0` or less (states `START`, `PATH`,
`REQUEST_END`, `READ`) or its `send` returns `-1` (states `REQUEST_WRITE`,
`WRITE`), and the active socket of the connection has one entry in the table
of sockets and belongs to no other connection, the call returns with the
connection gone: both tables are one entry shorter, no entry of either refers
to the active socket, the active socket and (unless it is `-1`) the parked
socket have been closed, and the other entries of both tables are all still
there, unchanged. -/
theorem teardown_on_failure (g : Globals) (index : Nat) (c : connection) (env : Env)
    (hc : g.connections[index]? = some c)
    (hio : ((c.state = .START ∨ c.state = .PATH ∨ c.state = .REQUEST_END ∨ c.state = .READ) ∧
        env.recv.amount ≤ 0) ∨
      ((c.state = .REQUEST_WRITE ∨ c.state = .WRITE) ∧ env.send = .error))
    (honce : (g.sockets.map pollfd.fd).count c.sock = 1)
    (hown : (g.connections.map connection.sock).count c.sock = 1) :
    ∃ g2, handle_connection g index env = .running g2 ∧
      g2.connections.length + 1 = g.connections.length ∧
      g2.sockets.length + 1 = g.sockets.length ∧
      (∀ c2 ∈ g2.connections, c2.sock ≠ c.sock) ∧
      (∀ s ∈ g2.sockets, s.fd ≠ c.sock) ∧
      g2.closed = g.closed ++ [c.sock] ++ (if c.sock_other ≠ -1 then [c.sock_other] else []) ∧
      List.Perm g2.connections (g.connections.eraseIdx index) ∧
      List.Perm g2.sockets (g.sockets.eraseIdx (get_socket_index g c.sock)) ∧
      g2.number_interfaces = g.number_interfaces ∧ g2.sent = g.sent ∧
      g2.received = g.received := by
  have hsock := get_socket_index_of_count g c.sock honce
  obtain ⟨lastS, lastC, hlS, hlC, hrm⟩ := remove_connection_running g index c hc hsock
  obtain ⟨s, hs, hfd⟩ := get_socket_index_fd g c.sock hsock
  have hi : index < g.connections.length := (List.getElem?_eq_some_iff.1 hc).1
  have hpc := swap_remove_perm g.connections index lastC hi hlC
  have hps := swap_remove_perm g.sockets (get_socket_index g c.sock) lastS hsock hlS
  refine ⟨_, (handle_teardown g index c env hc hio).trans hrm, ?_, ?_, ?_, ?_, rfl, hpc, hps,
    rfl, rfl, rfl⟩
  · simp only [swap_remove_length]; omega
  · simp only [swap_remove_length]; omega
  · intro c2 hc2
    exact count_one_erase connection.sock g.connections index c hc hown c2 (hpc.mem_iff.1 hc2)
  · intro s2 hs2
    have := count_one_erase pollfd.fd g.sockets _ s hs (by rw [hfd]; exact honce) s2
      (hps.mem_iff.1 hs2)
    rw [hfd] at this
    exact this

/-- That teardown at a failed `send` in `WRITE` with a second connection
present. -/
theorem teardown_on_failure_witness :
    (demo_two.connections[0]? = some demo_writing_conn ∧
      (((demo_writing_conn.state = .START ∨ demo_writing_conn.state = .PATH ∨
          demo_writing_conn.state = .REQUEST_END ∨ demo_writing_conn.state = .READ) ∧
        demo_send_error.recv.amount ≤ 0) ∨
      ((demo_writing_conn.state = .REQUEST_WRITE ∨ demo_writing_conn.state = .WRITE) ∧
        demo_send_error.send = .error)) ∧
      (demo_two.sockets.map pollfd.fd).count demo_writing_conn.sock = 1 ∧
      (demo_two.connections.map connection.sock).count demo_writing_conn.sock = 1) ∧
    ∃ g2, handle_connection demo_two 0 demo_send_error = .running g2 ∧
      g2.connections.length + 1 = demo_two.connections.length ∧
      g2.sockets.length + 1 = demo_two.sockets.length ∧
      (∀ c2 ∈ g2.connections, c2.sock ≠ demo_writing_conn.sock) ∧
      (∀ s ∈ g2.sockets, s.fd ≠ demo_writing_conn.sock) ∧
      g2.closed = demo_two.closed ++ [demo_writing_conn.sock] ++
        (if demo_writing_conn.sock_other ≠ -1 then [demo_writing_conn.sock_other] else []) ∧
      List.Perm g2.connections (demo_two.connections.eraseIdx 0) ∧
      List.Perm g2.sockets
        (demo_two.sockets.eraseIdx (get_socket_index demo_two demo_writing_conn.sock)) ∧
      g2.number_interfaces = demo_two.number_interfaces ∧ g2.sent = demo_two.sent ∧
      g2.received = demo_two.received :=
  ⟨⟨by decide, by decide, by decide, by decide⟩,
    teardown_on_failure demo_two 0 demo_writing_conn demo_send_error (by decide) (by decide)
      (by decide) (by decide)⟩

/-! ## Where the code departs from the specification -/

/-- In `REQUEST_END` with bytes carried over, a `recv` that delivers bytes
stores them outside the local array. -/
theorem request_end_read_overrun (g : Globals) (index : Nat) (c : connection) (env : Env)
    (hc : g.connections[index]? = some c) (hs : c.state = .REQUEST_END)
    (hcarry : 1 ≤ c.buffer_size) (hr : 0 < env.recv.amount) :
    handle_connection g index env = .undefined := by
  obtain ⟨data, hd, hl⟩ := recv_pos env.recv hr
  have h1 : ¬ ((data.length : Int) ≤ 0) := by omega
  have h2 : 1024 < 1024 * c.buffer_size + data.length := by omega
  simp [handle_connection, hc, request_read, hs, hd, recv_result.amount, h1, h2]

/-- The `PATH` check always carries one byte or more over: the space it found
is among them. -/
theorem path_check_carries (c : connection) (S R : List Nat) (hs : c.state = .PATH)
    (hwf : c.buffer_size ≤ c.buffer.length) (hc : content c = S ++ SP :: R) (hS : SP ∉ S) :
    (path_check c).state = .REQUEST_END ∧ 1 ≤ (path_check c).buffer_size ∧
      SP ∈ S ++ SP :: R ∧
      ((path_check c).buffer_size < 4 → content (path_check c) = SP :: R) := by
  rw [path_check_found_eq c S R hs hwf hc hS]
  have hl : (content c).length = S.length + (R.length + 1) := by rw [hc]; simp
  refine ⟨rfl, ?_, by simp, ?_⟩
  · simp only [found, carry_over, hl]
    split <;> simp <;> omega
  · intro h
    rw [found_content]
    simp only [found, carry_over, hl] at h ⊢
    split at h
    · next h4 => rw [if_pos h4, hc]; simp
    · simp at h; omega

/-- C5 (the code fails it). The request `"GET /x a\r\n\r\n"` split after the
first space: the first read leaves the connection in `REQUEST_END` with one
byte carried over (the space), and the read that delivers the rest, which ends
in `"\r\n\r\n"`, stores its bytes outside the local array instead of next to
the carried-over byte; the connection does not advance to `CONNECT`. One byte
per read fares the same from the first byte after the space on. -/
theorem request_end_split_overrun :
    ((run demo_fresh 0 [demo_recv [71, 69, 84, 32, 47, 120, 32]]).conn 0).map
        (fun c => (c.state, content c)) = some (.REQUEST_END, [32]) ∧
    run demo_fresh 0 [demo_recv [71, 69, 84, 32, 47, 120, 32], demo_recv [97, 13, 10, 13, 10]]
      = .undefined ∧
    run demo_fresh 0 [demo_recv [71, 69, 84, 32, 47, 120, 32], demo_recv [13]]
      = .undefined := by
  refine ⟨by decide, ?_, ?_⟩ <;> rfl

/-- What the `CONNECT` block does when no address connects: the connection
stays, in `REQUEST_WRITE`, with `-1` as its active socket. -/
theorem connect_block_refused (g g1 : Globals) (index : Nat) (conn : connection)
    (r : remote_env) (h : connect_to_remote g r = .returned g1 (-1))
    (hsock : get_socket_index g1 conn.sock ≠ g1.sockets.length) :
    connect_block g index conn r =
      .running (store (retargeted g1 (get_socket_index g1 conn.sock) (-1) POLLOUT) index
        (connected conn (-1))) ∧
    (connected conn (-1)).sock = -1 ∧ (connected conn (-1)).state = .REQUEST_WRITE ∧
    (connected conn (-1)).sock_other = conn.sock := by
  have hm : size_to_int (int_to_size (-1)) = -1 := by decide
  refine ⟨?_, by simp [connected, hm], rfl, rfl⟩
  rw [connect_block_returned g g1 index conn r (-1) h hsock, hm]
  rfl

/-- C8 (the code fails it). The request `"GET /x a\r\n\r\n"` in one read, the
remote refusing the connection: `connect_to_remote` returns `-1`, and the call
returns with the connection still in its table, in `REQUEST_WRITE`, its
active socket `-1`; the entry of the table of sockets is still there, now with
descriptor `-1` and `POLLOUT`; the client socket (descriptor 4) is parked, not
closed (only descriptor 5, the socket of the failed attempt, was closed). -/
theorem connect_refused_keeps_connection :
    connect_to_remote demo_fresh demo_refused
      = .returned { demo_fresh with closed := [5] } (-1) ∧
    (handle_connection demo_fresh 0
        { recv := .ok [71, 69, 84, 32, 47, 120, 32, 97, 13, 10, 13, 10], send := .error,
          remote := demo_refused }).globals
      = some
        { sockets := [{ fd := 3, events := POLLIN }, { fd := -1, events := POLLOUT }]
          number_interfaces := 1
          connections :=
            [{ state := .REQUEST_WRITE, sock := -1, path := [47, 120, 13, 10], path_size := 4,
               buffer := malloc 1024, buffer_size := 1024, sock_other := 4, written := 0,
               read := 0 }]
          closed := [5]
          sent := []
          received := [(4, [71, 69, 84, 32, 47, 120, 32, 97, 13, 10, 13, 10])]
          stderr := [] } :=
  ⟨rfl, rfl⟩

/-- What the dispatch of a data socket without a connection does: after the
diagnostic it goes on to `remove_connection` or `handle_connection` with the
index `number_connections`, which reads the table of connections past its
end. -/
theorem dispatch_without_connection (g : Globals) (i revents : Nat) (accepted : Int) (env : Env)
    (s : pollfd) (hs : g.sockets[i]? = some s) (hi : ¬ i < g.number_interfaces)
    (hev : revents &&& (POLLHUP ||| POLLIN ||| POLLOUT) ≠ 0)
    (hnone : get_connection_index g s.fd = g.connections.length) :
    dispatch g i revents accepted env =
      (if revents &&& POLLHUP ≠ 0 then
        remove_connection { g with stderr := g.stderr ++
          ["socket does not correspond to any connection"] } g.connections.length
      else
        handle_connection { g with stderr := g.stderr ++
          ["socket does not correspond to any connection"] } g.connections.length env) ∧
    dispatch g i revents accepted env = .undefined := by
  have h1 : dispatch g i revents accepted env =
      (if revents &&& POLLHUP ≠ 0 then
        remove_connection { g with stderr := g.stderr ++
          ["socket does not correspond to any connection"] } g.connections.length
      else
        handle_connection { g with stderr := g.stderr ++
          ["socket does not correspond to any connection"] } g.connections.length env) := by
    simp only [dispatch, hs, hi, if_false, hev, ne_eq, not_false_eq_true, if_true, hnone]
  refine ⟨h1, ?_⟩
  rw [h1]
  split
  · simp [remove_connection]
  · simp [handle_connection]

/-- A store behind the first `k` entries leaves them alone. -/
theorem take_set_ge {α : Type} (l : List α) (i k : Nat) (a : α) (h : k ≤ i) :
    (l.set i a).take k = l.take k := by
  rw [List.set_take, List.set_eq_of_length_le]
  simp; omega

/-- A compaction behind the first `k` entries leaves them alone. -/
theorem swap_remove_take {α : Type} (l : List α) (i k : Nat) (last : α) (hk : k ≤ i)
    (hi : i < l.length) : (swap_remove l i last).take k = l.take k := by
  unfold swap_remove
  rw [List.dropLast_eq_take, List.take_take]
  split
  · rw [List.length_set, Nat.min_eq_left (by omega), take_set_ge l i k last hk]
  · rw [Nat.min_eq_left (by omega)]

/-- A compaction adds no entry. -/
theorem swap_remove_mem {α : Type} (l : List α) (i : Nat) (last : α) (hi : i < l.length)
    (hl : l.getLast? = some last) : ∀ x ∈ swap_remove l i last, x ∈ l := by
  intro x hx
  have := (swap_remove_perm l i last hi hl).mem_iff.1 hx
  exact List.mem_of_mem_eraseIdx this

/-- The entry found for a descriptor that is no listener descriptor lies
behind the listener entries. -/
theorem get_socket_index_ge (L : List pollfd) (g : Globals) (sock : Int)
    (hL : g.sockets.take L.length = L) (hs : sock ∉ L.map pollfd.fd) :
    L.length ≤ get_socket_index g sock := by
  by_contra hlt
  have hlt : get_socket_index g sock < L.length := by omega
  have hlen : L.length ≤ g.sockets.length := by
    have := congrArg List.length hL
    simp at this; omega
  have hlt2 : get_socket_index g sock < g.sockets.length := by omega
  obtain ⟨s, hget, hfd⟩ := get_socket_index_fd g sock hlt2
  apply hs
  rw [← hfd]
  apply List.mem_map_of_mem
  rw [← hL]
  have : (g.sockets.take L.length)[get_socket_index g sock]? = some s := by
    rw [List.getElem?_take_of_lt hlt]; exact hget
  exact List.getElem?_mem this

/-- Writing back a record with no listener descriptor keeps the listener
entries. -/
theorem kept_store (L : List pollfd) (base : List Int) (g : Globals) (index : Nat)
    (conn : connection) (h : listeners_kept L base g) (hs : conn.sock ∉ L.map pollfd.fd)
    (ho : conn.sock_other ∉ L.map pollfd.fd) : listeners_kept L base (store g index conn) := by
  obtain ⟨h1, h2, h3, h4⟩ := h
  refine ⟨h1, h2, ?_, h4⟩
  intro c hc
  rcases List.mem_or_eq_of_mem_set hc with hc | rfl
  · exact h3 c hc
  · exact ⟨hs, ho⟩

/-- Logging a `recv` keeps the listener entries. -/
theorem kept_logged (L : List pollfd) (base : List Int) (g : Globals) (sock : Int)
    (bytes : List Nat) (h : listeners_kept L base g) :
    listeners_kept L base (logged g sock bytes) := h

/-- Logging a `send` keeps the listener entries. -/
theorem kept_sent_log (L : List pollfd) (base : List Int) (g : Globals) (sock : Int)
    (bytes : List Nat) (h : listeners_kept L base g) :
    listeners_kept L base (sent_log g sock bytes) := h

/-- Retargeting an entry behind the listener entries keeps them. -/
theorem kept_retargeted (L : List pollfd) (base : List Int) (g : Globals) (i : Nat)
    (sock : Int) (events : Nat) (h : listeners_kept L base g) (hi : L.length ≤ i) :
    listeners_kept L base (retargeted g i sock events) := by
  obtain ⟨h1, h2, h3, h4⟩ := h
  refine ⟨h1, ?_, h3, h4⟩
  simp only [retargeted]
  rw [take_set_ge _ _ _ _ hi]
  exact h2

/-- The function `socket_change` on a descriptor that is no listener descriptor
keeps the listener entries. -/
theorem kept_socket_change (L : List pollfd) (base : List Int) (g g2 : Globals) (old new : Int)
    (events : Nat) (hrun : socket_change g old new events = .running g2)
    (h : listeners_kept L base g) (hold : old ∉ L.map pollfd.fd) :
    listeners_kept L base g2 := by
  unfold socket_change at hrun
  simp only at hrun
  split at hrun
  · cases hrun
  · simp only [Outcome.running.injEq] at hrun
    rw [← hrun]
    exact kept_retargeted L base g _ new events h (get_socket_index_ge L g old h.2.1 hold)

/-- The function `remove_connection` keeps the listener entries. -/
theorem kept_remove_connection (L : List pollfd) (base : List Int) (g g2 : Globals)
    (index : Nat) (hrun : remove_connection g index = .running g2)
    (h : listeners_kept L base g) : listeners_kept L base g2 := by
  cases hc : g.connections[index]? with
  | none => simp [remove_connection, hc] at hrun
  | some c =>
    have hcm : c ∈ g.connections := List.getElem?_mem hc
    obtain ⟨h1, h2, h3, new, h4, h5⟩ := h
    obtain ⟨hcs, hco⟩ := h3 c hcm
    by_cases hidx : get_socket_index g c.sock < g.sockets.length
    · obtain ⟨lastS, lastC, hlS, hlC, hrm⟩ := remove_connection_running g index c hc hidx
      rw [hrm] at hrun
      simp only [Outcome.running.injEq] at hrun
      rw [← hrun]
      refine ⟨h1, ?_, ?_, ?_⟩
      · simp only
        rw [swap_remove_take _ _ _ _ (get_socket_index_ge L g c.sock h2 hcs) hidx]
        exact h2
      · intro c2 hc2
        exact h3 c2 (swap_remove_mem g.connections index lastC
          (List.getElem?_eq_some_iff.1 hc).1 hlC c2 hc2)
      · refine ⟨new ++ [c.sock] ++ (if c.sock_other ≠ -1 then [c.sock_other] else []), ?_, ?_⟩
        · simp only [h4, List.append_assoc]
        · intro fd hfd
          simp only [List.append_assoc, List.mem_append, List.mem_singleton] at hfd
          rcases hfd with hfd | rfl | hfd
          · exact h5 fd hfd
          · exact hcs
          · split at hfd
            · simp only [List.mem_singleton] at hfd
              rw [hfd]; exact hco
            · simp at hfd
    · have hle := @List.findIdx_le_length pollfd (fun s : pollfd => s.fd == c.sock) g.sockets
      have heq : get_socket_index g c.sock = g.sockets.length := by
        simp only [get_socket_index] at hidx ⊢
        omega
      have hne : g.connections ≠ [] := by
        intro h; rw [h] at hc; simp at hc
      simp [remove_connection, hc, List.getLast?_eq_getLast _ hne, heq] at hrun

/-- The loop of `connect_to_remote` keeps the listener entries and returns `-1`
or a fresh descriptor. -/
theorem kept_connect_loop (L : List pollfd) (base : List Int) (results : List addr_attempt) :
    ∀ (g g1 : Globals) (s : Int), connect_loop g results = .returned g1 s →
    listeners_kept L base g →
    (∀ a ∈ results, a.sock ∉ L.map pollfd.fd ∧ -2 ^ 31 ≤ a.sock ∧ a.sock < 2 ^ 31) →
    listeners_kept L base g1 ∧
      (s = -1 ∨ (s ∉ L.map pollfd.fd ∧ -2 ^ 31 ≤ s ∧ s < 2 ^ 31)) := by
  induction results with
  | nil =>
    intro g g1 s hrun h _
    simp only [connect_loop, connect_result.returned.injEq] at hrun
    obtain ⟨rfl, rfl⟩ := hrun
    exact ⟨h, Or.inl rfl⟩
  | cons a rest ih =>
    intro g g1 s hrun h hf
    simp only [connect_loop] at hrun
    have ha := hf a (List.mem_cons_self _ _)
    split at hrun
    · cases hrun
    · split at hrun
      · refine ih _ g1 s hrun ?_ (fun x hx => hf x (List.mem_cons_of_mem _ hx))
        obtain ⟨h1, h2, h3, new, h4, h5⟩ := h
        refine ⟨h1, h2, h3, new ++ [a.sock], by simp [h4], ?_⟩
        intro fd hfd
        rcases List.mem_append.1 hfd with hfd | hfd
        · exact h5 fd hfd
        · simp only [List.mem_singleton] at hfd
          rw [hfd]; exact ha.1
      · simp only [connect_result.returned.injEq] at hrun
        obtain ⟨rfl, rfl⟩ := hrun
        exact ⟨h, Or.inr ha⟩

/-- The function `connect_to_remote` keeps the listener entries and returns
`-1` or a fresh descriptor. -/
theorem kept_connect_to_remote (L : List pollfd) (base : List Int) (g g1 : Globals)
    (r : remote_env) (s : Int) (hrun : connect_to_remote g r = .returned g1 s)
    (h : listeners_kept L base g)
    (hf : ∀ a ∈ r.results, a.sock ∉ L.map pollfd.fd ∧ -2 ^ 31 ≤ a.sock ∧ a.sock < 2 ^ 31) :
    listeners_kept L base g1 ∧
      (s = -1 ∨ (s ∉ L.map pollfd.fd ∧ -2 ^ 31 ≤ s ∧ s < 2 ^ 31)) := by
  unfold connect_to_remote at hrun
  split at hrun
  · cases hrun
  · exact kept_connect_loop L base r.results g g1 s hrun h hf

/-- The value `-1` survives the passage through a `size_t` variable. -/
theorem minus_one_round : size_to_int (int_to_size (-1)) = -1 := by decide

/-- The `CONNECT` block keeps the listener entries. -/
theorem kept_connect_block (L : List pollfd) (base : List Int) (g g2 : Globals) (index : Nat)
    (conn : connection) (r : remote_env)
    (hrun : connect_block g index conn r = .running g2)
    (h : listeners_kept L base g) (hs : conn.sock ∉ L.map pollfd.fd)
    (hf : ∀ a ∈ r.results, a.sock ∉ L.map pollfd.fd ∧ -2 ^ 31 ≤ a.sock ∧ a.sock < 2 ^ 31)
    (hm : (-1 : Int) ∉ L.map pollfd.fd) : listeners_kept L base g2 := by
  cases hct : connect_to_remote g r with
  | exited g1 => simp [connect_block, hct] at hrun
  | returned g1 s =>
    obtain ⟨hk1, hsr⟩ := kept_connect_to_remote L base g g1 r s hct h hf
    have hnew : size_to_int (int_to_size s) ∉ L.map pollfd.fd := by
      rcases hsr with rfl | ⟨h1, h2, h3⟩
      · rw [minus_one_round]; exact hm
      · rw [int_size_int s h2 h3]; exact h1
    cases hsc : socket_change g1 conn.sock (size_to_int (int_to_size s)) POLLOUT with
    | running g3 =>
      simp only [connect_block, hct, hsc, Outcome.running.injEq] at hrun
      rw [← hrun]
      exact kept_store L base g3 index _
        (kept_socket_change L base g1 g3 _ _ _ hsc hk1 hs) hnew hs
    | exited g3 st => simp [connect_block, hct, hsc] at hrun
    | undefined => simp [connect_block, hct, hsc] at hrun

/-- The `REQUEST_WRITE` block keeps the listener entries. -/
theorem kept_request_write_block (L : List pollfd) (base : List Int) (g g2 : Globals)
    (index : Nat) (conn : connection) (s : send_result)
    (hrun : request_write_block g index conn s = .running g2)
    (h : listeners_kept L base g) (hs : conn.sock ∉ L.map pollfd.fd)
    (ho : conn.sock_other ∉ L.map pollfd.fd) : listeners_kept L base g2 := by
  cases s with
  | error => exact kept_remove_connection L base g g2 index hrun h
  | ok amount =>
    simp only [request_write_block] at hrun
    split at hrun
    · split at hrun
      · next g3 hsc =>
        simp only [Outcome.running.injEq] at hrun
        rw [← hrun]
        exact kept_store L base g3 index _
          (kept_socket_change L base _ g3 _ _ _ hsc (kept_sent_log L base g _ _ h) hs) hs ho
      · next o hne =>
        rw [hrun] at hne
        exact absurd rfl (hne g2)
    · simp only [Outcome.running.injEq] at hrun
      rw [← hrun]
      exact kept_store L base _ index _ (kept_sent_log L base g _ _ h) hs ho

/-- The `WRITE` block keeps the listener entries. -/
theorem kept_write_block (L : List pollfd) (base : List Int) (g g2 : Globals)
    (index : Nat) (conn : connection) (s : send_result)
    (hrun : write_block g index conn s = .running g2)
    (h : listeners_kept L base g) (hs : conn.sock ∉ L.map pollfd.fd)
    (ho : conn.sock_other ∉ L.map pollfd.fd) : listeners_kept L base g2 := by
  cases s with
  | error => exact kept_remove_connection L base g g2 index hrun h
  | ok amount =>
    simp only [write_block] at hrun
    split at hrun
    · split at hrun
      · next g3 hsc =>
        simp only [Outcome.running.injEq] at hrun
        rw [← hrun]
        exact kept_store L base g3 index _
          (kept_socket_change L base _ g3 _ _ _ hsc (kept_sent_log L base g _ _ h) hs) ho hs
      · next o hne =>
        rw [hrun] at hne
        exact absurd rfl (hne g2)
    · simp only [Outcome.running.injEq] at hrun
      rw [← hrun]
      exact kept_store L base _ index _ (kept_sent_log L base g _ _ h) hs ho

/-- The `READ` block keeps the listener entries. -/
theorem kept_read_block (L : List pollfd) (base : List Int) (g g2 : Globals)
    (index : Nat) (conn : connection) (r : recv_result)
    (hrun : read_block g index conn r = .running g2)
    (h : listeners_kept L base g) (hs : conn.sock ∉ L.map pollfd.fd)
    (ho : conn.sock_other ∉ L.map pollfd.fd) : listeners_kept L base g2 := by
  simp only [read_block] at hrun
  split at hrun
  · exact kept_remove_connection L base g g2 index hrun h
  · split at hrun
    · exact kept_remove_connection L base g g2 index hrun h
    · split at hrun
      · next g3 hsc =>
        simp only [Outcome.running.injEq] at hrun
        rw [← hrun]
        exact kept_store L base g3 index _
          (kept_socket_change L base _ g3 _ _ _ hsc (kept_logged L base g _ _ h) hs) ho hs
      · next o hne =>
        rw [hrun] at hne
        exact absurd rfl (hne g2)

/-- The reading block leaves the two sockets of the record alone. -/
theorem request_read_socks (c c1 : connection) (r : recv_result)
    (h : request_read c r = .next c1) : c1.sock = c.sock ∧ c1.sock_other = c.sock_other := by
  unfold request_read at h
  simp only at h
  split at h
  · split at h
    · cases h
    · cases h; exact ⟨rfl, rfl⟩
  · split at h
    · split at h
      · cases h
      · split at h
        · cases h
        · split at h <;> (cases h; exact ⟨rfl, rfl⟩)
    · cases h; exact ⟨rfl, rfl⟩

/-- The `START` check leaves the two sockets of the record alone. -/
theorem start_check_socks (c : connection) :
    (start_check c).sock = c.sock ∧ (start_check c).sock_other = c.sock_other := by
  unfold start_check
  split
  · split <;> exact ⟨rfl, rfl⟩
  · exact ⟨rfl, rfl⟩

/-- The `PATH` check leaves the two sockets of the record alone. -/
theorem path_check_socks (c : connection) :
    (path_check c).sock = c.sock ∧ (path_check c).sock_other = c.sock_other := by
  unfold path_check
  split
  · split <;> exact ⟨rfl, rfl⟩
  · exact ⟨rfl, rfl⟩

/-- The `REQUEST_END` check leaves the two sockets of the record alone. -/
theorem request_end_check_socks (c : connection) :
    (request_end_check c).sock = c.sock ∧ (request_end_check c).sock_other = c.sock_other := by
  unfold request_end_check
  split
  · split <;> exact ⟨rfl, rfl⟩
  · exact ⟨rfl, rfl⟩

/-- The three checks leave the two sockets of the record alone. -/
theorem scan_socks (c : connection) :
    (request_end_check (path_check (start_check c))).sock = c.sock ∧
      (request_end_check (path_check (start_check c))).sock_other = c.sock_other := by
  obtain ⟨a1, a2⟩ := start_check_socks c
  obtain ⟨b1, b2⟩ := path_check_socks (start_check c)
  obtain ⟨c1, c2⟩ := request_end_check_socks (path_check (start_check c))
  exact ⟨by rw [c1, b1, a1], by rw [c2, b2, a2]⟩

/-- `handle_connection` keeps the listener entries. -/
theorem kept_handle_connection (L : List pollfd) (base : List Int) (g g2 : Globals)
    (index : Nat) (env : Env) (hrun : handle_connection g index env = .running g2)
    (h : listeners_kept L base g)
    (hf : ∀ a ∈ env.remote.results,
      a.sock ∉ L.map pollfd.fd ∧ -2 ^ 31 ≤ a.sock ∧ a.sock < 2 ^ 31)
    (hm : (-1 : Int) ∉ L.map pollfd.fd) : listeners_kept L base g2 := by
  cases hc : g.connections[index]? with
  | none => simp [handle_connection, hc] at hrun
  | some conn0 =>
    obtain ⟨hs0, ho0⟩ := h.2.2.1 conn0 (List.getElem?_mem hc)
    cases hrd : request_read conn0 env.recv with
    | remove =>
      simp only [handle_connection, hc, hrd] at hrun
      exact kept_remove_connection L base g g2 index hrun h
    | overrun => simp [handle_connection, hc, hrd] at hrun
    | next conn1 =>
      obtain ⟨hs1, ho1⟩ := request_read_socks conn0 conn1 env.recv hrd
      obtain ⟨hs2, ho2⟩ := scan_socks conn1
      rw [hs1] at hs2
      rw [ho1] at ho2
      have hsF : (request_end_check (path_check (start_check conn1))).sock ∉ L.map pollfd.fd := by
        rw [hs2]; exact hs0
      have hoF : (request_end_check (path_check (start_check conn1))).sock_other
          ∉ L.map pollfd.fd := by
        rw [ho2]; exact ho0
      have hg1 : listeners_kept L base
          (if conn0.state = .START ∨ conn0.state = .PATH ∨ conn0.state = .REQUEST_END then
            { g with received := g.received ++ [(conn0.sock, env.recv.bytes)] } else g) := by
        split
        · exact h
        · exact h
      simp only [handle_connection, hc, hrd] at hrun
      split at hrun
      · exact kept_connect_block L base _ g2 index _ env.remote hrun hg1 hsF hf hm
      · exact kept_request_write_block L base _ g2 index _ env.send hrun hg1 hsF hoF
      · exact kept_read_block L base _ g2 index _ env.recv hrun hg1 hsF hoF
      · exact kept_write_block L base _ g2 index _ env.send hrun hg1 hsF hoF
      · simp only [Outcome.running.injEq] at hrun
        rw [← hrun]
        exact kept_store L base _ index _ hg1 hsF hoF

/-- The function `add_connection` with a fresh descriptor keeps the listener
entries. -/
theorem kept_add_connection (L : List pollfd) (base : List Int) (g : Globals) (sock : Int)
    (h : listeners_kept L base g) (hs : sock ∉ L.map pollfd.fd)
    (hm : (-1 : Int) ∉ L.map pollfd.fd) : listeners_kept L base (add_connection g sock) := by
  obtain ⟨h1, h2, h3, h4⟩ := h
  have hlen : L.length ≤ g.sockets.length := by
    have := congrArg List.length h2
    simp at this; omega
  refine ⟨h1, ?_, ?_, h4⟩
  · simp only [add_connection, add_socket]
    rw [List.take_append_of_le_length hlen]
    exact h2
  · intro c hc
    simp only [add_connection, add_socket, List.mem_append, List.mem_singleton] at hc
    rcases hc with hc | rfl
    · exact h3 c hc
    · exact ⟨hs, hm⟩

/-- Any sequence of calls keeps the listener entries. -/
theorem kept_run_ops (L : List pollfd) (base : List Int) (hm : (-1 : Int) ∉ L.map pollfd.fd) :
    ∀ (ops : List op) (g g2 : Globals), run_ops g ops = .running g2 →
    listeners_kept L base g → (∀ o ∈ ops, op_fresh (L.map pollfd.fd) o) →
    listeners_kept L base g2
  | [], g, g2, hrun, h, _ => by
    simp only [run_ops, Outcome.running.injEq] at hrun
    rw [← hrun]; exact h
  | o :: rest, g, g2, hrun, h, hf => by
    simp only [run_ops] at hrun
    cases hop : apply_op g o with
    | running g1 =>
      rw [hop] at hrun
      have hfo := hf o (List.mem_cons_self _ _)
      have hk1 : listeners_kept L base g1 := by
        cases o with
        | add sock =>
          simp only [apply_op, Outcome.running.injEq] at hop
          rw [← hop]
          exact kept_add_connection L base g sock h hfo hm
        | handle index env =>
          exact kept_handle_connection L base g g1 index env hop h hfo hm
        | remove index =>
          exact kept_remove_connection L base g g1 index hop h
      exact kept_run_ops L base hm rest g1 g2 hrun hk1
        (fun x hx => hf x (List.mem_cons_of_mem _ hx))
    | exited g1 st => rw [hop] at hrun; cases hrun
    | undefined => rw [hop] at hrun; cases hrun

/-- C9. From a state whose first `number_interfaces` entries of the table of
sockets are the listener entries (none with descriptor `-1`) and in which no
connection uses a listener descriptor, every sequence of `add_connection`,
`handle_connection` and `remove_connection` calls that returns, with any
results of `recv`, `send` and `connect` and any descriptors from `accept` and
`socket` other than the listener descriptors, leaves `number_interfaces` and
the first `number_interfaces` entries as they were (descriptors, events,
positions), and closes no listener descriptor. -/
theorem listeners_stay (g0 g : Globals) (ops : List op)
    (hk : g0.number_interfaces ≤ g0.sockets.length)
    (hvalid : (-1 : Int) ∉ (g0.sockets.take g0.number_interfaces).map pollfd.fd)
    (hconn : ∀ c ∈ g0.connections,
      c.sock ∉ (g0.sockets.take g0.number_interfaces).map pollfd.fd ∧
      c.sock_other ∉ (g0.sockets.take g0.number_interfaces).map pollfd.fd)
    (hfresh : ∀ o ∈ ops, op_fresh ((g0.sockets.take g0.number_interfaces).map pollfd.fd) o)
    (hrun : run_ops g0 ops = .running g) :
    g.number_interfaces = g0.number_interfaces ∧
    g.sockets.take g0.number_interfaces = g0.sockets.take g0.number_interfaces ∧
    ∃ new, g.closed = g0.closed ++ new ∧
      ∀ fd ∈ new, fd ∉ (g0.sockets.take g0.number_interfaces).map pollfd.fd := by
  have hlen : (g0.sockets.take g0.number_interfaces).length = g0.number_interfaces := by
    simp [hk]
  have h0 : listeners_kept (g0.sockets.take g0.number_interfaces) g0.closed g0 :=
    ⟨hlen.symm, by rw [hlen], hconn, [], by simp, by simp⟩
  obtain ⟨h1, h2, -, h4⟩ := kept_run_ops (g0.sockets.take g0.number_interfaces) g0.closed
    hvalid ops g0 g hrun h0 hfresh
  rw [hlen] at h1 h2
  exact ⟨h1, h2, h4⟩

/-- Witness of C9: a whole session on one listener. -/
theorem listeners_stay_witness :
    (demo_listener.number_interfaces ≤ demo_listener.sockets.length ∧
      (-1 : Int) ∉ (demo_listener.sockets.take demo_listener.number_interfaces).map pollfd.fd ∧
      (∀ c ∈ demo_listener.connections,
        c.sock ∉ (demo_listener.sockets.take demo_listener.number_interfaces).map pollfd.fd ∧
        c.sock_other ∉
          (demo_listener.sockets.take demo_listener.number_interfaces).map pollfd.fd) ∧
      (∀ o ∈ demo_session, op_fresh
        ((demo_listener.sockets.take demo_listener.number_interfaces).map pollfd.fd) o) ∧
      run_ops demo_listener demo_session = .running demo_done) ∧
    (demo_done.number_interfaces = demo_listener.number_interfaces ∧
      demo_done.sockets.take demo_listener.number_interfaces
        = demo_listener.sockets.take demo_listener.number_interfaces ∧
      ∃ new, demo_done.closed = demo_listener.closed ++ new ∧
        ∀ fd ∈ new,
          fd ∉ (demo_listener.sockets.take demo_listener.number_interfaces).map pollfd.fd) :=
  ⟨⟨by decide, by decide, by decide, by decide, rfl⟩,
    listeners_stay demo_listener demo_done demo_session (by decide) (by decide) (by decide)
      (by decide) rfl⟩

/-- C4. On a fresh connection fed non-empty reads: as long as the bytes read
so far are not four or more bytes starting with `"GET "` the connection is in
`START` with these bytes in its buffer; once they are, and as long as no space
follows, it is in `PATH` and the buffer holds the bytes read without the four
bytes of `"GET "`; at the read before which it was still in `START`, it is
still in `START` afterwards if and only if the bytes read so far are not four
or more bytes starting with `"GET "`, and otherwise the call exits in `CONNECT`
or leaves the record outside `START`; the `START` check removes exactly the
first four bytes. -/
theorem start_left_iff_get (g : Globals) (index : Nat) (sock : Int)
    (hfresh : g.connections[index]? = some (new_connection sock)) :
    (∀ envs : List Env, (∀ x ∈ envs, 0 < x.recv.amount) → ¬ is_get (delivered envs) →
      ∃ c, (run g index envs).conn index = some c ∧ c.state = .START ∧
        content c = delivered envs) ∧
    (∀ envs : List Env, (∀ x ∈ envs, 0 < x.recv.amount) → is_get (delivered envs) →
      SP ∉ (delivered envs).drop 4 →
      ∃ c, (run g index envs).conn index = some c ∧ c.state = .PATH ∧
        content c = (delivered envs).drop 4) ∧
    (∀ (pre : List Env) (e : Env), (∀ x ∈ pre ++ [e], 0 < x.recv.amount) →
      ¬ is_get (delivered pre) →
      ((∃ c, (run g index (pre ++ [e])).conn index = some c ∧ c.state = .START) ↔
        ¬ is_get (delivered (pre ++ [e]))) ∧
      (is_get (delivered (pre ++ [e])) →
        (∃ g2 status, run g index (pre ++ [e]) = .exited g2 status) ∨
        ∃ c, (run g index (pre ++ [e])).conn index = some c ∧ c.state ≠ .START)) ∧
    (∀ c : connection, c.state = .START → c.buffer_size ≤ c.buffer.length →
      is_get (content c) →
      (start_check c).state = .PATH ∧ content (start_check c) = (content c).drop 4) := by
  have hnew : (new_connection sock).buffer.length = (new_connection sock).buffer_size := rfl
  have hcn : content (new_connection sock) = [] := rfl
  -- staying in START
  have hstay : ∀ envs : List Env, (∀ x ∈ envs, 0 < x.recv.amount) → ¬ is_get (delivered envs) →
      ∃ c, (run g index envs).conn index = some c ∧ c.state = .START ∧
        content c = delivered envs := by
    intro envs hreads hn
    obtain ⟨g2, hr2, hc2⟩ := run_start_stay index envs g (new_connection sock) hfresh rfl
      hnew hreads (by simpa [new_connection] using hn)
    refine ⟨_, by rw [hr2, conn_running, hc2], rfl, ?_⟩
    rw [appended_content _ _ (by simp [new_connection]), hcn, List.nil_append]
  refine ⟨hstay, ?_, ?_, ?_⟩
  · -- in PATH until a space arrives
    intro envs hreads hg hsp
    have hacc : delivered envs = GET_ ++ (delivered envs).drop 4 := by
      conv_lhs => rw [← List.take_append_drop 4 (delivered envs), hg.2]
    obtain ⟨g1, c1, hrun, hc1, hwf, hh⟩ := run_before_space index ((delivered envs).drop 4) []
      hsp envs g (new_connection sock) [] [SP] hfresh (holds_new sock) hreads
      (by
        rw [List.nil_append]
        conv_lhs => rw [hacc])
      (by
        rw [List.nil_append, List.length_drop]
        have := hg.1
        omega)
    rw [List.nil_append] at hh
    rcases hh with ⟨_, _, hlt⟩ | ⟨hs, hct, _⟩
    · exact absurd hg.1 (by omega)
    · exact ⟨c1, by rw [hrun, conn_running, hc1], hs, hct⟩
  · -- the read at which START is left
    intro pre e hreads hpre
    obtain ⟨g1, hrun1, hc1⟩ := run_start_stay index pre g (new_connection sock) hfresh rfl hnew
      (fun x hx => hreads x (List.mem_append_left _ hx)) (by simpa [new_connection] using hpre)
    have hs1 : (appended (new_connection sock) (delivered pre)).state = .START := rfl
    have hf1 := appended_full (new_connection sock) (delivered pre) (by simp [new_connection])
    have hct1 : content (appended (new_connection sock) (delivered pre)) = delivered pre := by
      rw [appended_content _ _ (by simp [new_connection]), hcn, List.nil_append]
    have hre : 0 < e.recv.amount := hreads e (by simp)
    have hacc : delivered (pre ++ [e]) = delivered pre ++ e.recv.bytes := by
      rw [delivered_append, delivered_single]
    have hct2 : content (appended (appended (new_connection sock) (delivered pre)) e.recv.bytes)
        = delivered (pre ++ [e]) := by
      rw [appended_content _ _ (by omega), hct1, hacc]
    have hf2 := appended_full (appended (new_connection sock) (delivered pre)) e.recv.bytes
      (by omega)
    have hrun2 := run_snoc g g1 index pre e hrun1
    have hleave : is_get (delivered (pre ++ [e])) →
        (∃ g2 status, run g index (pre ++ [e]) = .exited g2 status) ∨
        ∃ c, (run g index (pre ++ [e])).conn index = some c ∧ c.state ≠ .START := by
      intro hg
      have hl := scan_left
        (appended (appended (new_connection sock) (delivered pre)) e.recv.bytes) rfl (by omega)
        (by rw [hct2]; exact hg)
      rcases call_left g1 index e _ hc1 (Or.inl hs1) (by omega) hre hl with
        ⟨g2, st, h⟩ | ⟨g2, c2, h, hc2, hs2⟩
      · exact Or.inl ⟨g2, st, by rw [hrun2, h]⟩
      · exact Or.inr ⟨c2, by rw [hrun2, h, conn_running, hc2], hs2⟩
    refine ⟨⟨?_, ?_⟩, hleave⟩
    · rintro ⟨c, hc, hs⟩ hg
      rcases hleave hg with ⟨g2, st, h⟩ | ⟨c2, hc2, hs2⟩
      · rw [h] at hc; simp [Outcome.conn] at hc
      · rw [hc] at hc2
        cases hc2
        exact hs2 hs
    · intro hn
      obtain ⟨c, hc, hs, _⟩ := hstay (pre ++ [e]) hreads hn
      exact ⟨c, hc, hs⟩
  · intro c hs hwf hg
    obtain ⟨h1, _, h3⟩ := start_check_strip c hs hwf hg
    exact ⟨h1, h3⟩

/-- Witness of C4: `"GE"` then `"T /"` on a fresh connection. -/
theorem start_left_iff_get_witness :
    demo_fresh.connections[0]? = some (new_connection 4) ∧
    ∃ c, (run demo_fresh 0 [demo_recv [71, 69], demo_recv [84, 32, 47]]).conn 0 = some c ∧
      c.state = .PATH ∧
      content c = (delivered [demo_recv [71, 69], demo_recv [84, 32, 47]]).drop 4 :=
  ⟨by decide,
    (start_left_iff_get demo_fresh 0 4 (by decide)).2.1
      [demo_recv [71, 69], demo_recv [84, 32, 47]] (by decide) (by decide) (by decide)⟩

/-! ## Removal from the table of sockets -/

/-- Entries of a table after `swap_remove`: every position but `i` keeps
its entry, and position `i` gets the former last entry. -/
theorem swap_remove_get {α : Type} (l : List α) (i : Nat) (last : α)
    (hl : l.getLast? = some last) :
    (∀ j, j < l.length - 1 → j ≠ i → (swap_remove l i last)[j]? = l[j]?) ∧
    (i < l.length - 1 → (swap_remove l i last)[i]? = l[l.length - 1]?) := by
  have hlast : l[l.length - 1]? = some last := by
    rw [← hl, List.getLast?_eq_getElem?]
  unfold swap_remove
  constructor
  · intro j hj hji
    split
    · rw [List.dropLast_eq_take, List.getElem?_take_of_lt (by simpa using hj),
        List.getElem?_set_ne (Ne.symm hji)]
    · rw [List.dropLast_eq_take, List.getElem?_take_of_lt hj]
  · intro hi
    rw [if_pos (by omega), List.dropLast_eq_take, List.getElem?_take_of_lt (by simpa using hi),
      List.getElem?_set_eq_of_lt _ (by omega), hlast]

/-- C15: `remove_socket(i)` on a table of `n ≥ 1` entries with `i < n`
closes the descriptor of entry `i` and leaves `n - 1` entries: every entry
`j ≠ i` below `n - 1` is unchanged, entry `i` is the former last entry when
`i < n - 1`, and the entries left are the old ones without entry `i`. -/
theorem remove_socket_swaps_last (g : Globals) (i : Nat) (hi : i < g.sockets.length) :
    ∃ g2 s, remove_socket g i = .running g2 ∧ g.sockets[i]? = some s ∧
      g2.closed = g.closed ++ [s.fd] ∧
      g2.sockets.length = g.sockets.length - 1 ∧
      (∀ j, j < g.sockets.length - 1 → j ≠ i → g2.sockets[j]? = g.sockets[j]?) ∧
      (i < g.sockets.length - 1 → g2.sockets[i]? = g.sockets[g.sockets.length - 1]?) ∧
      List.Perm g2.sockets (g.sockets.eraseIdx i) ∧
      g2.connections = g.connections ∧ g2.number_interfaces = g.number_interfaces := by
  have hs : g.sockets[i]? = some (g.sockets[i]) := List.getElem?_eq_getElem hi
  obtain ⟨last, hl, hrm⟩ := remove_socket_running g i _ hs
  refine ⟨_, _, hrm, hs, rfl, swap_remove_length _ _ _, (swap_remove_get _ i last hl).1,
    (swap_remove_get _ i last hl).2, swap_remove_perm _ _ _ hi hl, rfl, rfl⟩

/-- C15 at a table of three entries, the middle one removed. -/
theorem remove_socket_swaps_last_witness :
    (1 < demo_two.sockets.length) ∧
    ∃ g2 s, remove_socket demo_two 1 = .running g2 ∧ demo_two.sockets[1]? = some s ∧
      g2.closed = demo_two.closed ++ [s.fd] ∧
      g2.sockets.length = demo_two.sockets.length - 1 ∧
      (∀ j, j < demo_two.sockets.length - 1 → j ≠ 1 → g2.sockets[j]? = demo_two.sockets[j]?) ∧
      (1 < demo_two.sockets.length - 1 →
        g2.sockets[1]? = demo_two.sockets[demo_two.sockets.length - 1]?) ∧
      List.Perm g2.sockets (demo_two.sockets.eraseIdx 1) ∧
      g2.connections = demo_two.connections ∧
      g2.number_interfaces = demo_two.number_interfaces :=
  ⟨by decide, remove_socket_swaps_last demo_two 1 (by decide)⟩

/-! ## Dispatch of a data socket -/

/-- A report with one of the three flags set passes the first test of the
dispatch. -/
theorem revents_any (revents mask : Nat) (hmask : (POLLHUP ||| POLLIN ||| POLLOUT) &&& mask = mask)
    (h : revents &&& mask ≠ 0) : revents &&& (POLLHUP ||| POLLIN ||| POLLOUT) ≠ 0 := by
  intro h0
  apply h
  rw [← hmask, ← Nat.land_assoc, h0]
  simp

/-- Removing a connection performs no `recv` and no `send`. -/
theorem remove_connection_silent (g g2 : Globals) (index : Nat)
    (h : remove_connection g index = .running g2 ∨
      ∃ status, remove_connection g index = .exited g2 status) :
    g2.sent = g.sent ∧ g2.received = g.received := by
  cases hc : g.connections[index]? with
  | none => simp [remove_connection, hc] at h
  | some c =>
    by_cases hidx : get_socket_index g c.sock < g.sockets.length
    · obtain ⟨lastS, lastC, hlS, hlC, hrm⟩ := remove_connection_running g index c hc hidx
      rw [hrm] at h
      rcases h with h | ⟨st, h⟩
      · simp only [Outcome.running.injEq] at h
        rw [← h]; exact ⟨rfl, rfl⟩
      · cases h
    · have hle := @List.findIdx_le_length pollfd (fun s : pollfd => s.fd == c.sock) g.sockets
      have heq : get_socket_index g c.sock = g.sockets.length := by
        simp only [get_socket_index] at hidx ⊢
        omega
      have hne : g.connections ≠ [] := by
        intro h; rw [h] at hc; simp at hc
      simp only [remove_connection, hc, List.getLast?_eq_getLast _ hne, heq, if_true] at h
      rcases h with h | ⟨st, h⟩
      · cases h
      · simp only [Outcome.exited.injEq] at h
        rw [← h.1]; exact ⟨rfl, rfl⟩

/-- C18: in the dispatch of a data socket that has a matching connection, a
report with `POLLHUP` (alone or with `POLLIN` or `POLLOUT`) is answered by
`remove_connection` only, which reads and writes nothing, whatever the state
of the connection; a report without `POLLHUP` but with `POLLIN` or `POLLOUT`
is answered by one call of `handle_connection`. -/
theorem hangup_first (g : Globals) (i revents : Nat) (accepted : Int) (env : Env) (s : pollfd)
    (hs : g.sockets[i]? = some s) (hdata : g.number_interfaces ≤ i)
    (hconn : get_connection_index g s.fd < g.connections.length) :
    (revents &&& POLLHUP ≠ 0 →
      dispatch g i revents accepted env = remove_connection g (get_connection_index g s.fd) ∧
      ∀ g2, (dispatch g i revents accepted env = .running g2 ∨
          ∃ status, dispatch g i revents accepted env = .exited g2 status) →
        g2.sent = g.sent ∧ g2.received = g.received) ∧
    (revents &&& POLLHUP = 0 → revents &&& (POLLIN ||| POLLOUT) ≠ 0 →
      dispatch g i revents accepted env
        = handle_connection g (get_connection_index g s.fd) env) := by
  have hni : ¬ i < g.number_interfaces := by omega
  have hne : get_connection_index g s.fd ≠ g.connections.length := by omega
  constructor
  · intro hup
    have hany := revents_any revents POLLHUP (by decide) hup
    have hd : dispatch g i revents accepted env
        = remove_connection g (get_connection_index g s.fd) := by
      simp only [dispatch, hs, hni, if_false, hany, hup, ne_eq, not_false_eq_true, if_true, hne]
    refine ⟨hd, ?_⟩
    intro g2 h
    rw [hd] at h
    exact remove_connection_silent g g2 _ h
  · intro hup hio
    have hany := revents_any revents (POLLIN ||| POLLOUT) (by decide) hio
    simp only [dispatch, hs, hni, if_false, hany, hup, ne_eq, not_false_eq_true, if_true, hne,
      not_true_eq_false]

/-- C18 at a table with a writing connection: a report `POLLHUP | POLLOUT`
on its socket, then a report `POLLOUT` alone. -/
theorem hangup_first_witness :
    (demo_two.sockets[1]? = some { fd := 4, events := POLLOUT }) ∧
    (demo_two.number_interfaces ≤ 1) ∧
    (get_connection_index demo_two 4 < demo_two.connections.length) ∧
    ((POLLHUP ||| POLLOUT) &&& POLLHUP ≠ 0 →
      dispatch demo_two 1 (POLLHUP ||| POLLOUT) 0 (demo_send 3)
        = remove_connection demo_two (get_connection_index demo_two 4) ∧
      ∀ g2, (dispatch demo_two 1 (POLLHUP ||| POLLOUT) 0 (demo_send 3) = .running g2 ∨
          ∃ status, dispatch demo_two 1 (POLLHUP ||| POLLOUT) 0 (demo_send 3)
            = .exited g2 status) →
        g2.sent = demo_two.sent ∧ g2.received = demo_two.received) ∧
    (POLLOUT &&& POLLHUP = 0 → POLLOUT &&& (POLLIN ||| POLLOUT) ≠ 0 →
      dispatch demo_two 1 POLLOUT 0 (demo_send 3)
        = handle_connection demo_two (get_connection_index demo_two 4) (demo_send 3)) :=
  ⟨rfl, by decide, by decide,
    (hangup_first demo_two 1 (POLLHUP ||| POLLOUT) 0 (demo_send 3) { fd := 4, events := POLLOUT }
      rfl (by decide) (by decide)).1,
    (hangup_first demo_two 1 POLLOUT 0 (demo_send 3) { fd := 4, events := POLLOUT }
      rfl (by decide) (by decide)).2⟩

/-! ## What `PATH` carries over -/

/-- The carried-over bytes are the last bytes of the buffer from the space
on, four at most. -/
theorem carry_over_space (S R : List Nat) :
    carry_over (S ++ SP :: R) S.length = (SP :: R).drop (R.length - 3) := by
  unfold carry_over
  have hlen : (S ++ SP :: R).length - S.length = R.length + 1 := by simp
  rw [hlen]
  split
  · have h0 : R.length - 3 = 0 := by omega
    rw [h0]; simp
  · have h1 : (S ++ SP :: R).length - 4 = S.length + (R.length - 3) := by
      simp only [List.length_append, List.length_cons]; omega
    rw [h1, List.drop_append]

/-- C16, as the code has it: when `PATH` finds the first space in a buffer
holding `S ++ SP :: R` (no space in `S`), the buffer handed to `REQUEST_END`
holds the last `min 4 (R.length + 1)` bytes of `SP :: R`, that is of the
bytes from the space on: no byte of the path, four bytes at most, one at
least, and the space itself whenever fewer than four bytes follow it; the
state is `REQUEST_END`, the path is `S` and `buffer_size` is the number of
bytes carried over. -/
theorem carry_over_from_space (c : connection) (S R : List Nat) (hs : c.state = .PATH)
    (hwf : c.buffer_size ≤ c.buffer.length) (hc : content c = S ++ SP :: R) (hS : SP ∉ S) :
    (path_check c).state = .REQUEST_END ∧
    (path_check c).path = S ∧ (path_check c).path_size = S.length ∧
    content (path_check c) = (SP :: R).drop (R.length - 3) ∧
    (path_check c).buffer_size = min 4 (R.length + 1) ∧
    (R.length < 4 → content (path_check c) = SP :: R) := by
  have hp := path_check_found_eq c S R hs hwf hc hS
  rw [hc, carry_over_space] at hp
  rw [hp]
  refine ⟨rfl, rfl, rfl, found_content _ _ _, ?_, ?_⟩
  · simp only [found, List.length_drop, List.length_cons]; omega
  · intro hR
    have h0 : R.length - 3 = 0 := by omega
    rw [found_content, h0]; rfl

/-- C16 at the buffer `"/x "`: the space is the one byte carried over. -/
theorem carry_over_from_space_witness :
    (demo_path_conn.state = .PATH) ∧ (demo_path_conn.buffer_size ≤ demo_path_conn.buffer.length) ∧
    (content demo_path_conn = [47, 120] ++ SP :: []) ∧ (SP ∉ [47, 120]) ∧
    ((path_check demo_path_conn).state = .REQUEST_END ∧
    (path_check demo_path_conn).path = [47, 120] ∧
    (path_check demo_path_conn).path_size = [47, 120].length ∧
    content (path_check demo_path_conn) = (SP :: []).drop (([] : List Nat).length - 3) ∧
    (path_check demo_path_conn).buffer_size = min 4 (([] : List Nat).length + 1) ∧
    (([] : List Nat).length < 4 → content (path_check demo_path_conn) = SP :: [])) :=
  ⟨rfl, by decide, rfl, by decide,
    carry_over_from_space demo_path_conn [47, 120] [] rfl (by decide) rfl (by decide)⟩

/-- C16 as stated fails: after the single read `"GET /x "` of a fresh
connection the call returns in `REQUEST_END` with the path `"/x"` and a scan
buffer of one byte, which is the space itself, not a byte received after
it. -/
theorem carried_byte_is_the_space :
    ∃ c, (handle_connection demo_fresh 0 (demo_recv [71, 69, 84, 32, 47, 120, 32])).conn 0
        = some c ∧
      c.state = .REQUEST_END ∧ c.path = [47, 120] ∧ c.buffer_size = 1 ∧ content c = [SP] :=
  ⟨_, rfl, rfl, rfl, rfl, rfl⟩

/-! ## One call, seen from the record of the connection -/

/-- The value `connect_loop` returns. -/
theorem connect_loop_value (results : List addr_attempt) : ∀ (g g1 : Globals) (s : Int),
    connect_loop g results = .returned g1 s → s = connect_fd results := by
  induction results with
  | nil =>
    intro g g1 s h
    simp only [connect_loop, connect_result.returned.injEq] at h
    simp [connect_fd, h.2]
  | cons a rest ih =>
    intro g g1 s h
    simp only [connect_loop] at h
    split at h
    · cases h
    · split at h
      · rename_i hc
        simp only [connect_fd, hc, if_true]
        exact ih _ _ _ h
      · rename_i hc
        simp only [connect_result.returned.injEq] at h
        simp [connect_fd, hc, h.2]

/-- The value `connect_to_remote` returns. -/
theorem connect_to_remote_value (g g1 : Globals) (r : remote_env) (s : Int)
    (h : connect_to_remote g r = .returned g1 s) : s = connect_fd r.results := by
  unfold connect_to_remote at h
  split at h
  · cases h
  · exact connect_loop_value _ _ _ _ h

/-- What a call of `socket_change` that returns did. -/
theorem socket_change_running (g g2 : Globals) (old new : Int) (events : Nat)
    (h : socket_change g old new events = .running g2) :
    get_socket_index g old < g.sockets.length ∧
      g2 = retargeted g (get_socket_index g old) new events := by
  have hle := @List.findIdx_le_length pollfd (fun s : pollfd => s.fd == old) g.sockets
  by_cases hidx : get_socket_index g old = g.sockets.length
  · simp [socket_change, hidx] at h
  · have hlt : get_socket_index g old < g.sockets.length := by
      simp only [get_socket_index] at hidx ⊢
      omega
    rw [socket_change_found g old new events hlt] at h
    simp only [Outcome.running.injEq] at h
    exact ⟨hlt, h.symm⟩

/-- What a call of `socket_change` that returns did, read on a state with the
same table of sockets. -/
theorem socket_change_on (g g0 g2 : Globals) (old new : Int) (events : Nat)
    (hs : g.sockets = g0.sockets) (h : socket_change g old new events = .running g2) :
    get_socket_index g0 old < g0.sockets.length ∧
      g2.sockets = g0.sockets.set (get_socket_index g0 old) { fd := new, events := events } ∧
      g2.connections = g.connections ∧ g2.number_interfaces = g.number_interfaces ∧
      g2.sent = g.sent ∧ g2.received = g.received ∧ g2.closed = g.closed := by
  obtain ⟨h1, h2⟩ := socket_change_running g g2 old new events h
  rw [get_socket_index_congr g0 g old hs] at h1 h2
  rw [hs] at h1
  rw [h2]
  exact ⟨h1, by simp [retargeted, hs], rfl, rfl, rfl, rfl, rfl⟩

/-- The reading block leaves the state alone. -/
theorem request_read_state (c c1 : connection) (r : recv_result)
    (h : request_read c r = .next c1) : c1.state = c.state := by
  unfold request_read at h
  simp only at h
  split at h
  · split at h
    · cases h
    · cases h; rfl
  · split at h
    · split at h
      · cases h
      · split at h
        · cases h
        · split at h <;> (cases h; rfl)
    · cases h; rfl

/-- The reading block asks for the removal only after a failed `recv`. -/
theorem request_read_remove (c : connection) (r : recv_result)
    (h : request_read c r = .remove) :
    (c.state = .START ∨ c.state = .PATH ∨ c.state = .REQUEST_END) ∧ r.amount ≤ 0 := by
  unfold request_read at h
  simp only at h
  split at h
  · rename_i hs
    split at h
    · rename_i ha
      exact ⟨by rcases hs with hs | hs <;> simp [hs], ha⟩
    · cases h
  · split at h
    · rename_i hs
      split at h
      · rename_i ha
        exact ⟨by simp [hs], ha⟩
      · split at h
        · cases h
        · split at h <;> cases h
    · cases h

/-- The three checks move a record forward in the order of the states, and
only a record in `START`, `PATH` or `REQUEST_END`. -/
theorem scan_cases (c : connection) :
    (scan c).state = c.state ∨
      ((c.state = .START ∨ c.state = .PATH ∨ c.state = .REQUEST_END) ∧
        ((scan c).state = .PATH ∨ (scan c).state = .REQUEST_END ∨ (scan c).state = .CONNECT) ∧
        c.state.rank < (scan c).state.rank) := by
  unfold scan
  rcases start_check_state c with h1 | ⟨h0, h1⟩ <;>
  rcases path_check_state (start_check c) with h2 | ⟨h2a, h2⟩ <;>
  rcases request_end_check_state (path_check (start_check c)) with h3 | ⟨h3a, h3⟩
  · left; rw [h3, h2, h1]
  · right
    rw [h2, h1] at h3a
    simp [h3, h3a, connection_state.rank]
  · right
    rw [h1] at h2a
    rw [h3, h2]
    simp [h2a, connection_state.rank]
  · right
    rw [h1] at h2a
    simp [h3, h2a, connection_state.rank]
  · right
    rw [h3, h2, h1]
    simp [h0, connection_state.rank]
  · right
    rw [h2, h1] at h3a
    cases h3a
  · right
    rw [h3, h2]
    simp [h0, connection_state.rank]
  · right
    simp [h3, h0, connection_state.rank]

/-- A call of `handle_connection` that returns either removed the connection,
after a failed `recv` or `send`, or left the record `after_call` in its slot;
the table of sockets changed in one entry at most, the entry found for the
socket of the record, and only when the state changed to `REQUEST_WRITE`,
`READ` or `WRITE`. -/
theorem handle_running (g g2 : Globals) (index : Nat) (env : Env) (c : connection)
    (hc : g.connections[index]? = some c)
    (hrun : handle_connection g index env = .running g2) :
    (fails c env ∧ remove_connection g index = .running g2) ∨
    (¬ fails c env ∧ g2.connections = g.connections.set index (after_call c env) ∧
      g2.number_interfaces = g.number_interfaces ∧
      (retargets c (after_call c env) →
        get_socket_index g c.sock < g.sockets.length ∧
        g2.sockets = g.sockets.set (get_socket_index g c.sock)
          { fd := (after_call c env).sock, events := interest (after_call c env).state }) ∧
      (¬ retargets c (after_call c env) → g2.sockets = g.sockets)) := by
  by_cases hf : fails c env
  · left
    rw [handle_teardown g index c env hc hf] at hrun
    exact ⟨hf, hrun⟩
  right
  refine ⟨hf, ?_⟩
  have hi : index < g.connections.length := (List.getElem?_eq_some_iff.1 hc).1
  cases hrd : request_read c env.recv with
  | remove =>
    exfalso
    obtain ⟨hs, ha⟩ := request_read_remove c env.recv hrd
    apply hf
    left
    refine ⟨?_, ha⟩
    rcases hs with hs | hs | hs <;> simp [hs]
  | overrun => simp [handle_connection, hc, hrd] at hrun
  | next c1 =>
    have hst1 := request_read_state c c1 env.recv hrd
    obtain ⟨hs1, ho1⟩ := request_read_socks c c1 env.recv hrd
    obtain ⟨hs2, ho2⟩ := scan_socks c1
    have hsc := scan_cases c1
    simp only [scan] at hsc
    rw [hst1] at hsc
    rw [hs1] at hs2
    simp only [handle_connection, hc, hrd] at hrun
    simp only [after_call, hrd, scan]
    generalize hg1 : (if c.state = .START ∨ c.state = .PATH ∨ c.state = .REQUEST_END then
      { g with received := g.received ++ [(c.sock, env.recv.bytes)] } else g) = g1 at hrun
    have hk : g1.sockets = g.sockets ∧ g1.connections = g.connections ∧
        g1.number_interfaces = g.number_interfaces := by
      rw [← hg1]; split <;> exact ⟨rfl, rfl, rfl⟩
    obtain ⟨hk1, hk2, hk3⟩ := hk
    have hidx : ∀ sock, get_socket_index g1 sock = get_socket_index g sock :=
      fun sock => get_socket_index_congr g g1 sock hk1
    generalize hconn : request_end_check (path_check (start_check c1)) = conn at hrun hsc hs2 ⊢
    cases hst : conn.state with
    | START =>
      simp only [hst] at hrun ⊢
      simp only [Outcome.running.injEq] at hrun
      rw [← hrun]
      refine ⟨by simp [store, hk2], hk3, ?_, ?_⟩
      · intro hr; simp [retargets, hst] at hr
      · intro _; exact hk1
    | PATH =>
      simp only [hst] at hrun ⊢
      simp only [Outcome.running.injEq] at hrun
      rw [← hrun]
      refine ⟨by simp [store, hk2], hk3, ?_, ?_⟩
      · intro hr; simp [retargets, hst] at hr
      · intro _; exact hk1
    | REQUEST_END =>
      simp only [hst] at hrun ⊢
      simp only [Outcome.running.injEq] at hrun
      rw [← hrun]
      refine ⟨by simp [store, hk2], hk3, ?_, ?_⟩
      · intro hr; simp [retargets, hst] at hr
      · intro _; exact hk1
    | CONNECT =>
      simp only [hst] at hrun ⊢
      obtain ⟨g1b, s, hct, hfound, hg2, -, -⟩ :=
        connect_block_running g1 g2 index conn env.remote (by rw [hk2]; exact hi) hrun
      obtain ⟨hc1, hc2, hc3, -⟩ := connect_to_remote_keeps g1 g1b env.remote s hct
      have hs := connect_to_remote_value g1 g1b env.remote s hct
      rw [← hs]
      rw [hidx, hs2, hk1] at hfound
      rw [hg2]
      refine ⟨by simp [store, retargeted, hc2, hk2], by simp [store, retargeted, hc3, hk3], ?_, ?_⟩
      · intro _
        refine ⟨hfound, ?_⟩
        simp [store, retargeted, hc1, hk1, hidx, hs2, connected, interest]
      · intro hr
        exfalso; apply hr
        refine ⟨?_, Or.inl rfl⟩
        intro heq
        rw [hst] at hsc
        rcases hsc with h | ⟨h, -, -⟩
        · rw [← h] at heq; simp [connected] at heq
        · rcases h with h | h | h <;> rw [h] at heq <;> simp [connected] at heq
    | REQUEST_WRITE =>
      have hcs : c.state = .REQUEST_WRITE := by
        rw [hst] at hsc
        rcases hsc with h | ⟨-, h, -⟩
        · exact h.symm
        · simp at h
      have h1 : c1 = c := by
        rw [request_read_other c env.recv (by simp [hcs])] at hrd
        cases hrd; rfl
      have h2 : conn = c := by
        rw [← hconn, h1]; exact scan_other c (by simp [hcs])
      subst h2
      simp only [hst] at hrun ⊢
      cases hsend : env.send with
      | error => exact absurd (Or.inr ⟨Or.inl hcs, hsend⟩) hf
      | ok amount =>
        simp only [hsend, request_write_block] at hrun ⊢
        by_cases hdone : conn.written + amount ≥ conn.path_size
        · simp only [advanced, hdone, if_true] at hrun ⊢
          cases hch : socket_change
              { g1 with sent := g1.sent ++ [(conn.sock, List.take amount
                (List.take (size_sub conn.path_size conn.written)
                  (List.drop conn.written conn.path)))] } conn.sock conn.sock POLLIN with
          | running g3 =>
            rw [hch] at hrun
            simp only [Outcome.running.injEq] at hrun
            obtain ⟨hfound, hg3, hg3c, hg3n, -⟩ := socket_change_on _ g _ _ _ _ (by exact hk1) hch
            rw [← hrun]
            refine ⟨by simp [store, hg3c, hk2], by simp [store, hg3n, hk3], ?_, ?_⟩
            · intro _
              exact ⟨hfound, by simp [store, hg3, interest]⟩
            · intro hr
              exfalso; apply hr
              exact ⟨by simp [hcs], Or.inr (Or.inl rfl)⟩
          | exited g3 st => rw [hch] at hrun; cases hrun
          | undefined => rw [hch] at hrun; cases hrun
        · simp only [advanced, hdone, if_false] at hrun ⊢
          simp only [Outcome.running.injEq] at hrun
          rw [← hrun]
          refine ⟨by simp [store, hk2], hk3, ?_, ?_⟩
          · intro hr; simp [retargets, hcs] at hr
          · intro _; exact hk1
    | READ =>
      have hcs : c.state = .READ := by
        rw [hst] at hsc
        rcases hsc with h | ⟨-, h, -⟩
        · exact h.symm
        · simp at h
      have h1 : c1 = c := by
        rw [request_read_other c env.recv (by simp [hcs])] at hrd
        cases hrd; rfl
      have h2 : conn = c := by
        rw [← hconn, h1]; exact scan_other c (by simp [hcs])
      subst h2
      simp only [hst] at hrun ⊢
      have hpos : 0 < env.recv.amount := by
        by_contra hle
        exact hf (Or.inl ⟨by simp [hcs], by omega⟩)
      obtain ⟨data, hdata, hd⟩ := recv_pos env.recv hpos
      have hn1 : ¬ ((data.length : Int) = -1) := by omega
      have hn2 : ¬ ((data.length : Int) = 0) := by omega
      simp only [read_block, hdata, recv_result.amount, recv_result.bytes, hn1, hn2, if_false,
        Int.toNat_ofNat] at hrun ⊢
      cases hch : socket_change
          { g1 with received := g1.received ++ [(conn.sock, data)] }
          conn.sock conn.sock_other POLLOUT with
      | running g3 =>
        rw [hch] at hrun
        simp only [Outcome.running.injEq] at hrun
        obtain ⟨hfound, hg3, hg3c, hg3n, -⟩ := socket_change_on _ g _ _ _ _ (by exact hk1) hch
        rw [← hrun]
        refine ⟨by simp [store, hg3c, hk2, filled], by simp [store, hg3n, hk3], ?_, ?_⟩
        · intro _
          exact ⟨hfound, by simp [store, hg3, interest, filled]⟩
        · intro hr
          exfalso; apply hr
          exact ⟨by simp [hcs, filled], Or.inr (Or.inr rfl)⟩
      | exited g3 st => rw [hch] at hrun; cases hrun
      | undefined => rw [hch] at hrun; cases hrun
    | WRITE =>
      have hcs : c.state = .WRITE := by
        rw [hst] at hsc
        rcases hsc with h | ⟨-, h, -⟩
        · exact h.symm
        · simp at h
      have h1 : c1 = c := by
        rw [request_read_other c env.recv (by simp [hcs])] at hrd
        cases hrd; rfl
      have h2 : conn = c := by
        rw [← hconn, h1]; exact scan_other c (by simp [hcs])
      subst h2
      simp only [hst] at hrun ⊢
      cases hsend : env.send with
      | error => exact absurd (Or.inr ⟨Or.inr hcs, hsend⟩) hf
      | ok amount =>
        simp only [hsend, write_block] at hrun ⊢
        by_cases hdone : conn.written + amount ≥ conn.read
        · simp only [advanced, drained, hdone, if_true] at hrun ⊢
          cases hch : socket_change
              { g1 with sent := g1.sent ++ [(conn.sock, List.take amount
                (List.take (size_sub conn.read conn.written)
                  (List.drop conn.written conn.buffer)))] } conn.sock conn.sock_other POLLIN with
          | running g3 =>
            rw [hch] at hrun
            simp only [Outcome.running.injEq] at hrun
            obtain ⟨hfound, hg3, hg3c, hg3n, -⟩ := socket_change_on _ g _ _ _ _ (by exact hk1) hch
            rw [← hrun]
            refine ⟨by simp [store, hg3c, hk2], by simp [store, hg3n, hk3], ?_, ?_⟩
            · intro _
              exact ⟨hfound, by simp [store, hg3, interest]⟩
            · intro hr
              exfalso; apply hr
              exact ⟨by simp [hcs], Or.inr (Or.inl rfl)⟩
          | exited g3 st => rw [hch] at hrun; cases hrun
          | undefined => rw [hch] at hrun; cases hrun
        · simp only [advanced, hdone, if_false] at hrun ⊢
          simp only [Outcome.running.injEq] at hrun
          rw [← hrun]
          refine ⟨by simp [store, hk2], hk3, ?_, ?_⟩
          · intro hr; simp [retargets, hcs] at hr
          · intro _; exact hk1

/-! ## The order of the states -/

/-- The record a call leaves is in the state of the call or in a later one,
`WRITE` to `READ` apart, and never in `CONNECT`. -/
theorem after_call_order (c : connection) (env : Env) :
    (c.state.rank ≤ (after_call c env).state.rank ∨
      (c.state = .WRITE ∧ (after_call c env).state = .READ)) ∧
    (after_call c env).state ≠ .CONNECT := by
  unfold after_call
  cases hrd : request_read c env.recv with
  | remove =>
    obtain ⟨hs, -⟩ := request_read_remove c env.recv hrd
    refine ⟨Or.inl (Nat.le_refl _), ?_⟩
    rcases hs with hs | hs | hs <;> simp [hs]
  | overrun =>
    refine ⟨Or.inl (Nat.le_refl _), ?_⟩
    intro hs
    rw [request_read_other c env.recv (Or.inl hs)] at hrd
    cases hrd
  | next c1 =>
    have hst1 := request_read_state c c1 env.recv hrd
    have hsc := scan_cases c1
    rw [hst1] at hsc
    simp only
    generalize scan c1 = conn at hsc ⊢
    cases hst : conn.state with
    | START =>
      simp only [hst]
      rw [hst] at hsc
      rcases hsc with h | ⟨-, h, -⟩
      · simp [← h, connection_state.rank]
      · simp at h
    | PATH =>
      simp only [hst]
      rw [hst] at hsc
      rcases hsc with h | ⟨-, -, h⟩
      · simp [← h, connection_state.rank]
      · exact ⟨Or.inl (Nat.le_of_lt h), by simp⟩
    | REQUEST_END =>
      simp only [hst]
      rw [hst] at hsc
      rcases hsc with h | ⟨-, -, h⟩
      · simp [← h, connection_state.rank]
      · exact ⟨Or.inl (Nat.le_of_lt h), by simp⟩
    | CONNECT =>
      simp only [hst, connected]
      rw [hst] at hsc
      rcases hsc with h | ⟨h, -, -⟩
      · simp [← h, connection_state.rank]
      · rcases h with h | h | h <;> simp [h, connection_state.rank]
    | REQUEST_WRITE =>
      simp only [hst]
      rw [hst] at hsc
      have hcs : c.state = .REQUEST_WRITE := by
        rcases hsc with h | ⟨-, h, -⟩
        · exact h.symm
        · simp at h
      cases env.send with
      | error => simp [hst, hcs]
      | ok amount =>
        simp only [advanced]
        split <;> simp [hst, hcs, connection_state.rank]
    | READ =>
      simp only [hst, filled]
      rw [hst] at hsc
      have hcs : c.state = .READ := by
        rcases hsc with h | ⟨-, h, -⟩
        · exact h.symm
        · simp at h
      simp [hcs, connection_state.rank]
    | WRITE =>
      simp only [hst]
      rw [hst] at hsc
      have hcs : c.state = .WRITE := by
        rcases hsc with h | ⟨-, h, -⟩
        · exact h.symm
        · simp at h
      cases env.send with
      | error => simp [hst, hcs]
      | ok amount =>
        simp only [advanced, drained]
        split <;> simp [hst, hcs, connection_state.rank]

/-- C12: with the states ordered as in the enumeration (`START` < `PATH` <
`REQUEST_END` < `CONNECT` < `REQUEST_WRITE` < `READ` < `WRITE`), a call of
`handle_connection` that returns, whatever the state of the connection and
whatever `recv`, `send` and the connect did, either removed the connection
(the `recv` or `send` of the call failed) or left its record in the state of
the call or a later one, the step `WRITE` to `READ` apart; and the record it
leaves is never in `CONNECT`. -/
theorem phase_order (g g2 : Globals) (index : Nat) (env : Env) (c : connection)
    (hc : g.connections[index]? = some c)
    (hrun : handle_connection g index env = .running g2) :
    (fails c env ∧ handle_connection g index env = remove_connection g index) ∨
    (¬ fails c env ∧ ∃ c2, g2.connections[index]? = some c2 ∧
      (c.state.rank ≤ c2.state.rank ∨ (c.state = .WRITE ∧ c2.state = .READ)) ∧
      c2.state ≠ .CONNECT) := by
  rcases handle_running g g2 index env c hc hrun with ⟨hf, hrm⟩ | ⟨hf, hcs, -⟩
  · left
    exact ⟨hf, by rw [hrun, hrm]⟩
  · right
    have hi : index < g.connections.length := (List.getElem?_eq_some_iff.1 hc).1
    refine ⟨hf, after_call c env, ?_, after_call_order c env⟩
    rw [hcs, List.getElem?_set_eq_of_lt _ hi]

/-- C12 at a connection in `WRITE` whose chunk is written completely: the
call takes it back to `READ`. -/
theorem phase_order_witness :
    (demo_two.connections[0]? = some demo_writing_conn) ∧
    (handle_connection demo_two 0 (demo_send 13)
      = .running (store (retargeted (sent_log demo_two 4 demo_reply) 1 5 POLLIN) 0
          (drained (advanced demo_writing_conn 13)))) ∧
    ((fails demo_writing_conn (demo_send 13) ∧
        handle_connection demo_two 0 (demo_send 13) = remove_connection demo_two 0) ∨
      (¬ fails demo_writing_conn (demo_send 13) ∧
        ∃ c2, (store (retargeted (sent_log demo_two 4 demo_reply) 1 5 POLLIN) 0
            (drained (advanced demo_writing_conn 13))).connections[0]? = some c2 ∧
          (demo_writing_conn.state.rank ≤ c2.state.rank ∨
            (demo_writing_conn.state = .WRITE ∧ c2.state = .READ)) ∧
          c2.state ≠ .CONNECT)) :=
  ⟨rfl, rfl, phase_order demo_two _ 0 (demo_send 13) demo_writing_conn rfl rfl⟩

/-! ## The cursors of the two write states -/

/-- The reading block leaves `written` and the path alone. -/
theorem request_read_written (c c1 : connection) (r : recv_result)
    (h : request_read c r = .next c1) : c1.written = c.written := by
  unfold request_read at h
  simp only at h
  split at h
  · split at h
    · cases h
    · cases h; rfl
  · split at h
    · split at h
      · cases h
      · split at h
        · cases h
        · split at h <;> (cases h; rfl)
    · cases h; rfl

/-- The three checks leave `written` alone. -/
theorem scan_written (c : connection) : (scan c).written = c.written := by
  have h1 : (start_check c).written = c.written := by
    unfold start_check
    split
    · split <;> rfl
    · rfl
  have h2 : (path_check (start_check c)).written = (start_check c).written := by
    unfold path_check
    split
    · split <;> rfl
    · rfl
  have h3 : (request_end_check (path_check (start_check c))).written
      = (path_check (start_check c)).written := by
    unfold request_end_check
    split
    · split <;> rfl
    · rfl
  unfold scan
  rw [h3, h2, h1]

/-- The block `buffer_append` leaves has the length asked for. -/
theorem buffer_append_length (buffer : List Nat) (n : Nat) (appended : List Nat) (k : Nat)
    (hk : k ≤ appended.length) : (buffer_append buffer n appended k).length = n + k := by
  simp only [buffer_append, memmove, realloc, List.length_append, List.length_take,
    List.length_drop, List.length_replicate]
  omega

/-- Storing at most 1024 bytes at the start of a block of 1024 bytes leaves a
block of 1024 bytes. -/
theorem memmove_block (buffer data : List Nat) (hb : buffer.length = 1024)
    (hd : data.length ≤ 1024) : (memmove buffer 0 data data.length).length = 1024 := by
  simp only [memmove, List.length_append, List.length_take, List.length_drop]
  omega

/-- A call keeps the bounds on the cursors, when its `recv` in `READ` returns
at most `buffer_size` bytes. -/
theorem after_call_cursors (c : connection) (env : Env) (hok : cursors_ok c)
    (hnf : ¬ fails c env)
    (hfit : c.state = .READ → env.recv.bytes.length ≤ c.buffer_size) :
    cursors_ok (after_call c env) := by
  unfold after_call
  cases hrd : request_read c env.recv with
  | remove => exact hok
  | overrun => exact hok
  | next c1 =>
    have hst1 := request_read_state c c1 env.recv hrd
    have hw1 := request_read_written c c1 env.recv hrd
    have hsc := scan_cases c1
    have hw2 := scan_written c1
    rw [hst1] at hsc
    rw [hw1] at hw2
    simp only
    have hother : c.state = .REQUEST_WRITE ∨ c.state = .READ ∨ c.state = .WRITE →
        scan c1 = c := by
      intro hs
      have h1 : c1 = c := by
        rw [request_read_other c env.recv (by rcases hs with h | h | h <;> simp [h])] at hrd
        cases hrd; rfl
      rw [h1]
      exact scan_other c (by rcases hs with h | h | h <;> simp [h])
    obtain ⟨hk1, hk2, hk3, hk4⟩ := hok
    cases hst : (scan c1).state with
    | START =>
      simp only [hst]
      refine ⟨?_, by simp [hst], by simp [hst], by simp [hst]⟩
      intro _
      rw [hw2]
      rw [hst] at hsc
      rcases hsc with h | ⟨-, h, -⟩
      · exact hk1 (Or.inl h.symm)
      · simp at h
    | PATH =>
      simp only [hst]
      refine ⟨?_, by simp [hst], by simp [hst], by simp [hst]⟩
      intro _
      rw [hw2]
      rw [hst] at hsc
      rcases hsc with h | ⟨h, -, -⟩
      · exact hk1 (Or.inr (Or.inl h.symm))
      · exact hk1 (by rcases h with h | h | h <;> simp [h])
    | REQUEST_END =>
      simp only [hst]
      refine ⟨?_, by simp [hst], by simp [hst], by simp [hst]⟩
      intro _
      rw [hw2]
      rw [hst] at hsc
      rcases hsc with h | ⟨h, -, -⟩
      · exact hk1 (Or.inr (Or.inr (Or.inl h.symm)))
      · exact hk1 (by rcases h with h | h | h <;> simp [h])
    | CONNECT =>
      simp only [hst]
      have hw0 : (scan c1).written = 0 := by
        rw [hw2]
        rw [hst] at hsc
        rcases hsc with h | ⟨h, -, -⟩
        · exact hk1 (Or.inr (Or.inr (Or.inr h.symm)))
        · exact hk1 (by rcases h with h | h | h <;> simp [h])
      refine ⟨by simp [connected], ?_, ?_, by simp [connected]⟩
      · intro _
        simp only [connected, hw0]
        exact ⟨by omega, buffer_append_length _ _ _ _ (by decide)⟩
      · intro _
        exact ⟨rfl, by simp only [connected, malloc, List.length_replicate]⟩
    | REQUEST_WRITE =>
      have hcs : c.state = .REQUEST_WRITE := by
        rw [hst] at hsc
        rcases hsc with h | ⟨-, h, -⟩
        · exact h.symm
        · simp at h
      rw [hother (Or.inl hcs)] at hst ⊢
      simp only [hst]
      cases hsend : env.send with
      | error => exact absurd (Or.inr ⟨Or.inl hcs, hsend⟩) hnf
      | ok amount =>
        simp only
        split
        · refine ⟨by simp, by simp, ?_, by simp⟩
          intro _
          exact hk3 (Or.inl hcs)
        · rename_i hlt
          refine ⟨by simp [advanced, hcs], ?_, ?_, by simp [advanced, hcs]⟩
          · intro _
            simp only [advanced] at hlt ⊢
            exact ⟨by omega, (hk2 hcs).2⟩
          · intro _
            exact hk3 (Or.inl hcs)
    | READ =>
      have hcs : c.state = .READ := by
        rw [hst] at hsc
        rcases hsc with h | ⟨-, h, -⟩
        · exact h.symm
        · simp at h
      rw [hother (Or.inr (Or.inl hcs))] at hst ⊢
      simp only [hst]
      have hpos : 0 < env.recv.amount := by
        by_contra hle
        exact hnf (Or.inl ⟨by simp [hcs], by omega⟩)
      obtain ⟨data, hdata, hd⟩ := recv_pos env.recv hpos
      have hfit2 := hfit hcs
      obtain ⟨hb1, hb2⟩ := hk3 (Or.inr (Or.inl hcs))
      rw [hdata] at hfit2 ⊢
      simp only [recv_result.bytes] at hfit2 ⊢
      refine ⟨by simp [filled], by simp [filled], ?_, ?_⟩
      · intro _
        exact ⟨hb1, memmove_block _ _ hb2 (by omega)⟩
      · intro _
        simp only [filled]
        exact ⟨by omega, by omega⟩
    | WRITE =>
      have hcs : c.state = .WRITE := by
        rw [hst] at hsc
        rcases hsc with h | ⟨-, h, -⟩
        · exact h.symm
        · simp at h
      rw [hother (Or.inr (Or.inr hcs))] at hst ⊢
      simp only [hst]
      cases hsend : env.send with
      | error => exact absurd (Or.inr ⟨Or.inr hcs, hsend⟩) hnf
      | ok amount =>
        simp only
        split
        · refine ⟨by simp [drained], by simp [drained], ?_, by simp [drained]⟩
          intro _
          exact hk3 (Or.inr (Or.inr hcs))
        · rename_i hlt
          refine ⟨by simp [advanced, hcs], by simp [advanced, hcs], ?_, ?_⟩
          · intro _
            exact hk3 (Or.inr (Or.inr hcs))
          · intro _
            simp only [advanced] at hlt ⊢
            exact ⟨by omega, (hk4 hcs).2⟩

/-- The connections left by `remove_connection` were in the table. -/
theorem remove_connection_mem (g g2 : Globals) (index : Nat)
    (h : remove_connection g index = .running g2) : ∀ c ∈ g2.connections, c ∈ g.connections := by
  cases hc : g.connections[index]? with
  | none => simp [remove_connection, hc] at h
  | some c =>
    by_cases hidx : get_socket_index g c.sock < g.sockets.length
    · obtain ⟨lastS, lastC, hlS, hlC, hrm⟩ := remove_connection_running g index c hc hidx
      rw [hrm] at h
      simp only [Outcome.running.injEq] at h
      rw [← h]
      intro c2 hc2
      exact swap_remove_mem g.connections index lastC (List.getElem?_eq_some_iff.1 hc).1 hlC c2 hc2
    · have hle := @List.findIdx_le_length pollfd (fun s : pollfd => s.fd == c.sock) g.sockets
      have heq : get_socket_index g c.sock = g.sockets.length := by
        simp only [get_socket_index] at hidx ⊢
        omega
      have hne : g.connections ≠ [] := by
        intro h; rw [h] at hc; simp at hc
      simp [remove_connection, hc, List.getLast?_eq_getLast _ hne, heq] at h

/-- One call of the event loop keeps the bounds on the cursors of every
connection. -/
theorem cursors_step (g g2 : Globals) (o : op) (hop : apply_op g o = .running g2)
    (hfit : recv_fits g o = true) (hok : ∀ c ∈ g.connections, cursors_ok c) :
    ∀ c ∈ g2.connections, cursors_ok c := by
  cases o with
  | add sock =>
    simp only [apply_op, Outcome.running.injEq] at hop
    rw [← hop]
    intro c hc
    simp only [add_connection, add_socket, List.mem_append, List.mem_singleton] at hc
    rcases hc with hc | rfl
    · exact hok c hc
    · simp [cursors_ok, new_connection]
  | remove index =>
    intro c hc
    exact hok c (remove_connection_mem g g2 index hop c hc)
  | handle index env =>
    simp only [apply_op] at hop
    cases hc0 : g.connections[index]? with
    | none => simp [handle_connection, hc0] at hop
    | some c0 =>
      simp only [recv_fits, hc0, decide_eq_true_eq] at hfit
      rcases handle_running g g2 index env c0 hc0 hop with ⟨-, hrm⟩ | ⟨hnf, hcs, -⟩
      · intro c hc
        exact hok c (remove_connection_mem g g2 index hrm c hc)
      · intro c hc
        rw [hcs] at hc
        rcases List.mem_or_eq_of_mem_set hc with h | rfl
        · exact hok c h
        · exact after_call_cursors c0 env (hok c0 (List.getElem?_mem hc0)) hnf hfit

/-- A run of calls of the event loop keeps the bounds on the cursors of every
connection. -/
theorem cursors_run : ∀ (ops : List op) (g g2 : Globals), run_ops g ops = .running g2 →
    recvs_fit g ops = true → (∀ c ∈ g.connections, cursors_ok c) →
    ∀ c ∈ g2.connections, cursors_ok c
  | [], g, g2, hrun, _, hok => by
    simp only [run_ops, Outcome.running.injEq] at hrun
    rw [← hrun]; exact hok
  | o :: rest, g, g2, hrun, hfit, hok => by
    simp only [run_ops] at hrun
    simp only [recvs_fit, Bool.and_eq_true] at hfit
    cases hop : apply_op g o with
    | running g1 =>
      rw [hop] at hrun
      simp only [hop] at hfit
      exact cursors_run rest g1 g2 hrun hfit.2 (cursors_step g g1 o hop hfit.1 hok)
    | exited g1 st => rw [hop] at hrun; cases hrun
    | undefined => rw [hop] at hrun; cases hrun

/-- The subtraction `a - b` of two `size_t` does not exceed the difference
when `b` is below `a`. -/
theorem size_sub_le (a b : Nat) (h : b < a) : size_sub a b ≤ a - b := by
  simp only [size_sub]
  omega

/-- C20: in every state reached from a state without connections by calls of
`add_connection`, `handle_connection` and `remove_connection` in which every
`recv` of the relay returned at most the capacity it was given, a connection
in `WRITE` has `written < read ≤ buffer_size = 1024`, one in `REQUEST_WRITE`
has `written < path_size`; so neither subtraction wraps, and the bytes offered
to `send` lie inside the relay buffer (a block of 1024 bytes) and inside the
block of the selector. -/
theorem cursor_bounds (g0 g : Globals) (ops : List op) (hinit : g0.connections = [])
    (hfit : recvs_fit g0 ops = true) (hrun : run_ops g0 ops = .running g) :
    ∀ c ∈ g.connections,
      (c.state = .WRITE →
        c.written < c.read ∧ c.read ≤ c.buffer_size ∧ c.buffer_size = 1024 ∧
        size_sub c.read c.written = c.read - c.written ∧
        c.written + size_sub c.read c.written ≤ c.buffer.length) ∧
      (c.state = .REQUEST_WRITE →
        c.written < c.path_size ∧ size_sub c.path_size c.written ≤ c.path_size - c.written ∧
        c.written + size_sub c.path_size c.written ≤ c.path.length) := by
  intro c hc
  have hok := cursors_run ops g0 g hrun hfit (by rw [hinit]; simp) c hc
  obtain ⟨-, hk2, hk3, hk4⟩ := hok
  constructor
  · intro hs
    obtain ⟨h1, h2⟩ := hk4 hs
    obtain ⟨h3, h4⟩ := hk3 (Or.inr (Or.inr hs))
    have h5 := size_sub_eq c.read c.written (by omega) (by omega)
    exact ⟨h1, h2, h3, h5, by omega⟩
  · intro hs
    obtain ⟨h1, h2⟩ := hk2 hs
    have h5 := size_sub_le c.path_size c.written h1
    exact ⟨h1, h5, by omega⟩

/-- C20 at a session stopped after 5 of the 13 bytes of a reply were
written. -/
theorem cursor_bounds_witness :
    (demo_listener.connections = []) ∧ (recvs_fit demo_listener demo_partial = true) ∧
    (run_ops demo_listener demo_partial = .running demo_midway) ∧
    ∀ c ∈ demo_midway.connections,
      (c.state = .WRITE →
        c.written < c.read ∧ c.read ≤ c.buffer_size ∧ c.buffer_size = 1024 ∧
        size_sub c.read c.written = c.read - c.written ∧
        c.written + size_sub c.read c.written ≤ c.buffer.length) ∧
      (c.state = .REQUEST_WRITE →
        c.written < c.path_size ∧ size_sub c.path_size c.written ≤ c.path_size - c.written ∧
        c.written + size_sub c.path_size c.written ≤ c.path.length) :=
  ⟨rfl, rfl, rfl, cursor_bounds demo_listener demo_midway demo_partial rfl rfl rfl⟩

/-! ## The direction of the relay -/

/-- The value `connect_to_remote` returns is `-1` or the socket of one of the
attempts. -/
theorem connect_fd_mem (results : List addr_attempt) :
    connect_fd results = -1 ∨ ∃ a ∈ results, a.sock = connect_fd results := by
  induction results with
  | nil => left; rfl
  | cons a rest ih =>
    simp only [connect_fd]
    split
    · rcases ih with h | ⟨b, hb, h⟩
      · left; exact h
      · right; exact ⟨b, List.mem_cons_of_mem _ hb, h⟩
    · right; exact ⟨a, List.mem_cons_self _ _, rfl⟩

/-- The socket the `CONNECT` block stores is not the client, when no attempt
of the resolver got the descriptor of the client. -/
theorem connect_fd_fresh (results : List addr_attempt) (client : Int) (hclient : client ≠ -1)
    (hfresh : ∀ a ∈ results, a.sock ≠ client ∧ -2 ^ 31 ≤ a.sock ∧ a.sock < 2 ^ 31) :
    size_to_int (int_to_size (connect_fd results)) ≠ client := by
  rcases connect_fd_mem results with h | ⟨a, ha, h⟩
  · rw [h, minus_one_round]; exact fun e => hclient e.symm
  · obtain ⟨h1, h2, h3⟩ := hfresh a ha
    rw [← h, int_size_int a.sock h2 h3]; exact h1

/-- A call keeps the two sockets of a connection where `oriented` says. -/
theorem after_call_oriented (c : connection) (env : Env) (client : Int)
    (hor : oriented client c) (hnf : ¬ fails c env) (hclient : client ≠ -1)
    (hfresh : ∀ a ∈ env.remote.results, a.sock ≠ client ∧ -2 ^ 31 ≤ a.sock ∧ a.sock < 2 ^ 31) :
    oriented client (after_call c env) := by
  unfold after_call
  cases hrd : request_read c env.recv with
  | remove => exact hor
  | overrun => exact hor
  | next c1 =>
    have hst1 := request_read_state c c1 env.recv hrd
    obtain ⟨hs1, ho1⟩ := request_read_socks c c1 env.recv hrd
    obtain ⟨hs2, ho2⟩ := scan_socks c1
    rw [← scan] at hs2 ho2
    rw [hs1] at hs2
    rw [ho1] at ho2
    have hsc := scan_cases c1
    rw [hst1] at hsc
    simp only
    have hother : c.state = .REQUEST_WRITE ∨ c.state = .READ ∨ c.state = .WRITE →
        scan c1 = c := by
      intro hs
      have h1 : c1 = c := by
        rw [request_read_other c env.recv (by rcases hs with h | h | h <;> simp [h])] at hrd
        cases hrd; rfl
      rw [h1]
      exact scan_other c (by rcases hs with h | h | h <;> simp [h])
    obtain ⟨hk1, hk2, hk3⟩ := hor
    have hearly : (scan c1).state = .START ∨ (scan c1).state = .PATH ∨
        (scan c1).state = .REQUEST_END ∨ (scan c1).state = .CONNECT → (scan c1).sock = client := by
      intro hs
      rw [hs2]
      apply hk1
      rcases hsc with h | ⟨h, -, -⟩
      · rw [← h]; exact hs
      · rcases h with h | h | h <;> simp [h]
    cases hst : (scan c1).state with
    | START =>
      simp only [hst]
      exact ⟨fun _ => hearly (by simp [hst]), by simp [hst], by simp [hst]⟩
    | PATH =>
      simp only [hst]
      exact ⟨fun _ => hearly (by simp [hst]), by simp [hst], by simp [hst]⟩
    | REQUEST_END =>
      simp only [hst]
      exact ⟨fun _ => hearly (by simp [hst]), by simp [hst], by simp [hst]⟩
    | CONNECT =>
      simp only [hst]
      refine ⟨by simp [connected], ?_, by simp [connected]⟩
      intro _
      exact ⟨hearly (by simp [hst]), connect_fd_fresh _ client hclient hfresh⟩
    | REQUEST_WRITE =>
      have hcs : c.state = .REQUEST_WRITE := by
        rw [hst] at hsc
        rcases hsc with h | ⟨-, h, -⟩
        · exact h.symm
        · simp at h
      rw [hother (Or.inl hcs)] at hst ⊢
      simp only [hst]
      cases hsend : env.send with
      | error => exact absurd (Or.inr ⟨Or.inl hcs, hsend⟩) hnf
      | ok amount =>
        simp only
        split
        · exact ⟨by simp, fun _ => hk2 (Or.inl hcs), by simp⟩
        · exact ⟨by simp [advanced, hcs], fun _ => hk2 (Or.inl hcs), by simp [advanced, hcs]⟩
    | READ =>
      have hcs : c.state = .READ := by
        rw [hst] at hsc
        rcases hsc with h | ⟨-, h, -⟩
        · exact h.symm
        · simp at h
      rw [hother (Or.inr (Or.inl hcs))] at hst ⊢
      simp only [hst]
      exact ⟨by simp [filled], by simp [filled], fun _ => hk2 (Or.inr hcs)⟩
    | WRITE =>
      have hcs : c.state = .WRITE := by
        rw [hst] at hsc
        rcases hsc with h | ⟨-, h, -⟩
        · exact h.symm
        · simp at h
      rw [hother (Or.inr (Or.inr hcs))] at hst ⊢
      simp only [hst]
      cases hsend : env.send with
      | error => exact absurd (Or.inr ⟨Or.inr hcs, hsend⟩) hnf
      | ok amount =>
        simp only
        split
        · exact ⟨by simp [drained], fun _ => hk3 hcs, by simp [drained]⟩
        · exact ⟨by simp [advanced, hcs], by simp [advanced, hcs], fun _ => hk3 hcs⟩

/-- A call in `READ` that returns without removing the connection logged one
`recv`, on the active socket, and no `send`. -/
theorem read_call_logs (g g2 : Globals) (index : Nat) (env : Env) (c : connection)
    (hc : g.connections[index]? = some c) (hs : c.state = .READ)
    (hrun : handle_connection g index env = .running g2) (hnf : ¬ fails c env) :
    g2.received = g.received ++ [(c.sock, env.recv.bytes)] ∧ g2.sent = g.sent := by
  rw [handle_read g index env c hc hs] at hrun
  have hpos : 0 < env.recv.amount := by
    by_contra hle
    exact hnf (Or.inl ⟨by simp [hs], by omega⟩)
  obtain ⟨data, hdata, hd⟩ := recv_pos env.recv hpos
  have hn1 : ¬ ((data.length : Int) = -1) := by omega
  have hn2 : ¬ ((data.length : Int) = 0) := by omega
  simp only [read_block, hdata, recv_result.amount, recv_result.bytes, hn1, hn2, if_false,
    Int.toNat_ofNat] at hrun ⊢
  cases hch : socket_change { g with received := g.received ++ [(c.sock, data)] }
      c.sock c.sock_other POLLOUT with
  | running g3 =>
    rw [hch] at hrun
    simp only [Outcome.running.injEq] at hrun
    obtain ⟨-, -, -, -, h5, h6, -⟩ := socket_change_on _ g _ _ _ _ (by exact rfl) hch
    rw [← hrun]
    exact ⟨by simp [store, h6], by simp [store, h5]⟩
  | exited g3 st => rw [hch] at hrun; cases hrun
  | undefined => rw [hch] at hrun; cases hrun

/-- A call in `REQUEST_WRITE` or `WRITE` that returns without removing the
connection logged one `send`, on the active socket, and no `recv`. -/
theorem write_call_logs (g g2 : Globals) (index : Nat) (env : Env) (c : connection)
    (hc : g.connections[index]? = some c) (hs : c.state = .REQUEST_WRITE ∨ c.state = .WRITE)
    (hrun : handle_connection g index env = .running g2) (hnf : ¬ fails c env) :
    (∃ bytes, g2.sent = g.sent ++ [(c.sock, bytes)]) ∧ g2.received = g.received := by
  cases hsend : env.send with
  | error => exact absurd (Or.inr ⟨hs, hsend⟩) hnf
  | ok amount =>
    rcases hs with hs | hs
    · rw [handle_request_write g index env c hc hs] at hrun
      simp only [hsend, request_write_block] at hrun
      split at hrun
      · cases hch : socket_change
            { g with sent := g.sent ++ [(c.sock, List.take amount
              (List.take (size_sub c.path_size c.written) (List.drop c.written c.path)))] }
            c.sock c.sock POLLIN with
        | running g3 =>
          rw [hch] at hrun
          simp only [Outcome.running.injEq] at hrun
          obtain ⟨-, -, -, -, h5, h6, -⟩ := socket_change_on _ g _ _ _ _ (by exact rfl) hch
          rw [← hrun]
          exact ⟨⟨_, h5⟩, by simp [store, h6]⟩
        | exited g3 st => rw [hch] at hrun; cases hrun
        | undefined => rw [hch] at hrun; cases hrun
      · simp only [Outcome.running.injEq] at hrun
        rw [← hrun]
        exact ⟨⟨_, rfl⟩, rfl⟩
    · rw [handle_write g index env c hc hs] at hrun
      simp only [hsend, write_block] at hrun
      split at hrun
      · cases hch : socket_change
            { g with sent := g.sent ++ [(c.sock, List.take amount
              (List.take (size_sub c.read c.written) (List.drop c.written c.buffer)))] }
            c.sock c.sock_other POLLIN with
        | running g3 =>
          rw [hch] at hrun
          simp only [Outcome.running.injEq] at hrun
          obtain ⟨-, -, -, -, h5, h6, -⟩ := socket_change_on _ g _ _ _ _ (by exact rfl) hch
          rw [← hrun]
          exact ⟨⟨_, h5⟩, by simp [store, h6]⟩
        | exited g3 st => rw [hch] at hrun; cases hrun
        | undefined => rw [hch] at hrun; cases hrun
      · simp only [Outcome.running.injEq] at hrun
        rw [← hrun]
        exact ⟨⟨_, rfl⟩, rfl⟩

/-- The table of connections is one entry shorter after `remove_connection`. -/
theorem remove_connection_length (g g2 : Globals) (index : Nat)
    (h : remove_connection g index = .running g2) :
    g2.connections.length = g.connections.length - 1 := by
  cases hc : g.connections[index]? with
  | none => simp [remove_connection, hc] at h
  | some c =>
    by_cases hidx : get_socket_index g c.sock < g.sockets.length
    · obtain ⟨lastS, lastC, hlS, hlC, hrm⟩ := remove_connection_running g index c hc hidx
      rw [hrm] at h
      simp only [Outcome.running.injEq] at h
      rw [← h]
      exact swap_remove_length _ _ _
    · have hle := @List.findIdx_le_length pollfd (fun s : pollfd => s.fd == c.sock) g.sockets
      have heq : get_socket_index g c.sock = g.sockets.length := by
        simp only [get_socket_index] at hidx ⊢
        omega
      have hne : g.connections ≠ [] := by
        intro h; rw [h] at hc; simp at hc
      simp [remove_connection, hc, List.getLast?_eq_getLast _ hne, heq] at h

/-- A call in `READ` that reads bytes leaves the record `filled`. -/
theorem after_call_read (c : connection) (env : Env) (hs : c.state = .READ) :
    after_call c env = filled c env.recv.bytes := by
  have h1 := request_read_other c env.recv (Or.inr (Or.inr (Or.inl hs)))
  have h2 := scan_other c (Or.inr (Or.inr (Or.inl hs)))
  rw [← scan] at h2
  simp only [after_call, h1, h2, hs]

/-- A connection alone in the table stays `oriented` over a run of calls, as
long as it is there. -/
theorem run_oriented (client : Int) (hclient : client ≠ -1) :
    ∀ (envs : List Env) (g g2 : Globals),
    (g.connections = [] ∨ ∃ c, g.connections = [c] ∧ oriented client c) →
    (∀ e ∈ envs, ∀ a ∈ e.remote.results,
      a.sock ≠ client ∧ -2 ^ 31 ≤ a.sock ∧ a.sock < 2 ^ 31) →
    run g 0 envs = .running g2 →
    (g2.connections = [] ∨ ∃ c, g2.connections = [c] ∧ oriented client c)
  | [], g, g2, hg, _, hrun => by
    simp only [run, Outcome.running.injEq] at hrun
    rw [← hrun]; exact hg
  | e :: rest, g, g2, hg, hf, hrun => by
    simp only [run] at hrun
    cases hop : handle_connection g 0 e with
    | running g1 =>
      rw [hop] at hrun
      refine run_oriented client hclient rest g1 g2 ?_
        (fun x hx => hf x (List.mem_cons_of_mem _ hx)) hrun
      rcases hg with hg | ⟨c, hg, hor⟩
      · simp [handle_connection, hg] at hop
      · have hc : g.connections[0]? = some c := by rw [hg]; rfl
        rcases handle_running g g1 0 e c hc hop with ⟨-, hrm⟩ | ⟨hnf, hcs, -⟩
        · left
          have hlen := remove_connection_length g g1 0 hrm
          rw [hg] at hlen
          exact List.length_eq_zero.1 (by simpa using hlen)
        · right
          refine ⟨after_call c e, by rw [hcs, hg]; rfl, ?_⟩
          exact after_call_oriented c e client hor hnf hclient (hf e (List.mem_cons_self _ _))
    | exited g1 st => rw [hop] at hrun; cases hrun
    | undefined => rw [hop] at hrun; cases hrun

/-- C13, as the code has it: a connection accepted on `client` whose sockets
are where `oriented` says keeps them so over a call that does not remove it
(a fresh record is `oriented`); a `READ` step reads from the active socket,
which is not the client, and leaves the connection in `WRITE` with the client
as active socket; a `WRITE` step writes to the client only, and when it goes
back to `READ` the active socket again is not the client; the selector too is
written to the socket that is not the client. The relay runs from the remote
to the client, never the other way. -/
theorem relay_one_way (g g2 : Globals) (index : Nat) (env : Env) (c : connection)
    (client : Int) (hc : g.connections[index]? = some c) (hor : oriented client c)
    (hclient : client ≠ -1)
    (hfresh : ∀ a ∈ env.remote.results, a.sock ≠ client ∧ -2 ^ 31 ≤ a.sock ∧ a.sock < 2 ^ 31)
    (hrun : handle_connection g index env = .running g2) (hnf : ¬ fails c env) :
    oriented client (new_connection client) ∧
    ∃ c2, g2.connections[index]? = some c2 ∧ oriented client c2 ∧
      (c.state = .READ →
        c.sock ≠ client ∧ g2.received = g.received ++ [(c.sock, env.recv.bytes)] ∧
        g2.sent = g.sent ∧ c2.state = .WRITE ∧ c2.sock = client) ∧
      (c.state = .WRITE →
        (∃ bytes, g2.sent = g.sent ++ [(client, bytes)]) ∧ g2.received = g.received ∧
        (c2.state = .READ → c2.sock ≠ client)) ∧
      (c.state = .REQUEST_WRITE →
        c.sock ≠ client ∧ (∃ bytes, g2.sent = g.sent ++ [(c.sock, bytes)]) ∧
        g2.received = g.received) := by
  refine ⟨by simp [oriented, new_connection], ?_⟩
  have hi : index < g.connections.length := (List.getElem?_eq_some_iff.1 hc).1
  rcases handle_running g g2 index env c hc hrun with ⟨hf, -⟩ | ⟨-, hcs, -⟩
  · exact absurd hf hnf
  have hor2 := after_call_oriented c env client hor hnf hclient hfresh
  refine ⟨after_call c env, by rw [hcs, List.getElem?_set_eq_of_lt _ hi], hor2, ?_, ?_, ?_⟩
  · intro hs
    obtain ⟨h1, h2⟩ := read_call_logs g g2 index env c hc hs hrun hnf
    have hw : (after_call c env).state = .WRITE := by rw [after_call_read c env hs]; rfl
    exact ⟨(hor.2.1 (Or.inr hs)).2, h1, h2, hw, (hor2.2.2 hw).1⟩
  · intro hs
    obtain ⟨h1, h2⟩ := write_call_logs g g2 index env c hc (Or.inr hs) hrun hnf
    rw [(hor.2.2 hs).1] at h1
    exact ⟨h1, h2, fun hr => (hor2.2.1 (Or.inr hr)).2⟩
  · intro hs
    obtain ⟨h1, h2⟩ := write_call_logs g g2 index env c hc (Or.inl hs) hrun hnf
    exact ⟨(hor.2.1 (Or.inl hs)).2, h1, h2⟩

/-- C13 as stated fails: in no run of calls on a connection accepted on a
descriptor `client`, alone in the table, is the connection ever in `READ`
with the client as the socket to read from (the resolver never gets the
descriptor of the client, which is open, and descriptors are values of
`int`). -/
theorem relay_never_reads_client :
    ¬ ∃ (g g2 : Globals) (client : Int) (envs : List Env) (c2 : connection),
      g.connections = [new_connection client] ∧ client ≠ -1 ∧
      (∀ e ∈ envs, ∀ a ∈ e.remote.results,
        a.sock ≠ client ∧ -2 ^ 31 ≤ a.sock ∧ a.sock < 2 ^ 31) ∧
      run g 0 envs = .running g2 ∧ g2.connections[0]? = some c2 ∧
      c2.state = .READ ∧ c2.sock = client := by
  rintro ⟨g, g2, client, envs, c2, hg, hclient, hf, hrun, hc2, hs, hsock⟩
  have h := run_oriented client hclient envs g g2
    (Or.inr ⟨_, hg, by simp [oriented, new_connection]⟩) hf hrun
  rcases h with h | ⟨c, h, hor⟩
  · rw [h] at hc2; simp at hc2
  · rw [h] at hc2
    simp only [List.getElem?_cons_zero, Option.some.injEq] at hc2
    rw [hc2] at hor
    exact (hor.2.1 (Or.inr hs)).2 hsock

/-- C13 at the reply of the remote (descriptor 5) read for the client
(descriptor 4). -/
theorem relay_one_way_witness :
    (demo_reading.connections[0]? = some demo_reading_conn) ∧
    oriented 4 demo_reading_conn ∧ ((4 : Int) ≠ -1) ∧
    (∀ a ∈ (demo_recv demo_reply).remote.results,
      a.sock ≠ 4 ∧ -2 ^ 31 ≤ a.sock ∧ a.sock < 2 ^ 31) ∧
    (handle_connection demo_reading 0 (demo_recv demo_reply)
      = .running (store (retargeted (logged demo_reading 5 demo_reply) 1 4 POLLOUT) 0
          (filled demo_reading_conn demo_reply))) ∧
    ¬ fails demo_reading_conn (demo_recv demo_reply) ∧
    (oriented 4 (new_connection 4) ∧
    ∃ c2, (store (retargeted (logged demo_reading 5 demo_reply) 1 4 POLLOUT) 0
        (filled demo_reading_conn demo_reply)).connections[0]? = some c2 ∧ oriented 4 c2 ∧
      (demo_reading_conn.state = .READ →
        demo_reading_conn.sock ≠ 4 ∧
        (store (retargeted (logged demo_reading 5 demo_reply) 1 4 POLLOUT) 0
          (filled demo_reading_conn demo_reply)).received
          = demo_reading.received ++ [(demo_reading_conn.sock, (demo_recv demo_reply).recv.bytes)] ∧
        (store (retargeted (logged demo_reading 5 demo_reply) 1 4 POLLOUT) 0
          (filled demo_reading_conn demo_reply)).sent = demo_reading.sent ∧
        c2.state = .WRITE ∧ c2.sock = 4) ∧
      (demo_reading_conn.state = .WRITE →
        (∃ bytes, (store (retargeted (logged demo_reading 5 demo_reply) 1 4 POLLOUT) 0
          (filled demo_reading_conn demo_reply)).sent = demo_reading.sent ++ [(4, bytes)]) ∧
        (store (retargeted (logged demo_reading 5 demo_reply) 1 4 POLLOUT) 0
          (filled demo_reading_conn demo_reply)).received = demo_reading.received ∧
        (c2.state = .READ → c2.sock ≠ 4)) ∧
      (demo_reading_conn.state = .REQUEST_WRITE →
        demo_reading_conn.sock ≠ 4 ∧
        (∃ bytes, (store (retargeted (logged demo_reading 5 demo_reply) 1 4 POLLOUT) 0
          (filled demo_reading_conn demo_reply)).sent
            = demo_reading.sent ++ [(demo_reading_conn.sock, bytes)]) ∧
        (store (retargeted (logged demo_reading 5 demo_reply) 1 4 POLLOUT) 0
          (filled demo_reading_conn demo_reply)).received = demo_reading.received)) :=
  ⟨rfl, by decide, by decide, by decide, rfl, by decide,
    relay_one_way demo_reading _ 0 (demo_recv demo_reply) demo_reading_conn 4 rfl (by decide)
      (by decide) (by decide) rfl (by decide)⟩

/-! ## Parsing a port -/

/-- C14 fails at the string `"65536"`: `parse_port` returns `65536`, a value
outside `0..65535`, where the claim has it return `-1`; the test of the range
is `port > 1<<16`. The neighbours behave as claimed: `"65535"` gives `65535`,
`"65537"`, `"-1"`, `"80x"` and the empty string give `-1`. -/
theorem parse_port_accepts_65536 :
    parse_port [54, 53, 53, 51, 54] = 65536 ∧
    parse_port [54, 53, 53, 51, 53] = 65535 ∧
    parse_port [54, 53, 53, 51, 55] = -1 ∧
    parse_port [45, 49] = -1 ∧
    parse_port [56, 48, 120] = -1 ∧
    parse_port [] = -1 := by
  decide

/-- On a plain decimal numeral `parse_port` returns the value, up to and
including `65536`, and `-1` above. -/
theorem parse_port_numeral (ds : List Nat) (hne : ds ≠ []) (hd : ∀ d ∈ ds, isdigit d = true) :
    parse_port ds = if digits_value ds ≤ 65536 then (digits_value ds : Int) else -1 := by
  obtain ⟨d, t, rfl⟩ := List.exists_cons_of_ne_nil hne
  have hd0 := hd d (List.mem_cons_self _ _)
  have hrange : 48 ≤ d ∧ d ≤ 57 := by simpa [isdigit] using hd0
  have hsp : isspace d = false := by
    simp only [isspace, Bool.or_eq_false_iff, decide_eq_false_iff_not, Bool.and_eq_false_iff]
    omega
  have h1 : (d :: t).dropWhile isspace = d :: t := by
    simp [List.dropWhile_cons, hsp]
  have h2 : (d :: t).takeWhile isdigit = d :: t := List.takeWhile_eq_self_iff.2 hd
  have h3 : (d :: t).dropWhile isdigit = [] := List.dropWhile_eq_nil_iff.2 hd
  have hm : ¬ (d = 45) := by omega
  have hp : ¬ (d = 43) := by omega
  simp only [parse_port, strtol, h1, List.head?_cons, Option.some.injEq, hm, hp, or_self, if_false,
    h2, h3, decide_False, Bool.false_eq_true]
  generalize digits_value (d :: t) = n
  have h16 : ((1 <<< 16 : Nat) : Int) = 65536 := by decide
  have hM : LONG_MAX = 2 ^ 63 - 1 := rfl
  have hL : LONG_MIN = -2 ^ 63 := rfl
  rw [h16]
  simp only [ne_eq, not_true_eq_false, if_false, reduceCtorEq]
  by_cases hn : n ≤ 65536
  · have hmin : min LONG_MAX (n : Int) = n := min_eq_right (by omega)
    have hmax : max LONG_MIN (n : Int) = n := max_eq_right (by omega)
    rw [hmin, hmax, if_pos hn, if_neg (by omega)]
  · have hmin : (65537 : Int) ≤ min LONG_MAX (n : Int) := le_min (by omega) (by omega)
    have hmax : (65537 : Int) ≤ max LONG_MIN (min LONG_MAX (n : Int)) :=
      le_trans hmin (le_max_right _ _)
    rw [if_neg hn, if_pos (Or.inr (by omega))]

/-! ## The scan buffer of `REQUEST_END` -/

/-- An occurrence `memchr` finds lies among the first `n` bytes. -/
theorem memchr_lt (c : Nat) : ∀ (s : List Nat) (n i : Nat), memchr s c n = some i → i < n
  | [], _, _, h => by simp [memchr] at h
  | _ :: _, 0, _, h => by simp [memchr] at h
  | b :: t, n + 1, i, h => by
    simp only [memchr] at h
    split at h
    · simp only [Option.some.injEq] at h; omega
    · cases hm : memchr t c n with
      | none => simp [hm] at h
      | some j =>
        simp only [hm, Option.map_some', Option.some.injEq] at h
        have := memchr_lt c t n j hm
        omega

/-- The `PATH` check hands one to four bytes to `REQUEST_END`. -/
theorem path_check_window (c : connection) (hs : c.state ≠ .REQUEST_END)
    (h : (path_check c).state = .REQUEST_END) :
    1 ≤ (path_check c).buffer_size ∧ (path_check c).buffer_size ≤ 4 := by
  unfold path_check at h ⊢
  split at h
  · rename_i hp
    simp only [hp, if_true]
    cases hm : memchr c.buffer SP c.buffer_size with
    | none => simp only [hm] at h; exact absurd h hs
    | some path_end =>
      have hlt := memchr_lt SP c.buffer c.buffer_size path_end hm
      simp only
      split <;> omega
  · exact absurd h hs

/-- The `REQUEST_END` check changes the buffer only when it leaves the
state. -/
theorem request_end_check_window (c : connection)
    (h : (request_end_check c).state = .REQUEST_END) : request_end_check c = c := by
  unfold request_end_check at h ⊢
  split
  · split
    · rename_i h1 h2
      simp [h1, h2] at h
    · rfl
  · rfl

/-- A call keeps the scan buffer of `REQUEST_END` at one to four bytes. -/
theorem after_call_window (c : connection) (env : Env) (hok : window_ok c) :
    window_ok (after_call c env) := by
  intro hs
  by_cases hre : c.state = .REQUEST_END
  · have hb := hok hre
    have hsame : after_call c env = c := by
      unfold after_call
      cases hrd : request_read c env.recv with
      | remove => rfl
      | overrun => rfl
      | next c1 =>
        exfalso
        unfold request_read at hrd
        simp only [hre, reduceCtorEq, or_self, if_false, if_true] at hrd
        split at hrd
        · cases hrd
        · rename_i ha
          have hov : 1024 < 1024 * c.buffer_size + env.recv.amount.toNat := by omega
          simp only [hov, if_true] at hrd
          cases hrd
    rw [hsame]; exact hb
  · unfold after_call at hs ⊢
    cases hrd : request_read c env.recv with
    | remove => rw [hrd] at hs; exact absurd hs hre
    | overrun => rw [hrd] at hs; exact absurd hs hre
    | next c1 =>
      rw [hrd] at hs
      simp only at hs ⊢
      have hst1 := request_read_state c c1 env.recv hrd
      cases hst : (scan c1).state with
      | REQUEST_END =>
        simp only [hst] at hs ⊢
        unfold scan at hst ⊢
        have hrw := request_end_check_window _ hst
        rw [hrw] at hst ⊢
        have hsc := start_check_state c1
        have hne : (start_check c1).state ≠ .REQUEST_END := by
          rcases hsc with h | ⟨-, h⟩
          · rw [h, hst1]; exact hre
          · rw [h]; simp
        exact path_check_window _ hne hst
      | START => simp [hst] at hs
      | PATH => simp [hst] at hs
      | CONNECT => simp [hst, connected] at hs
      | REQUEST_WRITE =>
        simp only [hst] at hs
        cases hsend : env.send with
        | error => simp [hsend, hst] at hs
        | ok amount =>
          simp only [hsend] at hs
          split at hs
          · simp at hs
          · simp [advanced, hst] at hs
      | READ => simp [hst, filled] at hs
      | WRITE =>
        simp only [hst] at hs
        cases hsend : env.send with
        | error => simp [hsend, hst] at hs
        | ok amount =>
          simp only [hsend] at hs
          split at hs
          · simp [drained] at hs
          · simp [advanced, hst] at hs

/-- A property of records that fresh records have and calls keep holds for
every connection after a run of calls of the event loop. -/
theorem records_run (P : connection → Prop) (hnew : ∀ sock, P (new_connection sock))
    (hstep : ∀ c env, P c → ¬ fails c env → P (after_call c env)) :
    ∀ (ops : List op) (g g2 : Globals), run_ops g ops = .running g2 →
    (∀ c ∈ g.connections, P c) → ∀ c ∈ g2.connections, P c
  | [], g, g2, hrun, hok => by
    simp only [run_ops, Outcome.running.injEq] at hrun
    rw [← hrun]; exact hok
  | o :: rest, g, g2, hrun, hok => by
    simp only [run_ops] at hrun
    cases hop : apply_op g o with
    | running g1 =>
      rw [hop] at hrun
      refine records_run P hnew hstep rest g1 g2 hrun ?_
      cases o with
      | add sock =>
        simp only [apply_op, Outcome.running.injEq] at hop
        rw [← hop]
        intro c hc
        simp only [add_connection, add_socket, List.mem_append, List.mem_singleton] at hc
        rcases hc with hc | rfl
        · exact hok c hc
        · exact hnew sock
      | remove index =>
        intro c hc
        exact hok c (remove_connection_mem g g1 index hop c hc)
      | handle index env =>
        simp only [apply_op] at hop
        cases hc0 : g.connections[index]? with
        | none => simp [handle_connection, hc0] at hop
        | some c0 =>
          rcases handle_running g g1 index env c0 hc0 hop with ⟨-, hrm⟩ | ⟨hnf, hcs, -⟩
          · intro c hc
            exact hok c (remove_connection_mem g g1 index hrm c hc)
          · intro c hc
            rw [hcs] at hc
            rcases List.mem_or_eq_of_mem_set hc with h | rfl
            · exact hok c h
            · exact hstep c0 env (hok c0 (List.getElem?_mem hc0)) hnf
    | exited g1 st => rw [hop] at hrun; cases hrun
    | undefined => rw [hop] at hrun; cases hrun

/-- In every state reached from a state without connections, a connection in
`REQUEST_END` holds one to four bytes in its scan buffer, and a read that
delivers bytes to it stores them outside the local array. -/
theorem request_end_reads_overrun (g0 g : Globals) (ops : List op) (index : Nat)
    (c : connection) (env : Env) (hinit : g0.connections = [])
    (hrun : run_ops g0 ops = .running g) (hc : g.connections[index]? = some c)
    (hs : c.state = .REQUEST_END) :
    1 ≤ c.buffer_size ∧ c.buffer_size ≤ 4 ∧
      (0 < env.recv.amount → handle_connection g index env = .undefined) := by
  have hok := records_run window_ok (fun sock => by simp [window_ok, new_connection])
    (fun c env h _ => after_call_window c env h) ops g0 g hrun (by rw [hinit]; simp) c
    (List.getElem?_mem hc) hs
  exact ⟨hok.1, hok.2, fun hr => request_end_read_overrun g index c env hc hs hok.1 hr⟩

/-- C17 (the code fails it). The request `"GET /x a\r\n\r\n"` with its last
byte in a read of its own: the first read leaves the connection in
`REQUEST_END` with the four bytes `"a\r\n\r"` carried over; the claim has the
read of `"\n"` retain `"\r\n\r\n"`, the last four bytes of the five, but the
byte is stored outside the local array and the window is never formed. -/
theorem request_end_window_lost :
    ((run demo_fresh 0 [demo_recv [71, 69, 84, 32, 47, 120, 32, 97, 13, 10, 13]]).conn 0).map
        (fun c => (c.state, c.buffer_size, content c))
      = some (.REQUEST_END, 4, [97, 13, 10, 13]) ∧
    run demo_fresh 0
        [demo_recv [71, 69, 84, 32, 47, 120, 32, 97, 13, 10, 13], demo_recv [10]]
      = .undefined := by
  refine ⟨by decide, ?_⟩
  rfl

/-! ## The two tables after a refused connect -/

/-- C11 (the code fails it). Two clients whose connects are refused, in a
run in which the system hands out no descriptor that is in use: both
connections are in `REQUEST_WRITE` with `-1` as active socket, the value
`connect_to_remote` returned, and the table of sockets has two entries with
that descriptor, not one; the client sockets, 4 and 6, are parked and have no
entry, so neither connection has a socket the event loop polls. -/
theorem refused_connects_share_descriptor :
    all_fresh demo_listener demo_two_refused = true ∧
    (run_ops demo_listener demo_two_refused).globals.map registry
      = some ([(3, POLLIN), (-1, POLLOUT), (-1, POLLOUT)],
          [(.REQUEST_WRITE, -1, 4), (.REQUEST_WRITE, -1, 6)]) ∧
    (run_ops demo_listener demo_two_refused).globals.map
        (fun g => g.connections.map
          (fun c => ((g.sockets.map pollfd.fd).count c.sock,
            (g.sockets.map pollfd.fd).count c.sock_other)))
      = some [(2, 0), (2, 0)] := by
  refine ⟨?_, ?_, ?_⟩ <;> rfl

/-- C19 (the code fails it). An `accept` that failed, then a client whose
connect is refused, in a run in which the system hands out no descriptor that
is in use: the connections are in `START` and in `REQUEST_WRITE`, both
with `-1` as active socket, and the entries with that descriptor are
registered one for `POLLIN`, one for `POLLOUT`; the entry the lookup finds for
the connection in `REQUEST_WRITE` is the one registered for `POLLIN`. A failed
`send` on that connection then removes the entry found, and the connection in
`START` is left with an entry registered for `POLLOUT`. -/
theorem refused_connect_mixes_interest :
    all_fresh demo_listener (demo_accept_failed ++ [.handle 1 demo_send_error]) = true ∧
    (run_ops demo_listener demo_accept_failed).globals.map registry
      = some ([(3, POLLIN), (-1, POLLIN), (-1, POLLOUT)],
          [(.START, -1, -1), (.REQUEST_WRITE, -1, 4)]) ∧
    (run_ops demo_listener demo_accept_failed).globals.map
        (fun g => g.connections.map
          (fun c => (c.state, g.sockets[get_socket_index g c.sock]?.map pollfd.events)))
      = some [(.START, some POLLIN), (.REQUEST_WRITE, some POLLIN)] ∧
    (run_ops demo_listener (demo_accept_failed ++ [.handle 1 demo_send_error])).globals.map
        registry
      = some ([(3, POLLIN), (-1, POLLOUT)], [(.START, -1, -1)]) := by
  refine ⟨?_, ?_, ?_, ?_⟩ <;> rfl

/-! ## The entry of a connection in the table of sockets -/

/-- The table around the entry `socket_change` and `remove_socket` find for a
descriptor. -/
theorem found_split (l : List pollfd) (x : Int)
    (h : l.findIdx (fun s => s.fd == x) < l.length) :
    ∃ a o b, l = a ++ o :: b ∧ a.length = l.findIdx (fun s => s.fd == x) ∧ o.fd = x := by
  refine ⟨l.take (l.findIdx (fun s => s.fd == x)), l[l.findIdx (fun s => s.fd == x)],
    l.drop (l.findIdx (fun s => s.fd == x) + 1), by simp,
    by simp [Nat.min_eq_left (Nat.le_of_lt h)], ?_⟩
  have hget := @List.findIdx_getElem pollfd (fun s : pollfd => s.fd == x) l h
  simpa using hget

/-- The entries of a descriptor in a table split around one entry. -/
theorem entries_split (a b : List pollfd) (o : pollfd) (d : Int) :
    entries (a ++ o :: b) d = entries a d ++ (if o.fd = d then [o] else []) ++ entries b d := by
  simp only [entries, List.filter_append, List.filter_cons, beq_iff_eq]
  split <;> simp

/-- Replacing the entry found for `x` leaves the entries of every other
descriptor but the new one alone. -/
theorem entries_set_other (l : List pollfd) (x y d : Int) (ev : Nat)
    (h : l.findIdx (fun s => s.fd == x) < l.length) (hx : d ≠ x) (hy : d ≠ y) :
    entries (l.set (l.findIdx (fun s => s.fd == x)) { fd := y, events := ev }) d = entries l d := by
  obtain ⟨a, o, b, hab, hal, ho⟩ := found_split l x h
  rw [← hal]
  rw [hab, List.set_append_right _ _ (Nat.le_refl _), Nat.sub_self, List.set_cons_zero,
    entries_split, entries_split]
  simp only [ho, Ne.symm hx, Ne.symm hy, if_false]

/-- Replacing the entry found for `x` by an entry for `y` gives `y` that one
entry, when `y` had none, or when `y` is `x` and had one. -/
theorem entries_set_new (l : List pollfd) (x y : Int) (ev : Nat)
    (h : l.findIdx (fun s => s.fd == x) < l.length)
    (hy : entries l y = [] ∨ (y = x ∧ ∃ o, entries l y = [o])) :
    entries (l.set (l.findIdx (fun s => s.fd == x)) { fd := y, events := ev }) y
      = [{ fd := y, events := ev }] := by
  obtain ⟨a, o, b, hab, hal, ho⟩ := found_split l x h
  rw [← hal]
  rw [hab, entries_split] at hy
  rw [hab, List.set_append_right _ _ (Nat.le_refl _), Nat.sub_self, List.set_cons_zero,
    entries_split]
  simp only [if_true]
  rcases hy with hy | ⟨hyx, o2, hy⟩
  · simp only [List.append_eq_nil] at hy
    rw [hy.1.1, hy.2]; rfl
  · rw [ho, hyx] at hy
    simp only [if_true] at hy
    have hlen := congrArg List.length hy
    simp only [List.length_append, List.length_cons, List.length_nil] at hlen
    have ha : entries a x = [] := List.length_eq_zero.1 (by omega)
    have hb : entries b x = [] := List.length_eq_zero.1 (by omega)
    rw [hyx, ha, hb]; rfl

/-- Replacing the entry found for `x` by an entry for another descriptor
leaves `x` without entry, when it had one. -/
theorem entries_set_old (l : List pollfd) (x y : Int) (ev : Nat)
    (h : l.findIdx (fun s => s.fd == x) < l.length) (hxy : x ≠ y)
    (hx : ∃ o, entries l x = [o]) :
    entries (l.set (l.findIdx (fun s => s.fd == x)) { fd := y, events := ev }) x = [] := by
  obtain ⟨a, o, b, hab, hal, ho⟩ := found_split l x h
  obtain ⟨o2, hx⟩ := hx
  rw [← hal]
  rw [hab, entries_split] at hx
  rw [hab, List.set_append_right _ _ (Nat.le_refl _), Nat.sub_self, List.set_cons_zero,
    entries_split]
  simp only [ho, if_true] at hx
  have hlen := congrArg List.length hx
  simp only [List.length_append, List.length_cons, List.length_nil] at hlen
  have ha : entries a x = [] := List.length_eq_zero.1 (by omega)
  have hb : entries b x = [] := List.length_eq_zero.1 (by omega)
  simp only [Ne.symm hxy, if_false, ha, hb, List.append_nil]

/-- The relation `paired` is symmetric. -/
theorem paired_symm {a b : connection} (h : paired a b) : paired b a :=
  ⟨fun e => by rw [e]; exact h.1 e.symm, fun e => by rw [e]; exact h.2 e.symm⟩

/-- A table is its entry `i` and the rest of it, up to the order. -/
theorem perm_cons_eraseIdx {α : Type} (l : List α) (i : Nat) (hi : i < l.length) :
    List.Perm (l.get ⟨i, hi⟩ :: l.eraseIdx i) l := by
  have h1 : l.eraseIdx i = l.take i ++ l.drop (i + 1) := List.eraseIdx_eq_take_drop_succ l i
  have h2 : l = l.take i ++ l.get ⟨i, hi⟩ :: l.drop (i + 1) := by simp
  rw [h1]
  conv_rhs => rw [h2]
  exact List.perm_middle.symm

/-- Removing the entry found for `x` leaves the entries of every other
descriptor, up to their order. -/
theorem entries_swap_remove (l : List pollfd) (x d : Int) (last : pollfd)
    (h : l.findIdx (fun s => s.fd == x) < l.length) (hl : l.getLast? = some last)
    (hd : d ≠ x) :
    List.Perm (entries (swap_remove l (l.findIdx (fun s => s.fd == x)) last) d) (entries l d) := by
  have hp := swap_remove_perm l _ last h hl
  have hf := hp.filter (fun s => s.fd == d)
  refine hf.trans ?_
  obtain ⟨a, o, b, hab, hal, ho⟩ := found_split l x h
  rw [← hal]
  have he : (a ++ o :: b).eraseIdx a.length = a ++ b := by
    rw [List.eraseIdx_append_of_length_le (Nat.le_refl _), Nat.sub_self]; rfl
  rw [hab, he]
  have hs := entries_split a b o d
  simp only [ho, Ne.symm hd, if_false, List.append_nil] at hs
  rw [hs]
  simp only [entries, List.filter_append]
  exact List.Perm.refl _

/-- Removing an entry gives no entry to a descriptor that had none. -/
theorem entries_swap_remove_nil (l : List pollfd) (i : Nat) (d : Int) (last : pollfd)
    (hi : i < l.length) (hl : l.getLast? = some last) (h : entries l d = []) :
    entries (swap_remove l i last) d = [] := by
  simp only [entries, List.filter_eq_nil_iff] at h ⊢
  intro s hs
  exact h s (swap_remove_mem l i last hi hl s hs)

/-- The function `remove_connection` keeps the two tables in agreement. -/
theorem registered_remove (g g2 : Globals) (index : Nat)
    (hrun : remove_connection g index = .running g2) (h : registered g) : registered g2 := by
  cases hc : g.connections[index]? with
  | none => simp [remove_connection, hc] at hrun
  | some c =>
    by_cases hidx : get_socket_index g c.sock < g.sockets.length
    · obtain ⟨lastS, lastC, hlS, hlC, hrm⟩ := remove_connection_running g index c hc hidx
      rw [hrm] at hrun
      simp only [Outcome.running.injEq] at hrun
      obtain ⟨hi, hget⟩ := List.getElem?_eq_some_iff.1 hc
      obtain ⟨h1, h2, h3⟩ := h
      have hperm : List.Perm (c :: swap_remove g.connections index lastC) g.connections := by
        refine List.Perm.trans ?_ (perm_cons_eraseIdx g.connections index hi)
        have : g.connections.get ⟨index, hi⟩ = c := hget
        rw [this]
        exact List.Perm.cons c (swap_remove_perm g.connections index lastC hi hlC)
      have hpw := (hperm.pairwise_iff (fun h => paired_symm h)).2 h3
      rw [List.pairwise_cons] at hpw
      have hmem : ∀ c2 ∈ swap_remove g.connections index lastC, c2 ∈ g.connections :=
        swap_remove_mem g.connections index lastC hi hlC
      rw [← hrun]
      refine ⟨?_, ?_, hpw.2⟩
      · intro c2 hc2 hs
        have hne : c2.sock ≠ c.sock := by
          intro e
          have := (hpw.1 c2 hc2).1 e.symm
          rw [e] at hs
          exact hs this
        have hp := entries_swap_remove g.sockets c.sock c2.sock lastS hidx hlS hne
        rw [h1 c2 (hmem c2 hc2) hs] at hp
        exact List.perm_singleton.1 hp
      · intro c2 hc2 hs
        exact entries_swap_remove_nil g.sockets _ _ lastS hidx hlS (h2 c2 (hmem c2 hc2) hs)
    · have hle := @List.findIdx_le_length pollfd (fun s : pollfd => s.fd == c.sock) g.sockets
      have heq : get_socket_index g c.sock = g.sockets.length := by
        simp only [get_socket_index] at hidx ⊢
        omega
      have hne : g.connections ≠ [] := by
        intro h; rw [h] at hc; simp at hc
      simp [remove_connection, hc, List.getLast?_eq_getLast _ hne, heq] at hrun

/-- Replacing one connection of a table whose connections share no
descriptor. -/
theorem pairwise_replace (a b : List connection) (c c2 : connection)
    (h : (a ++ c :: b).Pairwise paired) (h2 : ∀ x ∈ a ++ b, paired c2 x) :
    (a ++ c2 :: b).Pairwise paired ∧ ∀ x ∈ a ++ b, paired c x := by
  rw [List.pairwise_middle (fun h => paired_symm h), List.pairwise_cons] at h
  rw [List.pairwise_middle (fun h => paired_symm h), List.pairwise_cons]
  exact ⟨⟨h2, h.2⟩, h.1⟩

/-- The members of a table with one connection replaced. -/
theorem mem_replace (a b : List connection) (c x : connection) :
    x ∈ a ++ c :: b ↔ x = c ∨ x ∈ a ++ b := by
  simp only [List.mem_append, List.mem_cons]
  constructor
  · rintro (h | h | h)
    · exact Or.inr (Or.inl h)
    · exact Or.inl h
    · exact Or.inr (Or.inr h)
  · rintro (h | h | h)
    · exact Or.inr (Or.inl h)
    · exact Or.inl h
    · exact Or.inr (Or.inr h)

/-- A call that leaves the table of sockets alone, and the sockets and the
events of the record too, keeps the two tables in agreement. -/
theorem registered_same (g g2 : Globals) (a b : List connection) (c c2 : connection)
    (h : registered g) (hg : g.connections = a ++ c :: b)
    (hc2 : g2.connections = a ++ c2 :: b) (hT : g2.sockets = g.sockets)
    (hs : c2.sock = c.sock) (ho : c2.sock_other = c.sock_other)
    (hi : interest c2.state = interest c.state) : registered g2 := by
  obtain ⟨h1, h2, h3⟩ := h
  rw [hg] at h1 h2 h3
  have hpw := pairwise_replace a b c c2 h3
  unfold registered
  rw [hc2, hT]
  refine ⟨?_, ?_, ?_⟩
  · intro x hx hxs
    rcases (mem_replace a b c2 x).1 hx with rfl | hx
    · rw [hs, hi]
      rw [hs] at hxs
      exact h1 c ((mem_replace a b c c).2 (Or.inl rfl)) hxs
    · exact h1 x ((mem_replace a b c x).2 (Or.inr hx)) hxs
  · intro x hx hxs
    rcases (mem_replace a b c2 x).1 hx with rfl | hx
    · rw [ho]
      rw [ho] at hxs
      exact h2 c ((mem_replace a b c c).2 (Or.inl rfl)) hxs
    · exact h2 x ((mem_replace a b c x).2 (Or.inr hx)) hxs
  · have hall : ∀ x ∈ a ++ b, paired c x := by
      rw [List.pairwise_middle (fun h => paired_symm h), List.pairwise_cons] at h3
      exact h3.1
    refine (hpw ?_).1
    intro x hx
    have := hall x hx
    exact ⟨by rw [hs]; exact this.1, by rw [ho]; exact this.2⟩

/-- A call that retargets the entry of the connection keeps the two tables in
agreement: the record keeps its two sockets, or parks the active one and takes
as active socket `-1` or a descriptor without entry that no other connection
has parked. -/
theorem registered_retarget (g g2 : Globals) (a b : List connection) (c c2 : connection)
    (h : registered g) (hg : g.connections = a ++ c :: b)
    (hc2 : g2.connections = a ++ c2 :: b)
    (hfound : get_socket_index g c.sock < g.sockets.length)
    (hT : g2.sockets = g.sockets.set (get_socket_index g c.sock)
      { fd := c2.sock, events := interest c2.state })
    (hcase : (c2.sock = c.sock ∧ c2.sock_other = c.sock_other) ∨
      (c2.sock_other = c.sock ∧
        (c2.sock = -1 ∨
          (entries g.sockets c2.sock = [] ∧ ∀ x ∈ a ++ b, x.sock_other ≠ c2.sock)))) :
    registered g2 := by
  obtain ⟨h1, h2, h3⟩ := h
  rw [hg] at h1 h2 h3
  simp only [get_socket_index] at hfound hT
  have hcm : c ∈ a ++ c :: b := (mem_replace a b c c).2 (Or.inl rfl)
  have hom : ∀ x ∈ a ++ b, x ∈ a ++ c :: b := fun x hx => (mem_replace a b c x).2 (Or.inr hx)
  have hall : ∀ x ∈ a ++ b, paired c x := by
    have h3b := h3
    rw [List.pairwise_middle (fun h => paired_symm h), List.pairwise_cons] at h3b
    exact h3b.1
  have F1 : ∀ x ∈ a ++ b, x.sock ≠ -1 → x.sock ≠ c.sock := by
    intro x hx hxs e
    have := (hall x hx).1 e.symm
    rw [← e] at this
    exact hxs this
  have F2 : ∀ x ∈ a ++ c :: b, x.sock_other ≠ -1 → x.sock_other ≠ c.sock := by
    intro x hx hxs e
    have hne : c.sock ≠ -1 := by rw [← e]; exact hxs
    have he1 := h1 c hcm hne
    have he2 := h2 x hx hxs
    rw [e, he1] at he2
    cases he2
  unfold registered
  rw [hc2, hT]
  rcases hcase with ⟨hs, ho⟩ | ⟨ho, hnew⟩
  · refine ⟨?_, ?_, ?_⟩
    · intro x hx hxs
      rcases (mem_replace a b c2 x).1 hx with rfl | hx
      · apply entries_set_new _ _ _ _ hfound
        right
        rw [hs] at hxs ⊢
        exact ⟨rfl, _, h1 c hcm hxs⟩
      · rw [entries_set_other _ _ _ _ _ hfound (F1 x hx hxs) (by rw [hs]; exact F1 x hx hxs)]
        exact h1 x (hom x hx) hxs
    · intro x hx hxs
      rcases (mem_replace a b c2 x).1 hx with rfl | hx
      · rw [ho] at hxs ⊢
        rw [entries_set_other _ _ _ _ _ hfound (F2 c hcm hxs) (by rw [hs]; exact F2 c hcm hxs)]
        exact h2 c hcm hxs
      · rw [entries_set_other _ _ _ _ _ hfound (F2 x (hom x hx) hxs)
          (by rw [hs]; exact F2 x (hom x hx) hxs)]
        exact h2 x (hom x hx) hxs
    · refine (pairwise_replace a b c c2 h3 ?_).1
      intro x hx
      have := hall x hx
      exact ⟨by rw [hs]; exact this.1, by rw [ho]; exact this.2⟩
  · have G1 : ∀ x ∈ a ++ b, x.sock ≠ -1 → x.sock ≠ c2.sock := by
      intro x hx hxs e
      rcases hnew with hn | ⟨hn, -⟩
      · rw [hn] at e; exact hxs e
      · have he1 := h1 x (hom x hx) hxs
        rw [e, hn] at he1
        cases he1
    have G2 : ∀ x ∈ a ++ b, x.sock_other ≠ -1 → x.sock_other ≠ c2.sock := by
      intro x hx hxs e
      rcases hnew with hn | ⟨-, hn⟩
      · rw [hn] at e; exact hxs e
      · exact hn x hx e
    refine ⟨?_, ?_, ?_⟩
    · intro x hx hxs
      rcases (mem_replace a b c2 x).1 hx with rfl | hx
      · apply entries_set_new _ _ _ _ hfound
        left
        rcases hnew with hn | ⟨hn, -⟩
        · exact absurd hn hxs
        · exact hn
      · rw [entries_set_other _ _ _ _ _ hfound (F1 x hx hxs) (G1 x hx hxs)]
        exact h1 x (hom x hx) hxs
    · intro x hx hxs
      rcases (mem_replace a b c2 x).1 hx with rfl | hx
      · rw [ho] at hxs ⊢
        apply entries_set_old _ _ _ _ hfound
        · intro e
          rcases hnew with hn | ⟨hn, -⟩
          · rw [hn] at e; exact hxs e
          · have he1 := h1 c hcm hxs
            rw [e, hn] at he1
            cases he1
        · exact ⟨_, h1 c hcm hxs⟩
      · rw [entries_set_other _ _ _ _ _ hfound (F2 x (hom x hx) hxs) (G2 x hx hxs)]
        exact h2 x (hom x hx) hxs
    · refine (pairwise_replace a b c c2 h3 ?_).1
      intro x hx
      constructor
      · intro e
        by_contra hne
        have hxs : x.sock ≠ -1 := by rw [← e]; exact hne
        exact G1 x hx hxs e.symm
      · intro e
        by_contra hne
        rw [ho] at e hne
        have hxs : x.sock_other ≠ -1 := by rw [← e]; exact hne
        exact F2 x (hom x hx) hxs e.symm

/-- What a call does to the two sockets of a record: nothing, and the events
stay; or the entry is retargeted, and the record keeps its sockets (the
selector is sent), swaps them (`READ` and the end of `WRITE`), or parks the
active socket and takes the value of `connect_to_remote` as active socket. -/
theorem after_call_shape (c : connection) (env : Env) :
    (¬ retargets c (after_call c env) ∧ (after_call c env).sock = c.sock ∧
      (after_call c env).sock_other = c.sock_other ∧
      interest (after_call c env).state = interest c.state) ∨
    (retargets c (after_call c env) ∧ (after_call c env).sock = c.sock ∧
      (after_call c env).sock_other = c.sock_other) ∨
    (retargets c (after_call c env) ∧ (after_call c env).sock = c.sock_other ∧
      (after_call c env).sock_other = c.sock) ∨
    (retargets c (after_call c env) ∧
      (after_call c env).sock = size_to_int (int_to_size (connect_fd env.remote.results)) ∧
      (after_call c env).sock_other = c.sock ∧ connects c env) := by
  unfold after_call
  cases hrd : request_read c env.recv with
  | remove => left; exact ⟨by simp [retargets], rfl, rfl, rfl⟩
  | overrun => left; exact ⟨by simp [retargets], rfl, rfl, rfl⟩
  | next c1 =>
    have hst1 := request_read_state c c1 env.recv hrd
    obtain ⟨hs1, ho1⟩ := request_read_socks c c1 env.recv hrd
    obtain ⟨hs2, ho2⟩ := scan_socks c1
    rw [← scan] at hs2 ho2
    rw [hs1] at hs2
    rw [ho1] at ho2
    have hsc := scan_cases c1
    rw [hst1] at hsc
    simp only
    have hother : c.state = .REQUEST_WRITE ∨ c.state = .READ ∨ c.state = .WRITE →
        scan c1 = c := by
      intro hs
      have h1 : c1 = c := by
        rw [request_read_other c env.recv (by rcases hs with h | h | h <;> simp [h])] at hrd
        cases hrd; rfl
      rw [h1]
      exact scan_other c (by rcases hs with h | h | h <;> simp [h])
    have hearly : (scan c1).state = .START ∨ (scan c1).state = .PATH ∨
        (scan c1).state = .REQUEST_END ∨ (scan c1).state = .CONNECT →
        c.state = .START ∨ c.state = .PATH ∨ c.state = .REQUEST_END ∨ c.state = .CONNECT := by
      intro hs
      rcases hsc with h | ⟨h, -, -⟩
      · rw [← h]; exact hs
      · rcases h with h | h | h <;> simp [h]
    cases hst : (scan c1).state with
    | START =>
      simp only [hst]
      left
      have hc := hearly (by simp [hst])
      refine ⟨by simp [retargets, hst], hs2, ho2, ?_⟩
      rcases hc with h | h | h | h <;> simp [interest, hst, h]
    | PATH =>
      simp only [hst]
      left
      have hc := hearly (by simp [hst])
      refine ⟨by simp [retargets, hst], hs2, ho2, ?_⟩
      rcases hc with h | h | h | h <;> simp [interest, hst, h]
    | REQUEST_END =>
      simp only [hst]
      left
      have hc := hearly (by simp [hst])
      refine ⟨by simp [retargets, hst], hs2, ho2, ?_⟩
      rcases hc with h | h | h | h <;> simp [interest, hst, h]
    | CONNECT =>
      simp only [hst]
      right; right; right
      have hc := hearly (by simp [hst])
      refine ⟨⟨?_, Or.inl rfl⟩, rfl, hs2, by simp only [connects, hrd, hst]⟩
      rcases hc with h | h | h | h <;> simp [connected, h]
    | REQUEST_WRITE =>
      have hcs : c.state = .REQUEST_WRITE := by
        rw [hst] at hsc
        rcases hsc with h | ⟨-, h, -⟩
        · exact h.symm
        · simp at h
      rw [hother (Or.inl hcs)] at hst ⊢
      simp only [hst]
      cases hsend : env.send with
      | error => left; exact ⟨by simp [retargets, hst], rfl, rfl, by simp only [hst]⟩
      | ok amount =>
        simp only
        split
        · right; left
          exact ⟨⟨by simp [hcs], Or.inr (Or.inl rfl)⟩, rfl, rfl⟩
        · left
          exact ⟨by simp [retargets, advanced, hst], rfl, rfl, by simp only [advanced, hst]⟩
    | READ =>
      have hcs : c.state = .READ := by
        rw [hst] at hsc
        rcases hsc with h | ⟨-, h, -⟩
        · exact h.symm
        · simp at h
      rw [hother (Or.inr (Or.inl hcs))] at hst ⊢
      simp only [hst]
      right; right; left
      exact ⟨⟨by simp [hcs, filled], Or.inr (Or.inr rfl)⟩, rfl, rfl⟩
    | WRITE =>
      have hcs : c.state = .WRITE := by
        rw [hst] at hsc
        rcases hsc with h | ⟨-, h, -⟩
        · exact h.symm
        · simp at h
      rw [hother (Or.inr (Or.inr hcs))] at hst ⊢
      simp only [hst]
      cases hsend : env.send with
      | error => left; exact ⟨by simp [retargets, hst], rfl, rfl, by simp only [hst]⟩
      | ok amount =>
        simp only
        split
        · right; right; left
          exact ⟨⟨by simp [hcs, drained], Or.inr (Or.inl rfl)⟩, rfl, rfl⟩
        · left
          exact ⟨by simp [retargets, advanced, hst], rfl, rfl, by simp only [advanced, hst]⟩

/-- A descriptor the table of sockets does not hold has no entry. -/
theorem entries_nil_of_not_mem (l : List pollfd) (d : Int) (h : d ∉ l.map pollfd.fd) :
    entries l d = [] := by
  simp only [entries, List.filter_eq_nil_iff, beq_iff_eq]
  intro s hs e
  exact h (e ▸ List.mem_map_of_mem pollfd.fd hs)

/-- The function `add_connection` keeps the two tables in agreement, when
`accept` returned `-1` or a descriptor the tables do not hold. -/
theorem registered_add (g : Globals) (sock : Int) (h : registered g)
    (hf : sock = -1 ∨ sock ∉ in_use g) : registered (add_connection g sock) := by
  obtain ⟨h1, h2, h3⟩ := h
  have hT : sock ≠ -1 → sock ∉ g.sockets.map pollfd.fd := by
    intro hs hm
    rcases hf with hf | hf
    · exact hs hf
    · exact hf (by simp only [in_use, List.mem_append]; exact Or.inl (Or.inl hm))
  have hS : ∀ c ∈ g.connections, c.sock = sock → sock = -1 := by
    intro c hc e
    by_contra hs
    rcases hf with hf | hf
    · exact hs hf
    · apply hf
      simp only [in_use, List.mem_append]
      exact Or.inl (Or.inr (e ▸ List.mem_map_of_mem connection.sock hc))
  have hO : ∀ c ∈ g.connections, c.sock_other = sock → sock = -1 := by
    intro c hc e
    by_contra hs
    rcases hf with hf | hf
    · exact hs hf
    · apply hf
      simp only [in_use, List.mem_append]
      exact Or.inr (e ▸ List.mem_map_of_mem connection.sock_other hc)
  have happ : ∀ d, entries (g.sockets ++ [{ fd := sock, events := POLLIN }]) d
      = entries g.sockets d ++ (if sock = d then [{ fd := sock, events := POLLIN }] else []) := by
    intro d
    simp only [entries, List.filter_append, List.filter_cons, List.filter_nil, beq_iff_eq]
  unfold registered
  simp only [add_connection, add_socket]
  refine ⟨?_, ?_, ?_⟩
  · intro c hc hcs
    rw [happ]
    rcases List.mem_append.1 hc with hc | hc
    · have hne : ¬ sock = c.sock := by
        intro e
        have := hS c hc e.symm
        rw [← e] at hcs
        exact hcs this
      rw [if_neg hne, List.append_nil]
      exact h1 c hc hcs
    · simp only [List.mem_singleton] at hc
      subst hc
      simp only [new_connection] at hcs ⊢
      rw [entries_nil_of_not_mem _ _ (hT hcs)]
      simp [interest]
  · intro c hc hcs
    rw [happ]
    rcases List.mem_append.1 hc with hc | hc
    · have hne : ¬ sock = c.sock_other := by
        intro e
        have := hO c hc e.symm
        rw [← e] at hcs
        exact hcs this
      rw [if_neg hne, List.append_nil]
      exact h2 c hc hcs
    · simp only [List.mem_singleton] at hc
      subst hc
      simp [new_connection] at hcs
  · rw [List.pairwise_append]
    refine ⟨h3, by simp, ?_⟩
    intro a ha b hb
    simp only [List.mem_singleton] at hb
    subst hb
    constructor
    · intro e
      simp only [new_connection] at e
      rw [e]
      exact hS a ha e
    · intro e
      simp only [new_connection] at e
      exact e

/-- A call of `handle_connection` keeps the two tables in agreement, when
`connect_to_remote` gets no descriptor that the tables hold. -/
theorem registered_handle (g g2 : Globals) (index : Nat) (env : Env) (h : registered g)
    (hf : ∀ c, g.connections[index]? = some c → connects c env →
      ∀ a ∈ env.remote.results, a.sock ∉ in_use g ∧ -2 ^ 31 ≤ a.sock ∧ a.sock < 2 ^ 31)
    (hrun : handle_connection g index env = .running g2) : registered g2 := by
  cases hc : g.connections[index]? with
  | none => simp [handle_connection, hc] at hrun
  | some c =>
    rcases handle_running g g2 index env c hc hrun with ⟨-, hrm⟩ | ⟨-, hcs, -, hre, hnr⟩
    · exact registered_remove g g2 index hrm h
    obtain ⟨hi, hget⟩ := List.getElem?_eq_some_iff.1 hc
    have hg : g.connections
        = g.connections.take index ++ c :: g.connections.drop (index + 1) := by
      rw [← hget]; simp
    have hlen : (g.connections.take index).length = index := by
      simp [Nat.min_eq_left (Nat.le_of_lt hi)]
    generalize g.connections.take index = a at hg hlen
    generalize g.connections.drop (index + 1) = b at hg
    have hc2 : g2.connections = a ++ after_call c env :: b := by
      rw [hcs, hg, ← hlen, List.set_append_right _ _ (Nat.le_refl _), Nat.sub_self,
        List.set_cons_zero]
    have hcm : c ∈ g.connections := List.getElem?_mem hc
    have hom : ∀ x ∈ a ++ b, x ∈ g.connections := by
      intro x hx
      rw [hg]
      exact (mem_replace a b c x).2 (Or.inr hx)
    rcases after_call_shape c env with ⟨hn, hs, ho, hint⟩ | ⟨hr, hs, ho⟩ | ⟨hr, hs, ho⟩ |
        ⟨hr, hs, ho, hcon⟩
    · exact registered_same g g2 a b c _ h hg hc2 (hnr hn) hs ho hint
    · obtain ⟨hfound, hT⟩ := hre hr
      exact registered_retarget g g2 a b c _ h hg hc2 hfound hT (Or.inl ⟨hs, ho⟩)
    · obtain ⟨hfound, hT⟩ := hre hr
      refine registered_retarget g g2 a b c _ h hg hc2 hfound hT (Or.inr ⟨ho, ?_⟩)
      by_cases hm : (after_call c env).sock = -1
      · exact Or.inl hm
      · right
        rw [hs] at hm ⊢
        refine ⟨h.2.1 c hcm hm, ?_⟩
        intro x hx e
        have hp : paired c x := by
          have h3 := h.2.2
          rw [hg, List.pairwise_middle (fun h => paired_symm h), List.pairwise_cons] at h3
          exact h3.1 x hx
        exact hm (hp.2 e.symm)
    · obtain ⟨hfound, hT⟩ := hre hr
      refine registered_retarget g g2 a b c _ h hg hc2 hfound hT (Or.inr ⟨ho, ?_⟩)
      rw [hs]
      rcases connect_fd_mem env.remote.results with hv | ⟨at1, hat, hv⟩
      · left; rw [hv]; exact minus_one_round
      · right
        obtain ⟨hnu, hlo, hhi⟩ := hf c hc hcon at1 hat
        rw [← hv, int_size_int at1.sock hlo hhi]
        simp only [in_use, List.mem_append, not_or] at hnu
        refine ⟨entries_nil_of_not_mem _ _ hnu.1.1, ?_⟩
        intro x hx e
        exact hnu.2 (e ▸ List.mem_map_of_mem connection.sock_other (hom x hx))

/-- A call of `handle_connection` keeps the listener entries, when the
sockets `connect_to_remote` gets, if it is called, are no listener. -/
theorem kept_handle_connects (L : List pollfd) (base : List Int) (g g2 : Globals)
    (index : Nat) (env : Env) (hrun : handle_connection g index env = .running g2)
    (h : listeners_kept L base g)
    (hf : ∀ c, g.connections[index]? = some c → connects c env → ∀ a ∈ env.remote.results,
      a.sock ∉ L.map pollfd.fd ∧ -2 ^ 31 ≤ a.sock ∧ a.sock < 2 ^ 31)
    (hm : (-1 : Int) ∉ L.map pollfd.fd) : listeners_kept L base g2 := by
  cases hc : g.connections[index]? with
  | none => simp [handle_connection, hc] at hrun
  | some conn0 =>
    by_cases hcon : connects conn0 env
    · exact kept_handle_connection L base g g2 index env hrun h (hf conn0 hc hcon) hm
    · have hnil : handle_connection g index { env with remote := { status := 1, results := [] } }
          = .running g2 := by
        rw [← hrun]
        simp only [handle_connection, hc]
        cases hrd : request_read conn0 env.recv with
        | remove => rfl
        | overrun => rfl
        | next conn1 =>
          simp only [connects, hrd, scan] at hcon
          simp only
          split
          · rename_i hst; exact absurd hst hcon
          · rfl
          · rfl
          · rfl
          · rfl
      exact kept_handle_connection L base g g2 index _ hnil h (by simp) hm

/-- The listener entries stay and the two tables stay in agreement over a run
of calls of the event loop in which the system hands out no descriptor that
the tables hold. -/
theorem registered_run (L : List pollfd) (base : List Int)
    (hm : (-1 : Int) ∉ L.map pollfd.fd) :
    ∀ (ops : List op) (g g2 : Globals), run_ops g ops = .running g2 →
    all_fresh g ops = true → listeners_kept L base g → registered g →
    listeners_kept L base g2 ∧ registered g2
  | [], g, g2, hrun, _, hk, hr => by
    simp only [run_ops, Outcome.running.injEq] at hrun
    rw [← hrun]; exact ⟨hk, hr⟩
  | o :: rest, g, g2, hrun, hf, hk, hr => by
    simp only [run_ops] at hrun
    simp only [all_fresh, Bool.and_eq_true] at hf
    have hsub : ∀ fd, fd ∉ in_use g → fd ∉ L.map pollfd.fd := by
      intro fd hfd hL
      apply hfd
      simp only [in_use, List.mem_append]
      left; left
      obtain ⟨s, hs, hsfd⟩ := List.mem_map.1 hL
      rw [← hk.2.1] at hs
      exact hsfd ▸ List.mem_map_of_mem pollfd.fd (List.mem_of_mem_take hs)
    cases hop : apply_op g o with
    | running g1 =>
      rw [hop] at hrun
      simp only [hop] at hf
      have hstep : listeners_kept L base g1 ∧ registered g1 := by
        cases o with
        | add sock =>
          simp only [os_fresh, decide_eq_true_eq] at hf
          simp only [apply_op, Outcome.running.injEq] at hop
          rw [← hop]
          refine ⟨kept_add_connection L base g sock hk ?_ hm, registered_add g sock hr hf.1⟩
          rcases hf.1 with h | h
          · rw [h]; exact hm
          · exact hsub sock h
        | handle index env =>
          simp only [os_fresh] at hf
          simp only [apply_op] at hop
          cases hc : g.connections[index]? with
          | none => simp [handle_connection, hc] at hop
          | some c =>
            simp only [hc, decide_eq_true_eq] at hf
            refine ⟨kept_handle_connects L base g g1 index env hop hk ?_ hm,
              registered_handle g g1 index env hr ?_ hop⟩
            · intro c2 hc2 hcon a ha
              rw [hc] at hc2
              cases hc2
              obtain ⟨h1, h2, h3⟩ := hf.1 hcon a ha
              exact ⟨hsub a.sock h1, h2, h3⟩
            · intro c2 hc2 hcon
              rw [hc] at hc2
              cases hc2
              exact hf.1 hcon
        | remove index =>
          simp only [apply_op] at hop
          exact ⟨kept_remove_connection L base g g1 index hop hk,
            registered_remove g g1 index hop hr⟩
      exact registered_run L base hm rest g1 g2 hrun hf.2 hstep.1 hstep.2
    | exited g1 st => rw [hop] at hrun; cases hrun
    | undefined => rw [hop] at hrun; cases hrun

/-- In every state reached from the listeners alone by calls in which the
system hands out no descriptor that the tables hold, the active socket of a
connection, when it is a descriptor (not `-1`), has exactly one entry in the
table of sockets, behind the listener entries and registered for the events
of the state of the connection, and the parked socket, when it is a
descriptor, has none. -/
theorem descriptor_entries (g0 g : Globals) (ops : List op)
    (hinit : g0.connections = []) (hn : g0.number_interfaces = g0.sockets.length)
    (hm : (-1 : Int) ∉ g0.sockets.map pollfd.fd) (hf : all_fresh g0 ops = true)
    (hrun : run_ops g0 ops = .running g) :
    ∀ c ∈ g.connections,
      (c.sock ≠ -1 →
        entries g.sockets c.sock = [{ fd := c.sock, events := interest c.state }] ∧
        (∀ s ∈ g.sockets.take g.number_interfaces, s.fd ≠ c.sock) ∧
        g.number_interfaces ≤ get_socket_index g c.sock) ∧
      (c.sock_other ≠ -1 → entries g.sockets c.sock_other = []) := by
  have hk0 : listeners_kept g0.sockets g0.closed g0 := by
    refine ⟨hn, by simp, by rw [hinit]; simp, [], by simp, by simp⟩
  have hr0 : registered g0 := by
    unfold registered
    rw [hinit]
    simp
  obtain ⟨hk, hr⟩ := registered_run g0.sockets g0.closed hm ops g0 g hrun hf hk0 hr0
  intro c hc
  constructor
  · intro hs
    have hnl := (hk.2.2.1 c hc).1
    refine ⟨hr.1 c hc hs, ?_, ?_⟩
    · intro s hs2 e
      rw [hk.1, hk.2.1] at hs2
      exact hnl (e ▸ List.mem_map_of_mem pollfd.fd hs2)
    · rw [hk.1]
      exact get_socket_index_ge g0.sockets g c.sock hk.2.1 hnl
  · intro hs
    exact hr.2.1 c hc hs

/-! ## Every data socket has its connection -/

/-- Counting after one element of a list is replaced. -/
theorem count_map_set {α : Type} (f : α → Int) (l : List α) (i : Nat) (x y : α) (d : Int)
    (hx : l[i]? = some x) :
    ((l.set i y).map f).count d + (if f x = d then 1 else 0)
      = (l.map f).count d + (if f y = d then 1 else 0) := by
  obtain ⟨hi, hget⟩ := List.getElem?_eq_some_iff.1 hx
  have hl : l = l.take i ++ x :: l.drop (i + 1) := by rw [← hget]; simp
  have hlen : (l.take i).length = i := by simp [Nat.min_eq_left (Nat.le_of_lt hi)]
  generalize l.take i = a at hl hlen
  generalize l.drop (i + 1) = b at hl
  rw [hl, ← hlen, List.set_append_right _ _ (Nat.le_refl _), Nat.sub_self, List.set_cons_zero]
  simp only [List.map_append, List.map_cons, List.count_append, List.count_cons, beq_iff_eq]
  omega

/-- Counting after one element of a list is removed by `swap_remove`. -/
theorem count_map_swap_remove {α : Type} (f : α → Int) (l : List α) (i : Nat) (x last : α)
    (d : Int) (hx : l[i]? = some x) (hl : l.getLast? = some last) :
    ((swap_remove l i last).map f).count d + (if f x = d then 1 else 0) = (l.map f).count d := by
  obtain ⟨hi, hget⟩ := List.getElem?_eq_some_iff.1 hx
  have hperm : List.Perm (x :: swap_remove l i last) l := by
    refine List.Perm.trans ?_ (perm_cons_eraseIdx l i hi)
    have : l.get ⟨i, hi⟩ = x := hget
    rw [this]
    exact List.Perm.cons x (swap_remove_perm l i last hi hl)
  have hc := (hperm.map f).count_eq d
  simp only [List.map_cons, List.count_cons, beq_iff_eq] at hc
  omega

/-- The function `add_connection` adds the descriptor to both tables. -/
theorem balanced_add (L : List pollfd) (g : Globals) (sock : Int) (h : balanced L g) :
    balanced L (add_connection g sock) := by
  intro d
  have := h d
  simp only [add_connection, add_socket, new_connection, List.map_append, List.map_cons,
    List.map_nil, List.count_append]
  omega

/-- The function `remove_connection` takes the active socket out of both
tables. -/
theorem balanced_remove (L : List pollfd) (g g2 : Globals) (index : Nat)
    (hrun : remove_connection g index = .running g2) (h : balanced L g) : balanced L g2 := by
  cases hc : g.connections[index]? with
  | none => simp [remove_connection, hc] at hrun
  | some c =>
    by_cases hidx : get_socket_index g c.sock < g.sockets.length
    · obtain ⟨lastS, lastC, hlS, hlC, hrm⟩ := remove_connection_running g index c hc hidx
      obtain ⟨s, hs, hfd⟩ := get_socket_index_fd g c.sock hidx
      rw [hrm] at hrun
      simp only [Outcome.running.injEq] at hrun
      rw [← hrun]
      intro d
      have h1 := count_map_swap_remove pollfd.fd g.sockets _ s lastS d hs hlS
      have h2 := count_map_swap_remove connection.sock g.connections index c lastC d hc hlC
      have h3 := h d
      rw [hfd] at h1
      simp only
      omega
    · have hle := @List.findIdx_le_length pollfd (fun s : pollfd => s.fd == c.sock) g.sockets
      have heq : get_socket_index g c.sock = g.sockets.length := by
        simp only [get_socket_index] at hidx ⊢
        omega
      have hne : g.connections ≠ [] := by
        intro h; rw [h] at hc; simp at hc
      simp [remove_connection, hc, List.getLast?_eq_getLast _ hne, heq] at hrun

/-- A call of `handle_connection` changes the active socket in both tables
alike. -/
theorem balanced_handle (L : List pollfd) (g g2 : Globals) (index : Nat) (env : Env)
    (hrun : handle_connection g index env = .running g2) (h : balanced L g) :
    balanced L g2 := by
  cases hc : g.connections[index]? with
  | none => simp [handle_connection, hc] at hrun
  | some c =>
    rcases handle_running g g2 index env c hc hrun with ⟨-, hrm⟩ | ⟨-, hcs, -, hre, hnr⟩
    · exact balanced_remove L g g2 index hrm h
    intro d
    have h2 := count_map_set connection.sock g.connections index c (after_call c env) d hc
    have h3 := h d
    rw [hcs]
    by_cases hr : retargets c (after_call c env)
    · obtain ⟨hfound, hT⟩ := hre hr
      obtain ⟨s, hs, hfd⟩ := get_socket_index_fd g c.sock hfound
      have h1 := count_map_set pollfd.fd g.sockets _ s
        { fd := (after_call c env).sock, events := interest (after_call c env).state } d hs
      rw [hfd] at h1
      rw [hT]
      simp only at h1
      omega
    · rw [hnr hr]
      have hsame : (after_call c env).sock = c.sock := by
        rcases after_call_shape c env with ⟨-, hs, -⟩ | ⟨hr2, -⟩ | ⟨hr2, -⟩ | ⟨hr2, -⟩
        · exact hs
        · exact absurd hr2 hr
        · exact absurd hr2 hr
        · exact absurd hr2 hr
      rw [hsame] at h2
      omega

/-- The two tables hold the same descriptors after every run of calls of the
event loop. -/
theorem balanced_run (L : List pollfd) :
    ∀ (ops : List op) (g g2 : Globals), run_ops g ops = .running g2 →
    balanced L g → balanced L g2
  | [], g, g2, hrun, h => by
    simp only [run_ops, Outcome.running.injEq] at hrun
    rw [← hrun]; exact h
  | o :: rest, g, g2, hrun, h => by
    simp only [run_ops] at hrun
    cases hop : apply_op g o with
    | running g1 =>
      rw [hop] at hrun
      refine balanced_run L rest g1 g2 hrun ?_
      cases o with
      | add sock =>
        simp only [apply_op, Outcome.running.injEq] at hop
        rw [← hop]
        exact balanced_add L g sock h
      | handle index env => exact balanced_handle L g g1 index env hop h
      | remove index => exact balanced_remove L g g1 index hop h
    | exited g1 st => rw [hop] at hrun; cases hrun
    | undefined => rw [hop] at hrun; cases hrun

/-- The entries of a descriptor are as many as its occurrences among the
descriptors of the table. -/
theorem count_entries (l : List pollfd) (d : Int) :
    (l.map pollfd.fd).count d = (entries l d).length := by
  induction l with
  | nil => rfl
  | cons s t ih =>
    simp only [List.map_cons, List.count_cons, entries, List.filter_cons, beq_iff_eq] at ih ⊢
    split
    · simp only [List.length_cons, ih]
    · simp only [ih, Nat.add_zero]

/-- Teardown in a reached state: in every state reached from the listeners
alone by calls in which the system hands out no descriptor that the tables
hold, a failed `recv` or `send` on a connection whose active socket is a
descriptor (not `-1`) removes the connection as `teardown_on_failure` says;
that the active socket occurs once in each table follows from the run. -/
theorem teardown_reached (g0 g : Globals) (ops : List op) (index : Nat) (c : connection)
    (env : Env) (hinit : g0.connections = [])
    (hn : g0.number_interfaces = g0.sockets.length)
    (hm : (-1 : Int) ∉ g0.sockets.map pollfd.fd) (hf : all_fresh g0 ops = true)
    (hrun : run_ops g0 ops = .running g) (hc : g.connections[index]? = some c)
    (hsock : c.sock ≠ -1) (hio : fails c env) :
    ∃ g2, handle_connection g index env = .running g2 ∧
      g2.connections.length + 1 = g.connections.length ∧
      g2.sockets.length + 1 = g.sockets.length ∧
      (∀ c2 ∈ g2.connections, c2.sock ≠ c.sock) ∧
      (∀ s ∈ g2.sockets, s.fd ≠ c.sock) ∧
      g2.closed = g.closed ++ [c.sock] ++ (if c.sock_other ≠ -1 then [c.sock_other] else []) ∧
      List.Perm g2.connections (g.connections.eraseIdx index) ∧
      List.Perm g2.sockets (g.sockets.eraseIdx (get_socket_index g c.sock)) ∧
      g2.number_interfaces = g.number_interfaces ∧ g2.sent = g.sent ∧
      g2.received = g.received := by
  have hk0 : listeners_kept g0.sockets g0.closed g0 := by
    refine ⟨hn, by simp, by rw [hinit]; simp, [], by simp, by simp⟩
  have hr0 : registered g0 := by
    unfold registered
    rw [hinit]
    simp
  have hb0 : balanced g0.sockets g0 := by
    intro d
    rw [hinit]
    simp
  obtain ⟨hk, hr⟩ := registered_run g0.sockets g0.closed hm ops g0 g hrun hf hk0 hr0
  have hb := balanced_run g0.sockets ops g0 g hrun hb0 c.sock
  have hcm : c ∈ g.connections := List.getElem?_mem hc
  have honce : (g.sockets.map pollfd.fd).count c.sock = 1 := by
    rw [count_entries, hr.1 c hcm hsock]; rfl
  have hL : (g0.sockets.map pollfd.fd).count c.sock = 0 :=
    List.count_eq_zero.2 (hk.2.2.1 c hcm).1
  have hown : (g.connections.map connection.sock).count c.sock = 1 := by omega
  exact teardown_on_failure g index c env hc hio honce hown

end Idigna
